import Mathlib

/-!
# Verification of the XG scene-graph codec and importer

This development shallowly embeds the core of the `io_scene_xg` package:

* `xganimsep.py` — the fixed-record animation-separation codec;
* `xgscene.py` — the in-memory scene graph (`XgScene`, node types,
  `preadd_node`, `add_dagnode`, `set_property`, `append_inputattrib`);
* `xgscenereader.py` — the binary token-stream parser;
* `xgscenewriter.py` — the binary serializer;
* `xgimporter.py` — `tridata_to_prims`, the triangle-strip winding
  heuristic of `_tri_indices_from_dagmesh`, and the quaternion
  continuity fix-up of `_load_animations`.

Modelling conventions:

* A binary file is a `List Nat` of byte values; wherever byte-ness
  matters a `< 256` hypothesis is carried.  Pascal-string payloads stay
  raw bytes (the Python code decodes them with the injective Shift-JIS
  codec and re-encodes them unchanged on write, so identity on bytes is
  faithful; decode errors of the codec are not modelled).
* 32-bit floats that merely pass through the scene graph are kept as
  their little-endian 32-bit words, because neither the reader nor the
  writer applies any arithmetic to them (`unpack` followed by `pack` is
  the identity on the wire word).  Where the Python code *does* do
  arithmetic on decoded floats (`xganimsep.py`'s `int(...)`, the
  importer's geometry), IEEE-754 binary32 decoding into `ℚ` and exact
  real/rational arithmetic are used.
* Python exceptions become an `XgErr` error type; the distinct
  constructors record which Python exception class was raised and, for
  `XgReadError`, the byte offset it carries.
* Python object identity is modelled with an arena: every constructed
  node gets a sequential index, and the scene's name pool and edges
  refer to nodes by index.
-/

set_option maxRecDepth 100000
set_option synthInstance.maxSize 1000
set_option synthInstance.maxHeartbeats 1000000

deriving instance DecidableEq for Except

namespace Xeios

/-- ASCII bytes of a string literal (all grammar tokens of the XG format
are ASCII, where Shift-JIS coincides with ASCII). -/
def strB (s : String) : List Nat := s.data.map Char.toNat

/-! ## `tridata_to_prims` (xgimporter.py)

`Constants.PrimType.KICKSEP = 4`, `Constants.PrimType.KICKGROUP = 5`
(xgscene.py). -/

/-- `Constants.PrimType.KICKSEP` -/
def KICKSEP : Nat := 4

/-- `Constants.PrimType.KICKGROUP` -/
def KICKGROUP : Nat := 5

/-- The KICKSEP loop of `tridata_to_prims`: while data remains, read a
prim size and slice off that many vertex indices (Python slicing clamps
at the end of the list, as `List.take` does).  Fuelled so that the
definition reduces in the kernel; every iteration consumes at least one
element, so `t.length` fuel (supplied by `kicksepPrims`) is enough. -/
def kicksepGo : Nat → List Nat → List (List Nat)
  | 0, _ => []
  | _, [] => []
  | fuel + 1, n :: rest => rest.take n :: kicksepGo fuel (rest.drop n)

def kicksepPrims (t : List Nat) : List (List Nat) := kicksepGo t.length t

/-- The KICKGROUP loop of `tridata_to_prims`: starting from
`vertex_index`, each entry `n` yields the next `n` consecutive vertex
indices. -/
def kickgroupPrims (vertexIndex : Nat) : List Nat → List (List Nat)
  | [] => []
  | n :: rest => List.range' vertexIndex n :: kickgroupPrims (vertexIndex + n) rest

/-- `tridata_to_prims(tridata, primtype)` from xgimporter.py.  Returns
`none` for the `ValueError` raised on an unexpected primtype. -/
def tridata_to_prims (tridata : List Nat) (primtype : Nat) : Option (List (List Nat)) :=
  if tridata = [] then some []
  else if primtype = KICKSEP then some (kicksepPrims tridata)
  else if primtype = KICKGROUP then
    match tridata with
    | [] => some []
    | start :: counts => some (kickgroupPrims start counts)
  else none

/-- Specification relation, from the claim's words: a KICKSEP stream
splits into primitives each prefixed by its own vertex count. -/
inductive KickSepEncodes : List Nat → List (List Nat) → Prop
  | nil : KickSepEncodes [] []
  | cons (prim : List Nat) (rest : List Nat) (prims : List (List Nat)) :
      KickSepEncodes rest prims →
      KickSepEncodes (prim.length :: (prim ++ rest)) (prim :: prims)

/-- Specification function, from the claim's words: with KICKGROUP the
first element is a global starting index and each subsequent element `n`
produces the next `n` consecutive indices. -/
def kickgroupSpec (start : Nat) (counts : List Nat) : List (List Nat) :=
  (List.range counts.length).map fun i =>
    List.range' (start + ((counts.take i).foldr (· + ·) 0)) (counts.getD i 0)

lemma kicksepGo_encodes {t : List Nat} {prims : List (List Nat)}
    (h : KickSepEncodes t prims) :
    ∀ fuel, t.length ≤ fuel → kicksepGo fuel t = prims := by
  induction h with
  | nil => intro fuel _; cases fuel <;> rfl
  | cons prim rest prims _ ih =>
    intro fuel hf
    cases fuel with
    | zero => simp at hf
    | succ f =>
      show (prim ++ rest).take prim.length :: kicksepGo f ((prim ++ rest).drop prim.length)
          = prim :: prims
      rw [List.take_left, List.drop_left, ih]
      simp only [List.length_cons, List.length_append] at hf
      omega

lemma kicksepPrims_encodes {t : List Nat} {prims : List (List Nat)}
    (h : KickSepEncodes t prims) : kicksepPrims t = prims :=
  kicksepGo_encodes h t.length le_rfl

lemma tridata_to_prims_kicksep (t : List Nat) :
    tridata_to_prims t KICKSEP = some (kicksepPrims t) := by
  cases t <;> rfl

lemma tridata_to_prims_kickgroup (start : Nat) (counts : List Nat) :
    tridata_to_prims (start :: counts) KICKGROUP = some (kickgroupPrims start counts) := rfl

lemma kickgroupPrims_spec (start : Nat) (counts : List Nat) :
    kickgroupPrims start counts = kickgroupSpec start counts := by
  induction counts generalizing start with
  | nil => rfl
  | cons n rest ih =>
    rw [kickgroupPrims, ih]
    unfold kickgroupSpec
    simp only [List.length_cons, List.range_succ_eq_map, List.map_cons, List.map_map,
      List.take_zero, List.foldr_nil, Nat.add_zero, List.getD_cons_zero]
    congr 1
    apply List.map_congr_left
    intro i _
    simp only [Function.comp_apply, List.take_succ_cons, List.foldr_cons,
      List.getD_cons_succ, Nat.add_assoc]

/-- **C6**: for every flat integer sequence, `tridata_to_prims` with
primtype KICKSEP splits it into primitives each prefixed by its own
vertex count (so `[3, 0,1,2, 2, 5,6]` decodes to `[(0,1,2), (5,6)]`),
and with primtype KICKGROUP the first element is a global starting
vertex index and each subsequent element `n` produces a primitive of
the next `n` consecutive indices (so `[10, 3, 2]` decodes to
`[(10,11,12), (13,14)]`). -/
theorem c6_tridata_prims :
    (∀ (t : List Nat) (prims : List (List Nat)), KickSepEncodes t prims →
        tridata_to_prims t KICKSEP = some prims) ∧
    (∀ (start : Nat) (counts : List Nat),
        tridata_to_prims (start :: counts) KICKGROUP = some (kickgroupSpec start counts)) ∧
    tridata_to_prims [3, 0, 1, 2, 2, 5, 6] KICKSEP = some [[0, 1, 2], [5, 6]] ∧
    tridata_to_prims [10, 3, 2] KICKGROUP = some [[10, 11, 12], [13, 14]] := by
  refine ⟨?_, ?_, by decide, by decide⟩
  · intro t prims h
    rw [tridata_to_prims_kicksep, kicksepPrims_encodes h]
  · intro start counts
    rw [tridata_to_prims_kickgroup, kickgroupPrims_spec]

/-- Witness for C6: the KICKSEP clause applied to the concrete stream
`[3, 0,1,2, 2, 5,6]`, whose count-prefixed decomposition is exhibited
explicitly. -/
theorem c6_tridata_prims_witness :
    tridata_to_prims [3, 0, 1, 2, 2, 5, 6] KICKSEP = some [[0, 1, 2], [5, 6]] :=
  c6_tridata_prims.1 [3, 0, 1, 2, 2, 5, 6] [[0, 1, 2], [5, 6]]
    (KickSepEncodes.cons [0, 1, 2] [2, 5, 6] [[5, 6]]
      (KickSepEncodes.cons [5, 6] [] [] KickSepEncodes.nil))

/-! ## Vertex-target decoding (`XgSceneReader._read_vertextargets`) -/

/-- The splitting loop of `XgSceneReader._read_vertextargets`: scan the
int32 data accumulating the run of values read since the last delimiter;
any negative value (the `num >= 0` test failing) emits the accumulated
run as one group and resets it; values after the last delimiter are
never emitted.  (The Python loop tracks the run with slice indices
`idx`/`idxEnd` into `vtData`; since every delimiter resets `idx` past
itself, the slice `vtData[idx:idxEnd]` is exactly the run of
non-negative values scanned since the previous delimiter.) -/
def vertexTargetSplit : List Int → List Int → List (List Int)
  | _, [] => []
  | run, num :: rest =>
      if 0 ≤ num then vertexTargetSplit (run ++ [num]) rest
      else run :: vertexTargetSplit [] rest

/-- The pure splitting step of `_read_vertextargets` applied to decoded
int32 data. -/
def vertexTargetsOfData (vtData : List Int) : List (List Int) :=
  vertexTargetSplit [] vtData

/-- Claim-literal specification of vertex-target decoding: only the
value `-1` delimits and each group is the maximal run of non-negative
values immediately before the next `-1`; a different negative value
breaks a run of non-negative values but, not being `-1`, emits no
group. -/
def vtClaimSpecGo : List Int → List Int → List (List Int)
  | _, [] => []
  | run, num :: rest =>
      if 0 ≤ num then vtClaimSpecGo (run ++ [num]) rest
      else if num = -1 then run :: vtClaimSpecGo [] rest
      else vtClaimSpecGo [] rest

def vtClaimSpecOf (vtData : List Int) : List (List Int) :=
  vtClaimSpecGo [] vtData

lemma vertexTargetSplit_splitOnP (run : List Int) (xs : List Int) :
    vertexTargetSplit run xs
      = ((xs.splitOnP (fun x => decide (x < 0))).modifyHead (run ++ ·)).dropLast := by
  induction xs generalizing run with
  | nil => simp [vertexTargetSplit, List.splitOnP_nil]
  | cons num rest ih =>
    obtain ⟨s, ss, hs⟩ := List.exists_cons_of_ne_nil
      (List.splitOnP_ne_nil (fun x => decide (x < 0)) rest)
    by_cases h : 0 ≤ num
    · rw [vertexTargetSplit, if_pos h, ih, List.splitOnP_cons,
        if_neg (by simpa using h), hs]
      simp [List.append_assoc]
    · rw [vertexTargetSplit, if_neg h, ih, List.splitOnP_cons,
        if_pos (by simpa using lt_of_not_le h), hs]
      simp

/-- **C7** (counterexample): on the int32 array `[3, -2, 4, -1]` the
code emits a group at the `-2` as well (`[[3], [4]]`), whereas the
claim's description — groups are the maximal runs of non-negative
values before each `-1`, with `-1` as *the* delimiter — yields `[[4]]`.
So the claim, quantified over every flat int32 array, is false. -/
theorem c7_vertextargets_counterexample :
    vertexTargetsOfData [3, -2, 4, -1] = [[3], [4]] ∧
    vtClaimSpecOf [3, -2, 4, -1] = [[4]] ∧
    vertexTargetsOfData [3, -2, 4, -1] ≠ vtClaimSpecOf [3, -2, 4, -1] := by
  refine ⟨by decide, by decide, by decide⟩

/-- **C7** (amended): vertex-target decoding splits the flat int32 array
into ordered groups using *any negative value* as a group delimiter:
the decoded groups are the segments of the array delimited by negative
values, with the trailing segment after the last delimiter discarded.
In particular `[2, 5, -1, 0, -1]` decodes to `[(2,5), (0,)]`. -/
theorem c7_vertextargets_amended :
    (∀ xs : List Int,
        vertexTargetsOfData xs = (xs.splitOnP (fun x => decide (x < 0))).dropLast) ∧
    vertexTargetsOfData [2, 5, -1, 0, -1] = [[2, 5], [0]] := by
  refine ⟨?_, by decide⟩
  intro xs
  rw [vertexTargetsOfData, vertexTargetSplit_splitOnP]
  obtain ⟨s, ss, hs⟩ := List.exists_cons_of_ne_nil
    (List.splitOnP_ne_nil (fun x => decide (x < 0)) xs)
  rw [hs]
  simp

/-! ## Byte and IEEE-754 binary32 primitives -/

/-- Little-endian 32-bit word from four bytes of `bs` starting at `i`
(missing positions read as 0; callers establish the length). -/
def word32At (bs : List Nat) (i : Nat) : Nat :=
  bs.getD i 0 + 256 * (bs.getD (i + 1) 0 + 256 * (bs.getD (i + 2) 0 + 256 * bs.getD (i + 3) 0))

/-- The four little-endian bytes of the 32-bit word `w % 2^32`
(`struct.pack` raises for out-of-range values; every theorem below
only applies this to in-range values). -/
def bytesOfWord32 (w : Nat) : List Nat :=
  [w % 256, w / 256 % 256, w / 2 ^ 16 % 256, w / 2 ^ 24 % 256]

/-- The value of a binary32 word: `finite q` with the exact rational
value, or `nonFinite` when the exponent field is all-ones (infinity or
NaN). -/
inductive F32Val
  | finite (q : ℚ)
  | nonFinite
deriving DecidableEq

/-- Exact decoding of a little-endian binary32 word (the value
`struct.unpack("<f", ...)` produces, widened losslessly to a Python
float). -/
def decodeF32 (w : Nat) : F32Val :=
  let s : Nat := w / 2 ^ 31 % 2
  let e : Nat := w / 2 ^ 23 % 256
  let m : Nat := w % 2 ^ 23
  if e = 255 then .nonFinite
  else
    let mag : ℤ × ℕ :=
      if e = 0 then (Int.ofNat m, 2 ^ 149)
      else if e ≤ 150 then (Int.ofNat (2 ^ 23 + m), 2 ^ (150 - e))
      else (Int.ofNat ((2 ^ 23 + m) * 2 ^ (e - 150)), 1)
    .finite (mkRat (if s = 1 then -mag.1 else mag.1) mag.2)

/-- Structurally fuelled binary logarithm (`Nat.log2` is defined by
well-founded recursion, which the kernel will not reduce; the number of
halvings is bounded by `n` itself, so `n` fuel suffices). -/
def natLog2Go : Nat → Nat → Nat
  | 0, _ => 0
  | fuel + 1, n => if 2 ≤ n then natLog2Go fuel (n / 2) + 1 else 0

def natLog2 (n : Nat) : Nat := natLog2Go n n

/-- Round a positive integer to `prec` significant bits,
round-to-nearest, ties to even (the rounding of both `float(int)` and
`_PyFloat_Pack4`).  Returns the rounded value itself. -/
def rne (prec a : Nat) : Nat :=
  let k := natLog2 a
  if k < prec then a
  else
    let shift := k - prec + 1
    let q := a / 2 ^ shift
    let r := a % 2 ^ shift
    let half := 2 ^ (shift - 1)
    let q2 := if half < r ∨ (r = half ∧ q % 2 = 1) then q + 1 else q
    q2 * 2 ^ shift

/-- `struct.pack("<f", n)` for a Python int `n` (word value of the four
bytes).  CPython first converts the int to a binary64 double
(`round-to-nearest-even`; `OverflowError` when the rounded magnitude
reaches `2^1024`), then packs that double as binary32
(round-to-nearest-even again; `OverflowError: float too large to pack
with f format` when the rounded magnitude reaches `2^128`).  `none`
models either raise; both steps are exact whenever `|n| ≤ 2^24`,
which covers every value the theorems below evaluate. -/
def encodeF32Int (z : ℤ) : Option Nat :=
  if z = 0 then some 0
  else
    let s : Nat := if z < 0 then 2 ^ 31 else 0
    let d := rne 53 z.natAbs
    if 2 ^ 1024 ≤ d then none
    else
      let v := rne 24 d
      if 2 ^ 128 ≤ v then none
      else
        let k := natLog2 v
        if k ≤ 23 then some (s + (k + 127) * 2 ^ 23 + (v * 2 ^ (23 - k) - 2 ^ 23))
        else some (s + (k + 127) * 2 ^ 23 + (v / 2 ^ (k - 23) - 2 ^ 23))

/-- Python `int(...)` on a finite float value: truncation toward zero
(`q.den` is positive, so integer division of `|num|` by `den` with the
sign restored afterwards). -/
def ratTrunc (q : ℚ) : ℤ :=
  if 0 ≤ q.num then Int.ofNat (q.num.toNat / q.den)
  else -Int.ofNat ((-q.num).toNat / q.den)

/-! ## Animation-separation codec (xganimsep.py) -/

/-- Errors raised by `read_animseps`/`write_animseps`:
`structError` is `struct.error` (a record slice shorter than 32 bytes,
or a uint32 field out of `pack`'s range), `nonFiniteError` is the
`ValueError`/`OverflowError` raised by `int(...)` on a NaN or
infinity. -/
inductive AnimSepErr
  | structError
  | nonFiniteError
deriving DecidableEq

/-- The fields `AnimSepEntry.__init__` actually stores. -/
structure AnimSepEntry where
  playback_length : ℤ
  keyframe_interval : ℤ
  start_keyframe_idx : ℤ
  speed_mode : ℤ
deriving DecidableEq

/-- `int(x)` for a float argument of the `AnimSepEntry` constructor. -/
def intOfF32 : F32Val → Except AnimSepErr ℤ
  | .finite q => .ok (ratTrunc q)
  | .nonFinite => .error .nonFiniteError

/-- `AnimSepEntry.__init__(playback_length, keyframe_interval, unused60,
start_keyframe_idx, speed_mode, unused01, unused02, unused03)`: the
first, second and fourth float arguments are truncated with `int(...)`
and stored; `unused60` and the three trailing arguments are discarded;
`speed_mode` is stored unchanged. -/
def mkAnimSepEntry (pl ki _unused60 ski : F32Val) (sm _u1 _u2 _u3 : ℤ) :
    Except AnimSepErr AnimSepEntry := do
  let pli ← intOfF32 pl
  let kii ← intOfF32 ki
  let skii ← intOfF32 ski
  .ok { playback_length := pli, keyframe_interval := kii,
        start_keyframe_idx := skii, speed_mode := sm }

/-- `AnimSepEntry.allvalues`. -/
def AnimSepEntry.allvalues (e : AnimSepEntry) : ℤ × ℤ × ℤ × ℤ × ℤ × ℤ × ℤ × ℤ :=
  (e.playback_length, e.keyframe_interval, 60, e.start_keyframe_idx, e.speed_mode, 0, 0, 0)

/-- `_struct_animsep_entry.unpack(entrydata)` followed by
`AnimSepEntry(*...)`: requires exactly 32 bytes (else `struct.error`). -/
def unpackAnimSepEntry (bs : List Nat) : Except AnimSepErr AnimSepEntry :=
  if bs.length = 32 then
    mkAnimSepEntry (decodeF32 (word32At bs 0)) (decodeF32 (word32At bs 4))
      (decodeF32 (word32At bs 8)) (decodeF32 (word32At bs 12))
      (word32At bs 16) (word32At bs 20) (word32At bs 24) (word32At bs 28)
  else .error .structError

/-- The `for i in range(num_entries)` loop of `read_animseps`. -/
def readAnimsepLoop (data : List Nat) : Nat → Nat → Except AnimSepErr (List AnimSepEntry)
  | _, 0 => .ok []
  | i, k + 1 =>
      match unpackAnimSepEntry ((data.drop (i * 32)).take 32) with
      | .error err => .error err
      | .ok e =>
          match readAnimsepLoop data (i + 1) k with
          | .error err => .error err
          | .ok rest => .ok (e :: rest)

/-- `read_animseps(file, num_entries)`, with the file modelled as the
byte list from the current position on.  With `num_entries = none` the
whole remainder is read and the count inferred as `len // 32`; with an
explicit count, exactly `32 * n` bytes are read.  Returns the entries
and the stream position (bytes consumed) after the read. -/
def read_animseps (stream : List Nat) (num_entries : Option Nat) :
    Except AnimSepErr (List AnimSepEntry × Nat) :=
  match num_entries with
  | none =>
      match readAnimsepLoop stream 0 (stream.length / 32) with
      | .error err => .error err
      | .ok es => .ok (es, stream.length)
  | some n =>
      match readAnimsepLoop (stream.take (32 * n)) 0 n with
      | .error err => .error err
      | .ok es => .ok (es, min (32 * n) stream.length)

/-- `_struct_animsep_entry.pack(*entry.allvalues)`: the four float wire
fields followed by the four uint32 wire fields; `none` models the raise
on a float field beyond the binary32 range as well as the
`struct.error` on a uint32 field outside `[0, 2^32)`. -/
def packAnimSepEntry (e : AnimSepEntry) : Option (List Nat) :=
  match encodeF32Int e.playback_length, encodeF32Int e.keyframe_interval,
      encodeF32Int 60, encodeF32Int e.start_keyframe_idx with
  | some w1, some w2, some w3, some w4 =>
      if 0 ≤ e.speed_mode ∧ e.speed_mode < 2 ^ 32 then
        some (bytesOfWord32 w1 ++ bytesOfWord32 w2 ++ bytesOfWord32 w3 ++ bytesOfWord32 w4
          ++ bytesOfWord32 e.speed_mode.toNat
          ++ bytesOfWord32 0 ++ bytesOfWord32 0 ++ bytesOfWord32 0)
      else none
  | _, _, _, _ => none

/-- `write_animseps(file, animsep)`: the concatenated packed records. -/
def write_animseps (entries : List AnimSepEntry) : Option (List Nat) :=
  (entries.mapM packAnimSepEntry).map List.flatten

/-- `true` iff an `Except` computation succeeded. -/
def exceptOk {ε α : Type} : Except ε α → Bool
  | .ok _ => true
  | .error _ => false

lemma readAnimsepLoop_ok (data : List Nat) :
    ∀ (k i : Nat),
      (∀ j, j < k → exceptOk (unpackAnimSepEntry ((data.drop ((i + j) * 32)).take 32)) = true) →
      ∃ es, readAnimsepLoop data i k = .ok es ∧ es.length = k := by
  intro k
  induction k with
  | zero => exact fun i _ => ⟨[], rfl, rfl⟩
  | succ k ih =>
    intro i h
    have h0 := h 0 k.succ_pos
    rw [Nat.add_zero] at h0
    cases hu : unpackAnimSepEntry ((data.drop (i * 32)).take 32) with
    | error err => rw [hu] at h0; simp [exceptOk] at h0
    | ok e =>
      obtain ⟨es, hes, hlen⟩ := ih (i + 1) (fun j hj => by
        have hh := h (j + 1) (Nat.succ_lt_succ hj)
        have harith : i + (j + 1) = i + 1 + j := by omega
        rwa [harith] at hh)
      exact ⟨e :: es, by rw [readAnimsepLoop, hu, hes], by simp [hlen]⟩

/-- **C8** (counterexample): the claim quantifies over every 320-byte
stream, but on the stream of 320 `0xFF` bytes the float fields decode
to NaN, `int(...)` in the `AnimSepEntry` constructor raises, and
`read_animseps` propagates the error instead of returning 10
entries. -/
theorem c8_animseps_counterexample :
    read_animseps (List.replicate 320 255) none = .error AnimSepErr.nonFiniteError := by
  decide

/-- **C8** (amended): provided each record's converted float fields
(`playback_length`, `keyframe_interval`, `start_keyframe_idx`) decode
to finite values — equivalently, each 32-byte record unpacks into an
entry — `read_animseps` with `num_entries = None` on a 320-byte stream
returns exactly 10 entries consuming the whole stream, and with
`num_entries = 3` on a stream holding at least 10 records returns
exactly 3 entries consuming exactly 96 bytes, leaving the stream
positioned immediately after byte 96. -/
theorem c8_animseps_amended :
    (∀ stream : List Nat, stream.length = 320 →
      (∀ j, j < 10 → exceptOk (unpackAnimSepEntry ((stream.drop (j * 32)).take 32)) = true) →
      ∃ es, read_animseps stream none = .ok (es, 320) ∧ es.length = 10) ∧
    (∀ stream : List Nat, 320 ≤ stream.length →
      (∀ j, j < 3 → exceptOk (unpackAnimSepEntry ((stream.drop (j * 32)).take 32)) = true) →
      ∃ es, read_animseps stream (some 3) = .ok (es, 96) ∧ es.length = 3) := by
  constructor
  · intro stream hlen h
    obtain ⟨es, hes, hn⟩ := readAnimsepLoop_ok stream 10 0 (fun j hj => by
      have := h j hj; rwa [Nat.zero_add])
    refine ⟨es, ?_, hn⟩
    rw [read_animseps, hlen]
    norm_num [hes]
  · intro stream hlen h
    have hslice : ∀ j, j < 3 →
        ((stream.take 96).drop (j * 32)).take 32 = (stream.drop (j * 32)).take 32 := by
      intro j hj
      rw [List.drop_take]
      rw [List.take_take]
      congr 1
      interval_cases j <;> norm_num
    obtain ⟨es, hes, hn⟩ := readAnimsepLoop_ok (stream.take 96) 3 0 (fun j hj => by
      have := h j hj
      rw [Nat.zero_add, hslice j hj]
      exact this)
    refine ⟨es, ?_, hn⟩
    rw [read_animseps]
    norm_num [hes]
    omega

/-- Witness for C8: the amended theorem applied to the all-zero
320-byte stream. -/
theorem c8_animseps_amended_witness :
    (List.replicate 320 (0 : Nat)).length = 320 ∧
    ∃ es, read_animseps (List.replicate 320 (0 : Nat)) none = .ok (es, 320) ∧
      es.length = 10 :=
  ⟨by decide, c8_animseps_amended.1 (List.replicate 320 0) (by decide) (by decide)⟩

/-- A wire record that stores `playback_length = 1.5f`,
`keyframe_interval = 1.0f`, `30.0f` in the unused third field, `0.0f`,
`speed_mode = 1`, and the nonstandard reserved values 5, 6, 7. -/
def animsepFracRecord : List Nat :=
  [0, 0, 192, 63] ++ [0, 0, 128, 63] ++ [0, 0, 240, 65] ++ [0, 0, 0, 0]
    ++ [1, 0, 0, 0] ++ [5, 0, 0, 0] ++ [6, 0, 0, 0] ++ [7, 0, 0, 0]

/-- The entry `read_animseps` produces from `animsepFracRecord`. -/
def animsepFracEntry : AnimSepEntry :=
  { playback_length := 1, keyframe_interval := 1,
    start_keyframe_idx := 0, speed_mode := 1 }

/-- Counterexample to C10 as stated: the claim quantifies over every
`AnimSepEntry` "regardless of the values it was constructed with", but
`AnimSepEntry(playback_length=2**128)` is constructible (`int()` accepts
it), and on it `write_animseps` raises inside `struct.pack` (the value
exceeds the binary32 range) — no 32-byte record with the eight fields is
emitted at all. -/
theorem c10_animsep_counterexample :
    write_animseps [{ playback_length := 2 ^ 128, keyframe_interval := 1,
                      start_keyframe_idx := 0, speed_mode := 0 }] = none := by
  decide

/-- **C10** (amended): for every `AnimSepEntry` whose `speed_mode` is in
`uint32` range and whose three converted float wire fields are within
the binary32 range (`struct.pack` raises otherwise), the 32-byte record
emitted by `write_animseps` has exactly the eight fields
`(int(playback_length), int(keyframe_interval), 60,
int(start_keyframe_idx), speed_mode, 0, 0, 0)`: the three converted
float wire fields are truncated to integers at construction time, the
unused and reserved constructor arguments are discarded, and rewriting
a record that held a fractional length, a nonstandard unused third
field, or nonzero reserved fields does not reproduce those bytes. -/
theorem c10_animsep_write_amended :
    (∀ (pl ki u60 ski : ℚ) (sm u1 u2 u3 : ℤ),
      mkAnimSepEntry (.finite pl) (.finite ki) (.finite u60) (.finite ski) sm u1 u2 u3
        = .ok { playback_length := ratTrunc pl, keyframe_interval := ratTrunc ki,
                start_keyframe_idx := ratTrunc ski, speed_mode := sm }) ∧
    (∀ (e : AnimSepEntry) (w1 w2 w3 w4 : Nat), 0 ≤ e.speed_mode → e.speed_mode < 2 ^ 32 →
      encodeF32Int e.playback_length = some w1 →
      encodeF32Int e.keyframe_interval = some w2 →
      encodeF32Int 60 = some w3 →
      encodeF32Int e.start_keyframe_idx = some w4 →
      ∃ bs, write_animseps [e] = some bs ∧ bs.length = 32 ∧
        bs = bytesOfWord32 w1 ++ bytesOfWord32 w2 ++ bytesOfWord32 w3 ++ bytesOfWord32 w4
          ++ bytesOfWord32 e.speed_mode.toNat
          ++ bytesOfWord32 0 ++ bytesOfWord32 0 ++ bytesOfWord32 0) ∧
    (read_animseps animsepFracRecord none = .ok ([animsepFracEntry], 32) ∧
      write_animseps [animsepFracEntry]
        = some ([0, 0, 128, 63] ++ [0, 0, 128, 63] ++ [0, 0, 112, 66] ++ [0, 0, 0, 0]
            ++ [1, 0, 0, 0] ++ [0, 0, 0, 0] ++ [0, 0, 0, 0] ++ [0, 0, 0, 0]) ∧
      ([0, 0, 128, 63] ++ [0, 0, 128, 63] ++ [0, 0, 112, 66] ++ [0, 0, 0, 0]
            ++ [1, 0, 0, 0] ++ [0, 0, 0, 0] ++ [0, 0, 0, 0] ++ ([0, 0, 0, 0] : List Nat))
        ≠ animsepFracRecord) := by
  refine ⟨fun pl ki u60 ski sm u1 u2 u3 => rfl, ?_, by decide, by decide, by decide⟩
  intro e w1 w2 w3 w4 h0 h1 he1 he2 he3 he4
  refine ⟨_, ?_, ?_, rfl⟩
  · simp only [write_animseps, List.mapM_cons, List.mapM_nil, packAnimSepEntry,
      he1, he2, he3, he4]
    rw [if_pos ⟨h0, h1⟩]
    rfl
  · simp [bytesOfWord32]

/-- Witness for C10: the emission clause applied to the entry parsed
from `animsepFracRecord`. -/
theorem c10_animsep_write_amended_witness :
    ∃ bs, write_animseps [animsepFracEntry] = some bs ∧ bs.length = 32 := by
  obtain ⟨bs, hb, hl, _⟩ := c10_animsep_write_amended.2.1 animsepFracEntry
    1065353216 1065353216 1114636288 0
    (by decide) (by decide) (by decide) (by decide) (by decide) (by decide)
  exact ⟨bs, hb, hl⟩

/-! ## Scene graph model (xgscene.py)

Python object identity is modelled with an arena: every constructed node
is appended to `XgScene.arena` and is referred to by its index there.
The name pool (`_preadded_nodes`, an insertion-ordered dict) maps names
to arena indices, and input-attribute edges and the DAG hold arena
indices. -/

/-- The 16 node classes of xgscene.py. -/
inductive NodeType
  | xgBgGeometry | xgBgMatrix | xgBone | xgDagMesh | xgDagTransform | xgEnvelope
  | xgMaterial | xgMultiPassMaterial | xgNormalInterpolator | xgQuatInterpolator
  | xgShapeInterpolator | xgTexCoordInterpolator | xgTexture | xgTime
  | xgVec3Interpolator | xgVertexInterpolator
deriving DecidableEq

/-- `xgnode_type`: the type token as written in an XG file. -/
def nodeTypeToken : NodeType → List Nat
  | .xgBgGeometry => strB "xgBgGeometry"
  | .xgBgMatrix => strB "xgBgMatrix"
  | .xgBone => strB "xgBone"
  | .xgDagMesh => strB "xgDagMesh"
  | .xgDagTransform => strB "xgDagTransform"
  | .xgEnvelope => strB "xgEnvelope"
  | .xgMaterial => strB "xgMaterial"
  | .xgMultiPassMaterial => strB "xgMultiPassMaterial"
  | .xgNormalInterpolator => strB "xgNormalInterpolator"
  | .xgQuatInterpolator => strB "xgQuatInterpolator"
  | .xgShapeInterpolator => strB "xgShapeInterpolator"
  | .xgTexCoordInterpolator => strB "xgTexCoordInterpolator"
  | .xgTexture => strB "xgTexture"
  | .xgTime => strB "xgTime"
  | .xgVec3Interpolator => strB "xgVec3Interpolator"
  | .xgVertexInterpolator => strB "xgVertexInterpolator"

/-- All node types, in the order of `_nodeclasses`. -/
def allNodeTypes : List NodeType :=
  [.xgBgGeometry, .xgBgMatrix, .xgBone, .xgDagMesh, .xgDagTransform, .xgEnvelope,
   .xgMaterial, .xgMultiPassMaterial, .xgNormalInterpolator, .xgQuatInterpolator,
   .xgShapeInterpolator, .xgTexCoordInterpolator, .xgTexture, .xgTime,
   .xgVec3Interpolator, .xgVertexInterpolator]

/-- `_nodenames_to_nodeclasses` lookup used by `new_xgnode`. -/
def nodeTypeOfToken (tok : List Nat) : Option NodeType :=
  allNodeTypes.find? (fun nt => decide (nodeTypeToken nt = tok))

/-- The property names of the node classes (the class annotations not
starting with `input`). -/
inductive PropName
  | blendType | cullFunc | flags | mipmap_depth | primCount | primType | shadingType
  | startVertex | textureEnv | triFanCount | triListCount | triStripCount | typeVal
  | uTile | vTile
  | density | numFrames | timeVal
  | position | scale
  | diffuse | rotation | specular
  | primData | triFanData | triListData | triStripData | targets
  | times | restMatrix | url | vertexTargets | vertices | weights | keys
deriving DecidableEq

/-- The token string of a property name (`typeVal` and `timeVal` stand
for the Python attribute names `type` and `time`). -/
def propNameToken : PropName → List Nat
  | .blendType => strB "blendType"
  | .cullFunc => strB "cullFunc"
  | .flags => strB "flags"
  | .mipmap_depth => strB "mipmap_depth"
  | .primCount => strB "primCount"
  | .primType => strB "primType"
  | .shadingType => strB "shadingType"
  | .startVertex => strB "startVertex"
  | .textureEnv => strB "textureEnv"
  | .triFanCount => strB "triFanCount"
  | .triListCount => strB "triListCount"
  | .triStripCount => strB "triStripCount"
  | .typeVal => strB "type"
  | .uTile => strB "uTile"
  | .vTile => strB "vTile"
  | .density => strB "density"
  | .numFrames => strB "numFrames"
  | .timeVal => strB "time"
  | .position => strB "position"
  | .scale => strB "scale"
  | .diffuse => strB "diffuse"
  | .rotation => strB "rotation"
  | .specular => strB "specular"
  | .primData => strB "primData"
  | .triFanData => strB "triFanData"
  | .triListData => strB "triListData"
  | .triStripData => strB "triStripData"
  | .targets => strB "targets"
  | .times => strB "times"
  | .restMatrix => strB "restMatrix"
  | .url => strB "url"
  | .vertexTargets => strB "vertexTargets"
  | .vertices => strB "vertices"
  | .weights => strB "weights"
  | .keys => strB "keys"

/-- The input-attribute names. -/
inductive AttribName
  | inputGeometry | inputMaterial | inputMatrix | inputMatrix1 | inputParentMatrix
  | inputPosition | inputRotation | inputScale | inputTexture | inputTime
deriving DecidableEq

def attribToken : AttribName → List Nat
  | .inputGeometry => strB "inputGeometry"
  | .inputMaterial => strB "inputMaterial"
  | .inputMatrix => strB "inputMatrix"
  | .inputMatrix1 => strB "inputMatrix1"
  | .inputParentMatrix => strB "inputParentMatrix"
  | .inputPosition => strB "inputPosition"
  | .inputRotation => strB "inputRotation"
  | .inputScale => strB "inputScale"
  | .inputTexture => strB "inputTexture"
  | .inputTime => strB "inputTime"

/-- `inputattrib_to_outputattrib` from xgscenewriter.py. -/
def outputAttribToken : AttribName → List Nat
  | .inputGeometry => strB "outputGeometry"
  | .inputMatrix => strB "outputMatrix"
  | .inputMatrix1 => strB "envelopeMatrix"
  | .inputMaterial => strB "outputMaterial"
  | .inputPosition => strB "outputVec3"
  | .inputRotation => strB "outputQuat"
  | .inputScale => strB "outputVec3"
  | .inputParentMatrix => strB "outputMatrix"
  | .inputTexture => strB "outputTexture"
  | .inputTime => strB "outputTime"

/-- A `Vertices` namedtuple; float components are kept as their 32-bit
wire words. -/
structure VertData where
  coords : List (Nat × Nat × Nat)
  normals : List (Nat × Nat × Nat)
  colors : List (Nat × Nat × Nat × Nat)
  texcoords : List (Nat × Nat)
deriving DecidableEq

/-- A property value as stored on a node by the reader.  Floats are
their 32-bit wire words (neither reader nor writer does arithmetic on
them); vertex-target groups hold int32 values. -/
inductive PropVal
  | u32 (v : Nat)
  | f32 (w : Nat)
  | f3 (a b c : Nat)
  | f4 (a b c d : Nat)
  | u32s (vs : List Nat)
  | f32s (ws : List Nat)
  | mat (ws : List Nat)
  | str (s : List Nat)
  | vts (gs : List (List Int))
  | verts (v : VertData)
  | wts (ws : List (Nat × Nat × Nat × Nat))
  | keysV3 (ks : List (Nat × Nat × Nat))
  | keysV4 (ks : List (Nat × Nat × Nat × Nat))
  | keysTex (ks : List (List (Nat × Nat)))
  | keysV3s (ks : List (List (Nat × Nat × Nat)))
  | keysShape (ks : List VertData)
deriving DecidableEq

/-- An XG node: name (None until assigned), type, insertion-ordered
properties, and insertion-ordered input-attribute edges holding arena
indices of their targets (the unused `outputtype` argument of
`append_inputattrib` is discarded by the Python code as well). -/
structure XgNode where
  name : Option (List Nat)
  ntype : NodeType
  props : List (PropName × PropVal)
  inattribs : List (AttribName × List Nat)
deriving DecidableEq

/-- `_valid_property_names` per class (from the class annotations). -/
def validProps : NodeType → List PropName
  | .xgBgGeometry => [.density, .vertices]
  | .xgBgMatrix => [.position, .rotation, .scale]
  | .xgBone => [.restMatrix]
  | .xgDagMesh => [.primType, .primCount, .primData, .triFanCount, .triFanData,
      .triStripCount, .triStripData, .triListCount, .triListData, .cullFunc]
  | .xgDagTransform => []
  | .xgEnvelope => [.startVertex, .weights, .vertexTargets]
  | .xgMaterial => [.blendType, .shadingType, .diffuse, .specular, .flags,
      .textureEnv, .uTile, .vTile]
  | .xgMultiPassMaterial => []
  | .xgNormalInterpolator => [.typeVal, .times, .keys, .targets]
  | .xgQuatInterpolator => [.typeVal, .times, .keys]
  | .xgShapeInterpolator => [.typeVal, .times, .keys, .targets]
  | .xgTexCoordInterpolator => [.typeVal, .times, .keys, .targets]
  | .xgTexture => [.url, .mipmap_depth]
  | .xgTime => [.numFrames, .timeVal]
  | .xgVec3Interpolator => [.typeVal, .times, .keys]
  | .xgVertexInterpolator => [.typeVal, .times, .keys, .targets]

/-- `_valid_input_attributes` per class (the `input*` annotations). -/
def validAttribs : NodeType → List AttribName
  | .xgBgGeometry => [.inputGeometry]
  | .xgBgMatrix => [.inputPosition, .inputRotation, .inputScale, .inputParentMatrix]
  | .xgBone => [.inputMatrix]
  | .xgDagMesh => [.inputGeometry, .inputMaterial]
  | .xgDagTransform => [.inputMatrix]
  | .xgEnvelope => [.inputMatrix1, .inputGeometry]
  | .xgMaterial => [.inputTexture]
  | .xgMultiPassMaterial => [.inputMaterial]
  | .xgNormalInterpolator => [.inputTime]
  | .xgQuatInterpolator => [.inputTime]
  | .xgShapeInterpolator => [.inputTime]
  | .xgTexCoordInterpolator => [.inputTime]
  | .xgTexture => []
  | .xgTime => []
  | .xgVec3Interpolator => [.inputTime]
  | .xgVertexInterpolator => [.inputTime]

/-- Errors raised by the scene model and the reader.  The constructors
record the Python exception class; `readError` additionally records the
byte offset the `XgReadError` carries. -/
inductive ErrDetail
  | notYetDeclared (name : List Nat)
  | unexpectedSep (tok : List Nat)
  | unknownBodyToken (tok : List Nat)
  | badKeysNodetype
  | nonexistentInput (name : List Nat)
  | dagExpectedOpen (tok : List Nat)
  | dagNodeMissing (name : List Nat)
  | dagExpectedBracket (tok : List Nat)
  | dagChildMissing (name : List Nat)
deriving DecidableEq

inductive XgErr
  | invalidFile
  | readError (d : ErrDetail) (offset : Nat)
  | sceneError
  | eofError
  | structError
  | attrError
  | typeError
  | valueError
deriving DecidableEq

/-- Insertion-ordered map update, as Python dict/`setattr` assignment:
an existing key keeps its position and gets the new value, a new key is
appended. -/
def assocSet {κ ν : Type} [DecidableEq κ] (k : κ) (v : ν) : List (κ × ν) → List (κ × ν)
  | [] => [(k, v)]
  | (k0, v0) :: rest => if k0 = k then (k0, v) :: rest else (k0, v0) :: assocSet k v rest

def assocGet {κ ν : Type} [DecidableEq κ] (m : List (κ × ν)) (k : κ) : Option ν :=
  (m.find? (fun p => decide (p.1 = k))).map (·.2)

/-- `XgBaseNode.set_property`: checks the name against the class's
valid property names (`AttributeError` otherwise), then assigns. -/
def XgNode.set_property (n : XgNode) (p : PropName) (v : PropVal) : Except XgErr XgNode :=
  if p ∈ validProps n.ntype then .ok { n with props := assocSet p v n.props }
  else .error .attrError

/-- The list-append step of `append_inputattrib` on the insertion-ordered
attribute map. -/
def assocAppend (a : AttribName) (i : Nat) : List (AttribName × List Nat) → List (AttribName × List Nat)
  | [] => [(a, [i])]
  | (a0, l) :: rest => if a0 = a then (a0, l ++ [i]) :: rest else (a0, l) :: assocAppend a i rest

/-- `XgBaseNode.append_inputattrib`: checks the name against the class's
valid input attributes (`AttributeError` otherwise), then appends the
target to the existing list (creating it if absent). -/
def XgNode.append_inputattrib (n : XgNode) (a : AttribName) (target : Nat) : Except XgErr XgNode :=
  if a ∈ validAttribs n.ntype then .ok { n with inattribs := assocAppend a target n.inattribs }
  else .error .attrError

/-- An XG scene: the arena of every constructed node, the name pool
(`_preadded_nodes`), and the DAG (`_dag`), both insertion-ordered. -/
structure XgScene where
  arena : List XgNode
  pool : List (List Nat × Nat)
  dag : List (Nat × List Nat)
deriving DecidableEq

def XgScene.empty : XgScene := ⟨[], [], []⟩

/-- Construct a node object: appends it to the arena and returns its
index. -/
def XgScene.createNode (sc : XgScene) (nd : XgNode) : XgScene × Nat :=
  ({ sc with arena := sc.arena ++ [nd] }, sc.arena.length)

/-- Replace the node stored at index `i` (attribute mutation). -/
def XgScene.updNode (sc : XgScene) (i : Nat) (nd : XgNode) : XgScene :=
  { sc with arena := sc.arena.set i nd }

/-- `XgScene.preadd_node`: `ValueError` when the node has no name,
otherwise a dict assignment `_preadded_nodes[name] = node`. -/
def XgScene.preadd_node (sc : XgScene) (i : Nat) : Except XgErr XgScene :=
  match sc.arena.get? i with
  | none => .error .valueError
  | some nd =>
    match nd.name with
    | none => .error .valueError
    | some nm => .ok { sc with pool := assocSet nm i sc.pool }

/-- `XgScene.get_node`: `none` models the `LookupError` for an unknown
name (each caller converts it to its own error). -/
def XgScene.get_node (sc : XgScene) (nm : List Nat) : Option Nat :=
  assocGet sc.pool nm

def isDagType : NodeType → Bool
  | .xgDagTransform => true
  | .xgDagMesh => true
  | _ => false

/-- `self._dag[dagnode].extend(c for c in children if c not in
self._dag[dagnode])`: the generator is consumed while extending, so
each candidate is tested against the list grown so far. -/
def dagChildrenMerge (cur : List Nat) : List Nat → List Nat
  | [] => cur
  | c :: cs => if c ∈ cur then dagChildrenMerge cur cs else dagChildrenMerge (cur ++ [c]) cs

/-- `XgScene.add_dagnode`: first every node of `(dagnode, *children)`
is type-checked (`TypeError` when one is not a DAG node type — an index
outside the arena cannot arise from the Python code, where every
reference is a live object, and is folded into this failure), then
every node is checked to be pre-added (`ValueError` otherwise), and
only then is the DAG modified. -/
def XgScene.add_dagnode (sc : XgScene) (dagnode : Nat) (children : List Nat) :
    Except XgErr XgScene :=
  if (dagnode :: children).all
      (fun i => (sc.arena.get? i).elim false (fun nd => isDagType nd.ntype)) then
    if (dagnode :: children).all (fun i => (sc.pool.map (·.2)).contains i) then
      match assocGet sc.dag dagnode with
      | some cur => .ok { sc with dag := assocSet dagnode (dagChildrenMerge cur children) sc.dag }
      | none => .ok { sc with dag := sc.dag ++ [(dagnode, children)] }
    else .error .valueError
  else .error .typeError

/-! ## Scene reader (xgscenereader.py)

The stream is the remaining byte list plus the absolute position and
`_dbg_tokenpos` (the file position of the last-read Pascal string,
used as the offset of `XgReadError`s). -/

structure PState where
  data : List Nat
  pos : Nat
  tokPos : Nat
deriving DecidableEq

/-- `_read_pstr`: records the token position, reads the length byte and
the payload; `EOFError` at end of stream or on a short payload. -/
def readPstr (s : PState) : Except XgErr (List Nat × PState) :=
  match s.data with
  | [] => .error .eofError
  | len :: rest =>
      if rest.length < len then .error .eofError
      else .ok (rest.take len, ⟨rest.drop len, s.pos + 1 + len, s.pos⟩)

/-- `_read_uint32()` (also `_read_float32()`/`_read_int32()`, whose
results are kept as the same wire word): `struct.error` when fewer than
4 bytes remain. -/
def readWord (s : PState) : Except XgErr (Nat × PState) :=
  match s.data with
  | b0 :: b1 :: b2 :: b3 :: rest =>
      .ok (b0 + 256 * (b1 + 256 * (b2 + 256 * b3)), ⟨rest, s.pos + 4, s.tokPos⟩)
  | _ => .error .structError

/-- `_read_uint32(size)`: `size` words at once. -/
def readWordList (s : PState) : Nat → Except XgErr (List Nat × PState)
  | 0 => .ok ([], s)
  | k + 1 =>
      match readWord s with
      | .error e => .error e
      | .ok (w, s1) =>
          match readWordList s1 k with
          | .error e => .error e
          | .ok (ws, s2) => .ok (w :: ws, s2)

/-- The int32 value of a wire word (two's complement). -/
def i32OfWord (w : Nat) : ℤ :=
  if w < 2 ^ 31 then (w : ℤ) else (w : ℤ) - 2 ^ 32

/-- Repeat a sub-reader a fixed number of times (the
`[... for _ in range(n)]` loops). -/
def readCount {α : Type} (rd : PState → Except XgErr (α × PState)) (s : PState) :
    Nat → Except XgErr (List α × PState)
  | 0 => .ok ([], s)
  | k + 1 =>
      match rd s with
      | .error e => .error e
      | .ok (x, s1) =>
          match readCount rd s1 k with
          | .error e => .error e
          | .ok (xs, s2) => .ok (x :: xs, s2)

def readF2 (s : PState) : Except XgErr ((Nat × Nat) × PState) :=
  match readWord s with
  | .error e => .error e
  | .ok (a, s1) =>
      match readWord s1 with
      | .error e => .error e
      | .ok (b, s2) => .ok ((a, b), s2)

def readF3 (s : PState) : Except XgErr ((Nat × Nat × Nat) × PState) :=
  match readWord s with
  | .error e => .error e
  | .ok (a, s1) =>
      match readF2 s1 with
      | .error e => .error e
      | .ok ((b, c), s2) => .ok ((a, b, c), s2)

def readF4 (s : PState) : Except XgErr ((Nat × Nat × Nat × Nat) × PState) :=
  match readWord s with
  | .error e => .error e
  | .ok (a, s1) =>
      match readF3 s1 with
      | .error e => .error e
      | .ok ((b, c, d), s2) => .ok ((a, b, c, d), s2)

/-- The de-interleaving loop of `_read_vertices`: one pass per vertex,
consuming 4 words for a coordinate (the 4th is ignored), 3 for a
normal, 4 for a color and 2 for a texture coordinate, in that order,
for each channel present. -/
def deinterleave (hasC hasN hasCol hasT : Bool) : Nat → List Nat → VertData
  | 0, _ => ⟨[], [], [], []⟩
  | k + 1, v =>
      let c := (v.getD 0 0, v.getD 1 0, v.getD 2 0)
      let v1 := if hasC then v.drop 4 else v
      let n := (v1.getD 0 0, v1.getD 1 0, v1.getD 2 0)
      let v2 := if hasN then v1.drop 3 else v1
      let col := (v2.getD 0 0, v2.getD 1 0, v2.getD 2 0, v2.getD 3 0)
      let v3 := if hasCol then v2.drop 4 else v2
      let t := (v3.getD 0 0, v3.getD 1 0)
      let v4 := if hasT then v3.drop 2 else v3
      let rest := deinterleave hasC hasN hasCol hasT k v4
      ⟨(if hasC then [c] else []) ++ rest.coords,
       (if hasN then [n] else []) ++ rest.normals,
       (if hasCol then [col] else []) ++ rest.colors,
       (if hasT then [t] else []) ++ rest.texcoords⟩

/-- `_read_vertices`. -/
def readVertices (s : PState) : Except XgErr (VertData × PState) :=
  match readWord s with
  | .error e => .error e
  | .ok (vertexFlags, s1) =>
      match readWord s1 with
      | .error e => .error e
      | .ok (numVerts, s2) =>
          let hasC := vertexFlags % 2 = 1
          let hasN := vertexFlags / 2 % 2 = 1
          let hasCol := vertexFlags / 4 % 2 = 1
          let hasT := vertexFlags / 8 % 2 = 1
          let stride := (if hasC then 4 else 0) + (if hasN then 3 else 0)
            + (if hasCol then 4 else 0) + (if hasT then 2 else 0)
          match readWordList s2 (numVerts * stride) with
          | .error e => .error e
          | .ok (vData, s3) =>
              .ok (deinterleave hasC hasN hasCol hasT numVerts vData, s3)

/-- `_read_vertextargets`. -/
def readVertexTargets (s : PState) : Except XgErr (List (List Int) × PState) :=
  match readWord s with
  | .error e => .error e
  | .ok (size, s1) =>
      match readWordList s1 size with
      | .error e => .error e
      | .ok (ws, s2) => .ok (vertexTargetsOfData (ws.map i32OfWord), s2)

/-- Which decode rule an `elif` branch of `_parse_xgnode` applies. -/
inductive PropKind
  | ku32 | kf32 | kf3 | kf4 | ku32list | kf32list | kmat | kstr | kvts | kverts
  | kwts | kkeys
deriving DecidableEq

def propKind : PropName → PropKind
  | .blendType | .cullFunc | .flags | .mipmap_depth | .primCount | .primType
  | .shadingType | .startVertex | .textureEnv | .triFanCount | .triListCount
  | .triStripCount | .typeVal | .uTile | .vTile => .ku32
  | .density | .numFrames | .timeVal => .kf32
  | .position | .scale => .kf3
  | .diffuse | .rotation | .specular => .kf4
  | .primData | .triFanData | .triListData | .triStripData | .targets => .ku32list
  | .times => .kf32list
  | .restMatrix => .kmat
  | .url => .kstr
  | .vertexTargets => .kvts
  | .vertices => .kverts
  | .weights => .kwts
  | .keys => .kkeys

/-- All property names, used for token classification. -/
def allPropNames : List PropName :=
  [.blendType, .cullFunc, .flags, .mipmap_depth, .primCount, .primType, .shadingType,
   .startVertex, .textureEnv, .triFanCount, .triListCount, .triStripCount, .typeVal,
   .uTile, .vTile, .density, .numFrames, .timeVal, .position, .scale, .diffuse,
   .rotation, .specular, .primData, .triFanData, .triListData, .triStripData,
   .targets, .times, .restMatrix, .url, .vertexTargets, .vertices, .weights, .keys]

def propNameOfToken (tok : List Nat) : Option PropName :=
  allPropNames.find? (fun p => decide (propNameToken p = tok))

def allAttribNames : List AttribName :=
  [.inputGeometry, .inputMaterial, .inputMatrix, .inputMatrix1, .inputParentMatrix,
   .inputPosition, .inputRotation, .inputScale, .inputTexture, .inputTime]

def attribNameOfToken (tok : List Nat) : Option AttribName :=
  allAttribNames.find? (fun a => decide (attribToken a = tok))

/-- `node.set_property` on the node at arena index `nid`. -/
def setProp (sc : XgScene) (nid : Nat) (p : PropName) (v : PropVal) : Except XgErr XgScene :=
  match sc.arena.get? nid with
  | none => .error .valueError
  | some nd =>
      match nd.set_property p v with
      | .error e => .error e
      | .ok nd2 => .ok (sc.updNode nid nd2)

/-- `node.append_inputattrib` on the node at arena index `nid`. -/
def appendInatt (sc : XgScene) (nid : Nat) (a : AttribName) (target : Nat) :
    Except XgErr XgScene :=
  match sc.arena.get? nid with
  | none => .error .valueError
  | some nd =>
      match nd.append_inputattrib a target with
      | .error e => .error e
      | .ok nd2 => .ok (sc.updNode nid nd2)

/-- One texture-coordinate key: its own size word, then that many float
pairs. -/
def readSizedF2 (s0 : PState) : Except XgErr (List (Nat × Nat) × PState) :=
  match readWord s0 with
  | .error e => .error e
  | .ok (sz, st) => readCount readF2 st sz

/-- One vertex/normal key: its own size word, then that many float
triples. -/
def readSizedF3 (s0 : PState) : Except XgErr (List (Nat × Nat × Nat) × PState) :=
  match readWord s0 with
  | .error e => .error e
  | .ok (sz, st) => readCount readF3 st sz

/-- Read the value of the `keys` property.  The shape dispatch uses the
*type token* that introduced the current body block (`nodetype` in
`_parse_xgnode`), not the node's actual class. -/
def readKeysVal (ntypeTok : List Nat) (s : PState) : Except XgErr (PropVal × PState) :=
  match readWord s with
  | .error e => .error e
  | .ok (numkeys, s1) =>
      if ntypeTok = strB "xgVec3Interpolator" then
        match readCount readF3 s1 numkeys with
        | .error e => .error e
        | .ok (ks, s2) => .ok (.keysV3 ks, s2)
      else if ntypeTok = strB "xgQuatInterpolator" then
        match readCount readF4 s1 numkeys with
        | .error e => .error e
        | .ok (ks, s2) => .ok (.keysV4 ks, s2)
      else if ntypeTok = strB "xgTexCoordInterpolator" then
        match readCount readSizedF2 s1 numkeys with
        | .error e => .error e
        | .ok (ks, s2) => .ok (.keysTex ks, s2)
      else if ntypeTok = strB "xgVertexInterpolator" ∨ ntypeTok = strB "xgNormalInterpolator" then
        match readCount readSizedF3 s1 numkeys with
        | .error e => .error e
        | .ok (ks, s2) => .ok (.keysV3s ks, s2)
      else if ntypeTok = strB "xgShapeInterpolator" then
        match readCount readVertices s1 numkeys with
        | .error e => .error e
        | .ok (ks, s2) => .ok (.keysShape ks, s2)
      else .error (.readError .badKeysNodetype s1.tokPos)

/-- One property/input-attribute token of the body loop of
`_parse_xgnode` (everything between reading the token and reading the
next one). -/
def parseBodyStep (sc : XgScene) (nid : Nat) (ntypeTok : List Nat) (tok : List Nat)
    (s1 : PState) : Except XgErr (XgScene × PState) :=
  match propNameOfToken tok with
  | some p =>
      match propKind p with
      | .ku32 =>
          match readWord s1 with
          | .error e => .error e
          | .ok (w, s2) =>
              match setProp sc nid p (.u32 w) with
              | .error e => .error e
              | .ok sc2 => .ok (sc2, s2)
      | .kf32 =>
          match readWord s1 with
          | .error e => .error e
          | .ok (w, s2) =>
              match setProp sc nid p (.f32 w) with
              | .error e => .error e
              | .ok sc2 => .ok (sc2, s2)
      | .kf3 =>
          match readF3 s1 with
          | .error e => .error e
          | .ok ((a, b, c), s2) =>
              match setProp sc nid p (.f3 a b c) with
              | .error e => .error e
              | .ok sc2 => .ok (sc2, s2)
      | .kf4 =>
          match readF4 s1 with
          | .error e => .error e
          | .ok ((a, b, c, d), s2) =>
              match setProp sc nid p (.f4 a b c d) with
              | .error e => .error e
              | .ok sc2 => .ok (sc2, s2)
      | .ku32list =>
          match readWord s1 with
          | .error e => .error e
          | .ok (size, s2) =>
              match readWordList s2 size with
              | .error e => .error e
              | .ok (vs, s3) =>
                  match setProp sc nid p (.u32s vs) with
                  | .error e => .error e
                  | .ok sc2 => .ok (sc2, s3)
      | .kf32list =>
          match readWord s1 with
          | .error e => .error e
          | .ok (size, s2) =>
              match readWordList s2 size with
              | .error e => .error e
              | .ok (ws, s3) =>
                  match setProp sc nid p (.f32s ws) with
                  | .error e => .error e
                  | .ok sc2 => .ok (sc2, s3)
      | .kmat =>
          match readWordList s1 16 with
          | .error e => .error e
          | .ok (ws, s2) =>
              match setProp sc nid p (.mat ws) with
              | .error e => .error e
              | .ok sc2 => .ok (sc2, s2)
      | .kstr =>
          match readPstr s1 with
          | .error e => .error e
          | .ok (str2, s2) =>
              match setProp sc nid p (.str str2) with
              | .error e => .error e
              | .ok sc2 => .ok (sc2, s2)
      | .kvts =>
          match readVertexTargets s1 with
          | .error e => .error e
          | .ok (gs, s2) =>
              match setProp sc nid p (.vts gs) with
              | .error e => .error e
              | .ok sc2 => .ok (sc2, s2)
      | .kverts =>
          match readVertices s1 with
          | .error e => .error e
          | .ok (vd, s2) =>
              match setProp sc nid p (.verts vd) with
              | .error e => .error e
              | .ok sc2 => .ok (sc2, s2)
      | .kwts =>
          match readWord s1 with
          | .error e => .error e
          | .ok (numw, s2) =>
              match readCount readF4 s2 numw with
              | .error e => .error e
              | .ok (ws, s3) =>
                  match setProp sc nid p (.wts ws) with
                  | .error e => .error e
                  | .ok sc2 => .ok (sc2, s3)
      | .kkeys =>
          match readKeysVal ntypeTok s1 with
          | .error e => .error e
          | .ok (v, s2) =>
              match setProp sc nid p v with
              | .error e => .error e
              | .ok sc2 => .ok (sc2, s2)
  | none =>
      match attribNameOfToken tok with
      | some a =>
          match readPstr s1 with
          | .error e => .error e
          | .ok (inputName, s2) =>
              match sc.get_node inputName with
              | none => .error (.readError (.nonexistentInput inputName) s2.tokPos)
              | some target =>
                  match readPstr s2 with
                  | .error e => .error e
                  | .ok (_, s3) =>
                      match appendInatt sc nid a target with
                      | .error e => .error e
                      | .ok sc2 => .ok (sc2, s3)
      | none => .error (.readError (.unknownBodyToken tok) s1.tokPos)

/-- The `while token != "\x7d"` body loop of `_parse_xgnode`.  Fuel only
bounds the iteration count; every iteration consumes at least one byte,
so any fuel exceeding the remaining stream length never runs out. -/
def parseBody (fuel : Nat) (sc : XgScene) (nid : Nat) (ntypeTok : List Nat) (s : PState) :
    Except XgErr (XgScene × PState) :=
  match fuel with
  | 0 => .error .eofError
  | fuel + 1 =>
      match readPstr s with
      | .error e => .error e
      | .ok (tok, s1) =>
          if tok = strB "\x7d" then .ok (sc, s1)
          else
            match parseBodyStep sc nid ntypeTok tok s1 with
            | .error e => .error e
            | .ok (sc2, s2) => parseBody fuel sc2 nid ntypeTok s2

/-- `_parse_xgnode`: the state entering carries `tokPos` at the type
token (that is Python's `dbg_namepos`). -/
def parse_xgnode (fuel : Nat) (sc : XgScene) (ntypeTok : List Nat) (s : PState) :
    Except XgErr (XgScene × PState) :=
  let namePos := s.tokPos
  match readPstr s with
  | .error e => .error e
  | .ok (nodename, s1) =>
      match readPstr s1 with
      | .error e => .error e
      | .ok (sep, s2) =>
          if sep = strB ";" then
            match nodeTypeOfToken ntypeTok with
            | none => .error .sceneError
            | some nt =>
                let created := sc.createNode ⟨some nodename, nt, [], []⟩
                match created.1.preadd_node created.2 with
                | .error e => .error e
                | .ok sc2 => .ok (sc2, s2)
          else if sep = strB "\x7b" then
            match sc.get_node nodename with
            | none => .error (.readError (.notYetDeclared nodename) namePos)
            | some nid => parseBody fuel sc nid ntypeTok s2
          else .error (.readError (.unexpectedSep sep) s2.tokPos)

/-- The `while token != "]"` children loop of `_parse_dag`. -/
def parseDagChildren (fuel : Nat) (sc : XgScene) (acc : List Nat) (s : PState) :
    Except XgErr (List Nat × PState) :=
  match fuel with
  | 0 => .error .eofError
  | fuel + 1 =>
      match readPstr s with
      | .error e => .error e
      | .ok (tok, s1) =>
          if tok = strB "]" then .ok (acc, s1)
          else
            match sc.get_node tok with
            | none => .error (.readError (.dagChildMissing tok) s1.tokPos)
            | some cid => parseDagChildren fuel sc (acc ++ [cid]) s1

/-- The `while token != "\x7d"` entries loop of `_parse_dag`. -/
def parseDagEntries (fuel : Nat) (sc : XgScene) (s : PState) :
    Except XgErr (XgScene × PState) :=
  match fuel with
  | 0 => .error .eofError
  | fuel + 1 =>
      match readPstr s with
      | .error e => .error e
      | .ok (tok, s1) =>
          if tok = strB "\x7d" then .ok (sc, s1)
          else
            match sc.get_node tok with
            | none => .error (.readError (.dagNodeMissing tok) s1.tokPos)
            | some did =>
                match readPstr s1 with
                | .error e => .error e
                | .ok (openTok, s2) =>
                    if openTok = strB "[" then
                      match parseDagChildren fuel sc [] s2 with
                      | .error e => .error e
                      | .ok (children, s3) =>
                          match sc.add_dagnode did children with
                          | .error e => .error e
                          | .ok sc2 => parseDagEntries fuel sc2 s3
                    else .error (.readError (.dagExpectedBracket openTok) s2.tokPos)

/-- `_parse_dag`. -/
def parse_dag (fuel : Nat) (sc : XgScene) (s : PState) :
    Except XgErr (XgScene × PState) :=
  match readPstr s with
  | .error e => .error e
  | .ok (tok, s1) =>
      if tok = strB "\x7b" then parseDagEntries fuel sc s1
      else .error (.readError (.dagExpectedOpen tok) s1.tokPos)

/-- The `while token:` top-level loop of `read_xgscene`: a zero-length
token ends parsing, `"dag"` parses the DAG block and stops, anything
else is a node type token. -/
def parseTop (fuel : Nat) (sc : XgScene) (s : PState) : Except XgErr XgScene :=
  match fuel with
  | 0 => .error .eofError
  | fuel + 1 =>
      match readPstr s with
      | .error e => .error e
      | .ok (tok, s1) =>
          if tok = [] then .ok sc
          else if tok = strB "dag" then
            match parse_dag fuel sc s1 with
            | .error e => .error e
            | .ok (sc2, _) => .ok sc2
          else
            match parse_xgnode fuel sc tok s1 with
            | .error e => .error e
            | .ok (sc2, s2) => parseTop fuel sc2 s2

/-- `XgSceneReader.read_xgscene` on a whole byte stream: header check,
then the token loop.  The fuel `bytes.length + 1` never runs out
because every loop iteration consumes at least one byte. -/
def read_xgscene (bytes : List Nat) : Except XgErr XgScene :=
  if bytes.take 4 = strB "XGBv" then
    if (bytes.drop 4).take 4 = strB "1.00" then
      parseTop (bytes.length + 1) XgScene.empty ⟨bytes.drop 8, 8, 0⟩
    else .error .invalidFile
  else .error .invalidFile

/-! ## Scene writer (xgscenewriter.py)

The writer returns `none` where the Python code would raise: a Pascal
string longer than 255 bytes (`int.to_bytes(1, ...)`), a `pack` value
out of range, a `keys` value whose shape does not match the node type
it is written under (`XgWriteError` / iteration failure), an unnamed
node, or a dangling arena index. -/

/-- `_write_pstr`. -/
def pstrW (s : List Nat) : Option (List Nat) :=
  if s.length ≤ 255 then some (s.length :: s) else none

/-- `_write_uint32` / `_write_float32` of one stored wire word. -/
def u32W (v : Nat) : Option (List Nat) :=
  if v < 2 ^ 32 then some (bytesOfWord32 v) else none

/-- `_write_uint32`/`_write_float32` of a word list. -/
def wordsW (ws : List Nat) : Option (List Nat) :=
  if ws.all (· < 2 ^ 32) then some ((ws.map bytesOfWord32).flatten) else none

/-- `_write_int32` of int32 values. -/
def i32sW (zs : List Int) : Option (List Nat) :=
  if zs.all (fun z => -(2 ^ 31) ≤ z ∧ z < 2 ^ 31) then
    some ((zs.map (fun z => bytesOfWord32 (if 0 ≤ z then z.toNat else (z + 2 ^ 32).toNat))).flatten)
  else none

def optApp (a b : Option (List Nat)) : Option (List Nat) :=
  match a, b with
  | some x, some y => some (x ++ y)
  | _, _ => none

def optConcat : List (Option (List Nat)) → Option (List Nat)
  | [] => some []
  | x :: xs => optApp x (optConcat xs)

/-- `_write_vertextargets`: each group followed by `-1`, preceded by the
raw count. -/
def vtsW (gs : List (List Int)) : Option (List Nat) :=
  let raw : List Int := (gs.map (fun g => g ++ [-1])).flatten
  optApp (u32W raw.length) (i32sW raw)

/-- One padded/interleaved vertex per pass, as `_write_vertices` builds
via `zip_longest` (under the writer's precondition that the present
channels all have the same length, which `none` results guard). -/
def interleaveVerts : Nat → List (Nat × Nat × Nat) → List (Nat × Nat × Nat) →
    List (Nat × Nat × Nat × Nat) → List (Nat × Nat) → List Nat
  | 0, _, _, _, _ => []
  | k + 1, cs, ns, cols, ts =>
      (match cs.head? with
       | some c => [c.1, c.2.1, c.2.2, 1065353216]
       | none => [])
      ++ (match ns.head? with
          | some c => [c.1, c.2.1, c.2.2]
          | none => [])
      ++ (match cols.head? with
          | some c => [c.1, c.2.1, c.2.2.1, c.2.2.2]
          | none => [])
      ++ (match ts.head? with
          | some c => [c.1, c.2]
          | none => [])
      ++ interleaveVerts k cs.tail ns.tail cols.tail ts.tail

/-- `_write_vertices`: flags word, vertex count (the longest channel),
then the interleaved channel data; coordinates are padded with a `1.0`
fourth component (word `1065353216`).  `none` when the present channels
have unequal lengths (the Python `zip_longest` would then interleave
`None` fill values and `pack` would raise). -/
def vertsW (vd : VertData) : Option (List Nat) :=
  let hasC := decide (vd.coords ≠ [])
  let hasN := decide (vd.normals ≠ [])
  let hasCol := decide (vd.colors ≠ [])
  let hasT := decide (vd.texcoords ≠ [])
  let numV := max (max vd.coords.length vd.normals.length)
    (max vd.colors.length vd.texcoords.length)
  if (vd.coords = [] ∨ vd.coords.length = numV) ∧
     (vd.normals = [] ∨ vd.normals.length = numV) ∧
     (vd.colors = [] ∨ vd.colors.length = numV) ∧
     (vd.texcoords = [] ∨ vd.texcoords.length = numV) then
    let fl : Nat := (if hasC then 1 else 0) + (if hasN then 2 else 0)
      + (if hasCol then 4 else 0) + (if hasT then 8 else 0)
    optApp (u32W fl) (optApp (u32W numV)
      (wordsW (interleaveVerts numV vd.coords vd.normals vd.colors vd.texcoords)))
  else none

def flat3 (ks : List (Nat × Nat × Nat)) : List Nat :=
  (ks.map (fun p => [p.1, p.2.1, p.2.2])).flatten

def flat4 (ks : List (Nat × Nat × Nat × Nat)) : List Nat :=
  (ks.map (fun p => [p.1, p.2.1, p.2.2.1, p.2.2.2])).flatten

def flat2 (ks : List (Nat × Nat)) : List Nat :=
  (ks.map (fun p => [p.1, p.2])).flatten

/-- The `keys` branch of `_write_xgnodes`: count, then a per-node-type
shape (dispatching on the node's actual type). -/
def keysW (nt : NodeType) (v : PropVal) : Option (List Nat) :=
  match nt, v with
  | .xgVec3Interpolator, .keysV3 ks => optApp (u32W ks.length) (wordsW (flat3 ks))
  | .xgQuatInterpolator, .keysV4 ks => optApp (u32W ks.length) (wordsW (flat4 ks))
  | .xgTexCoordInterpolator, .keysTex ks =>
      optApp (u32W ks.length)
        (optConcat (ks.map (fun key => optApp (u32W key.length) (wordsW (flat2 key)))))
  | .xgVertexInterpolator, .keysV3s ks =>
      optApp (u32W ks.length)
        (optConcat (ks.map (fun key => optApp (u32W key.length) (wordsW (flat3 key)))))
  | .xgNormalInterpolator, .keysV3s ks =>
      optApp (u32W ks.length)
        (optConcat (ks.map (fun key => optApp (u32W key.length) (wordsW (flat3 key)))))
  | .xgShapeInterpolator, .keysShape ks =>
      optApp (u32W ks.length) (optConcat (ks.map vertsW))
  | _, _ => none

/-- One property of `_write_xgnodes` (after its name token): the same
dispatch chain as the reader, in the inverse direction. -/
def writeProp (nt : NodeType) (p : PropName) (v : PropVal) : Option (List Nat) :=
  match propKind p, v with
  | .ku32, .u32 w => u32W w
  | .kf32, .f32 w => u32W w
  | .kf3, .f3 a b c => wordsW [a, b, c]
  | .kf4, .f4 a b c d => wordsW [a, b, c, d]
  | .ku32list, .u32s vs => optApp (u32W vs.length) (wordsW vs)
  | .kf32list, .f32s ws => optApp (u32W ws.length) (wordsW ws)
  | .kmat, .mat ws => wordsW ws
  | .kstr, .str s2 => pstrW s2
  | .kvts, .vts gs => vtsW gs
  | .kverts, .verts vd => vertsW vd
  | .kwts, .wts ws => optApp (u32W ws.length) (wordsW (flat4 ws))
  | .kkeys, _ => keysW nt v
  | _, _ => none

/-- The input-attribute triples of one node. -/
def writeEdges (arena : List XgNode) (eds : List (AttribName × List Nat)) :
    Option (List Nat) :=
  optConcat (eds.map (fun ed => optConcat (ed.2.map (fun i =>
    match arena.get? i with
    | some target =>
        match target.name with
        | some nm =>
            optConcat [pstrW (attribToken ed.1), pstrW nm, pstrW (outputAttribToken ed.1)]
        | none => none
    | none => none))))

/-- One declaration triple of `_write_xgnode_declarations`. -/
def writeDecl (nd : XgNode) : Option (List Nat) :=
  match nd.name with
  | some nm => optConcat [pstrW (nodeTypeToken nd.ntype), pstrW nm, pstrW (strB ";")]
  | none => none

/-- One body block of `_write_xgnodes`. -/
def writeBody (arena : List XgNode) (nd : XgNode) : Option (List Nat) :=
  match nd.name with
  | some nm =>
      optConcat
        [pstrW (nodeTypeToken nd.ntype), pstrW nm, pstrW (strB "\x7b"),
         optConcat (nd.props.map (fun pv =>
           optApp (pstrW (propNameToken pv.1)) (writeProp nd.ntype pv.1 pv.2))),
         writeEdges arena nd.inattribs,
         pstrW (strB "\x7d")]
  | none => none

/-- `_write_dagsetup`. -/
def writeDag (arena : List XgNode) (dag : List (Nat × List Nat)) : Option (List Nat) :=
  let nameOf : Nat → Option (List Nat) := fun i =>
    match arena.get? i with
    | some nd => match nd.name with | some nm => pstrW nm | none => none
    | none => none
  optConcat
    [pstrW (strB "dag"), pstrW (strB "\x7b"),
     optConcat (dag.map (fun entry =>
       optConcat [nameOf entry.1, pstrW (strB "["),
         optConcat (entry.2.map nameOf), pstrW (strB "]")])),
     pstrW (strB "\x7d")]

/-- `XgSceneWriter.write_xgscene`: header, declarations in pool order,
bodies in pool order, then the DAG block. -/
def write_xgscene (sc : XgScene) : Option (List Nat) :=
  match sc.pool.mapM (fun p => sc.arena.get? p.2) with
  | none => none
  | some nodes =>
      optConcat
        [some (strB "XGBv1.00"),
         optConcat (nodes.map writeDecl),
         optConcat (nodes.map (writeBody sc.arena)),
         writeDag sc.arena sc.dag]

/-! ## DAG invariant (claim C9) -/

/-- The scene-building operations available to callers: constructing a
node object, `preadd_node`, and `add_dagnode`. -/
inductive SceneOp
  | newNode (nd : XgNode)
  | preadd (i : Nat)
  | addDag (i : Nat) (children : List Nat)

def applyOp (sc : XgScene) : SceneOp → Except XgErr XgScene
  | .newNode nd => .ok (sc.createNode nd).1
  | .preadd i => sc.preadd_node i
  | .addDag i cs => sc.add_dagnode i cs

/-- Run a sequence of operations; an operation that raises leaves the
scene as it was. -/
def runOps : XgScene → List SceneOp → XgScene
  | sc, [] => sc
  | sc, op :: ops =>
      match applyOp sc op with
      | .ok sc2 => runOps sc2 ops
      | .error _ => runOps sc ops

def nodeTypeAt (sc : XgScene) (i : Nat) : Option NodeType :=
  (sc.arena.get? i).map (·.ntype)

/-- Every DAG key and every child is a node of type `xgDagTransform` or
`xgDagMesh`. -/
def dagTypesOK (sc : XgScene) : Bool :=
  sc.dag.all (fun entry =>
    ((nodeTypeAt sc entry.1).elim false isDagType) &&
    entry.2.all (fun c => (nodeTypeAt sc c).elim false isDagType))

lemma dagChildrenMerge_mem {cur cs : List Nat} {x : Nat}
    (h : x ∈ dagChildrenMerge cur cs) : x ∈ cur ∨ x ∈ cs := by
  induction cs generalizing cur with
  | nil => exact Or.inl h
  | cons c cs ih =>
    rw [dagChildrenMerge] at h
    by_cases hc : c ∈ cur
    · rw [if_pos hc] at h
      rcases ih h with h1 | h1
      · exact Or.inl h1
      · exact Or.inr (List.mem_cons_of_mem c h1)
    · rw [if_neg hc] at h
      rcases ih h with h1 | h1
      · rcases List.mem_append.mp h1 with h2 | h2
        · exact Or.inl h2
        · have hxc : x = c := by simpa using h2
          exact Or.inr (hxc ▸ List.mem_cons_self c cs)
      · exact Or.inr (List.mem_cons_of_mem c h1)

lemma assocSet_mem {κ ν : Type} [DecidableEq κ] {k : κ} {v : ν} {m : List (κ × ν)}
    {e : κ × ν} (h : e ∈ assocSet k v m) : e = (k, v) ∨ e ∈ m := by
  induction m with
  | nil => simpa [assocSet] using h
  | cons p rest ih =>
    rw [assocSet] at h
    by_cases hk : p.1 = k
    · rw [if_pos hk] at h
      rcases List.mem_cons.mp h with h1 | h1
      · subst h1; exact Or.inl (by rw [hk])
      · exact Or.inr (List.mem_cons_of_mem p h1)
    · rw [if_neg hk] at h
      rcases List.mem_cons.mp h with h1 | h1
      · exact Or.inr (by simp [h1])
      · rcases ih h1 with h2 | h2
        · exact Or.inl h2
        · exact Or.inr (List.mem_cons_of_mem p h2)

lemma assocGet_mem {κ ν : Type} [DecidableEq κ] {m : List (κ × ν)} {k : κ} {v : ν}
    (h : assocGet m k = some v) : (k, v) ∈ m := by
  induction m with
  | nil => simp [assocGet] at h
  | cons p rest ih =>
    rw [assocGet, List.find?_cons] at h
    by_cases hp : p.1 = k
    · rw [decide_eq_true hp] at h
      simp only [Option.map_some', Option.some.injEq] at h
      cases p with
      | mk a b =>
        cases hp
        cases h
        exact List.mem_cons_self _ _
    · rw [decide_eq_false hp] at h
      exact List.mem_cons_of_mem p (ih h)

lemma nodeTypeAt_createNode {sc : XgScene} {nd : XgNode} {i : Nat} {nt : NodeType}
    (h : nodeTypeAt sc i = some nt) : nodeTypeAt (sc.createNode nd).1 i = some nt := by
  unfold nodeTypeAt XgScene.createNode at *
  simp only [Option.map_eq_some'] at h
  obtain ⟨x, hx, hnt⟩ := h
  have hi : i < sc.arena.length := by
    by_contra hge
    rw [List.get?_eq_none.mpr (Nat.le_of_not_lt hge)] at hx
    exact Option.noConfusion hx
  simp only [List.get?_append hi, hx, Option.map_some', hnt]

lemma dagTypesOK_iff {sc : XgScene} :
    dagTypesOK sc = true ↔
      ∀ entry ∈ sc.dag, ((nodeTypeAt sc entry.1).elim false isDagType) = true ∧
        ∀ c ∈ entry.2, ((nodeTypeAt sc c).elim false isDagType) = true := by
  rw [dagTypesOK, List.all_eq_true]
  refine forall₂_congr fun entry _ => ?_
  rw [Bool.and_eq_true, List.all_eq_true]

lemma dagTypesOK_addDag {sc sc2 : XgScene} {i : Nat} {cs : List Nat}
    (hok : dagTypesOK sc = true) (h : sc.add_dagnode i cs = .ok sc2) :
    dagTypesOK sc2 = true := by
  unfold XgScene.add_dagnode at h
  by_cases htype : ((i :: cs).all
      (fun j => (sc.arena.get? j).elim false (fun nd => isDagType nd.ntype))) = true
  swap
  · rw [if_neg htype] at h; cases h
  rw [if_pos htype] at h
  have htypes : ∀ j, j = i ∨ j ∈ cs → ((nodeTypeAt sc j).elim false isDagType) = true := by
    intro j hj
    have hmemj : j ∈ i :: cs := by
      rcases hj with hj | hj
      · exact hj ▸ List.mem_cons_self i cs
      · exact List.mem_cons_of_mem i hj
    have := List.all_eq_true.mp htype j hmemj
    revert this
    unfold nodeTypeAt
    cases sc.arena.get? j <;> simp
  by_cases hmem : ((i :: cs).all (fun j => (sc.pool.map (·.2)).contains j)) = true
  swap
  · rw [if_neg hmem] at h; cases h
  rw [if_pos hmem] at h
  have hOld := dagTypesOK_iff.mp hok
  cases hget : assocGet sc.dag i with
  | some cur =>
    rw [hget] at h
    cases h
    rw [dagTypesOK_iff]
    intro entry hentry
    rcases assocSet_mem hentry with he | he
    · subst he
      refine ⟨htypes i (Or.inl rfl), ?_⟩
      intro c hc
      rcases dagChildrenMerge_mem hc with h1 | h1
      · exact (hOld (i, cur) (assocGet_mem hget)).2 c h1
      · exact htypes c (Or.inr h1)
    · exact hOld entry he
  | none =>
    rw [hget] at h
    cases h
    rw [dagTypesOK_iff]
    intro entry hentry
    rcases List.mem_append.mp hentry with he | he
    · exact hOld entry he
    · have he2 : entry = (i, cs) := by simpa using he
      subst he2
      exact ⟨htypes i (Or.inl rfl), fun c hc => htypes c (Or.inr hc)⟩

lemma dagTypesOK_preserved {sc sc2 : XgScene} {op : SceneOp}
    (hok : dagTypesOK sc = true) (h : applyOp sc op = .ok sc2) :
    dagTypesOK sc2 = true := by
  cases op with
  | newNode nd =>
    cases h
    rw [dagTypesOK_iff]
    intro entry hentry
    have hold := dagTypesOK_iff.mp hok entry hentry
    have hconv : ∀ j, ((nodeTypeAt sc j).elim false isDagType) = true →
        ((nodeTypeAt (sc.createNode nd).1 j).elim false isDagType) = true := by
      intro j hj
      cases ho : nodeTypeAt sc j with
      | none => rw [ho] at hj; exact absurd hj (by simp)
      | some nt => rw [nodeTypeAt_createNode ho]; rw [ho] at hj; exact hj
    exact ⟨hconv _ hold.1, fun c hc => hconv _ (hold.2 c hc)⟩
  | preadd i =>
    simp only [applyOp] at h
    unfold XgScene.preadd_node at h
    split at h
    · cases h
    · split at h
      · cases h
      · cases h
        exact hok
  | addDag i cs => exact dagTypesOK_addDag hok h

lemma dagTypesOK_runOps (sc : XgScene) (ops : List SceneOp)
    (hok : dagTypesOK sc = true) : dagTypesOK (runOps sc ops) = true := by
  induction ops generalizing sc with
  | nil => exact hok
  | cons op ops ih =>
    rw [runOps]
    cases h : applyOp sc op with
    | ok sc2 => exact ih sc2 (dagTypesOK_preserved hok h)
    | error e => exact ih sc hok

/-- **C9**: starting from the empty scene, any sequence of node
constructions, `preadd_node` and `add_dagnode` calls keeps every DAG
key and every child a node of type `xgDagTransform` or `xgDagMesh`;
`add_dagnode` raises `TypeError` as soon as the dag node or any child
has another type, and the type check precedes any modification, so a
failing call leaves the DAG (indeed the whole scene) unchanged. -/
theorem c9_dag_invariant :
    (∀ ops : List SceneOp, dagTypesOK (runOps XgScene.empty ops) = true) ∧
    (∀ (sc : XgScene) (i : Nat) (cs : List Nat),
      ((i :: cs).all (fun j => (sc.arena.get? j).elim false
        (fun nd => isDagType nd.ntype))) = false →
      sc.add_dagnode i cs = .error .typeError) ∧
    (∀ (sc : XgScene) (op : SceneOp) (e : XgErr),
      applyOp sc op = .error e → runOps sc [op] = sc) := by
  refine ⟨fun ops => dagTypesOK_runOps _ ops (by decide), ?_, ?_⟩
  · intro sc i cs hbad
    unfold XgScene.add_dagnode
    rw [if_neg (by rw [hbad]; exact Bool.false_ne_true)]
  · intro sc op e h
    rw [runOps, h, runOps]

/-! ## Undeclared references (claim C4) -/

lemma attribNameOfToken_token {tok : List Nat} {a : AttribName}
    (h : attribNameOfToken tok = some a) : attribToken a = tok := by
  have := List.find?_some h
  simpa using this

/-- **C4**: whenever the parser is at a point of reference — an
input-attribute edge token followed by a referenced node name inside a
node body, a dag-block key name, or a dag-block child name — and the
name is not in the pool of already-declared nodes, the parse returns an
`XgReadError` carrying the undeclared name (so parsing such a file
raises rather than silently succeeding: every caller of these functions
propagates the error up to `read_xgscene`). -/
theorem c4_undeclared_reference :
    (∀ (sc : XgScene) (nid : Nat) (ntypeTok tok nm : List Nat) (a : AttribName)
        (s1 s2 : PState),
      attribNameOfToken tok = some a →
      readPstr s1 = .ok (nm, s2) →
      sc.get_node nm = none →
      parseBodyStep sc nid ntypeTok tok s1
        = .error (.readError (.nonexistentInput nm) s2.tokPos)) ∧
    (∀ (fuel : Nat) (sc : XgScene) (nm : List Nat) (s s1 : PState),
      readPstr s = .ok (nm, s1) →
      nm ≠ strB "\x7d" →
      sc.get_node nm = none →
      parseDagEntries (fuel + 1) sc s
        = .error (.readError (.dagNodeMissing nm) s1.tokPos)) ∧
    (∀ (fuel : Nat) (sc : XgScene) (acc : List Nat) (nm : List Nat) (s s1 : PState),
      readPstr s = .ok (nm, s1) →
      nm ≠ strB "]" →
      sc.get_node nm = none →
      parseDagChildren (fuel + 1) sc acc s
        = .error (.readError (.dagChildMissing nm) s1.tokPos)) := by
  refine ⟨?_, ?_, ?_⟩
  · intro sc nid ntypeTok tok nm a s1 s2 ha hread hget
    have htok : attribToken a = tok := attribNameOfToken_token ha
    have hprop : propNameOfToken tok = none := by
      rw [← htok]; cases a <;> decide
    simp only [parseBodyStep, hprop, ha, hread, hget]
  · intro fuel sc nm s s1 hread hne hget
    simp only [parseDagEntries, hread, if_neg hne, hget]
  · intro fuel sc acc nm s s1 hread hne hget
    simp only [parseDagChildren, hread, if_neg hne, hget]

/-- Witness for C4: the edge clause at a concrete state — the body of a
node reads `inputMaterial A` while no node named `A` has been
declared. -/
theorem c4_undeclared_reference_witness :
    parseBodyStep XgScene.empty 0 (strB "xgDagMesh") (strB "inputMaterial")
        ⟨[1, 65], 20, 6⟩
      = .error (.readError (.nonexistentInput [65]) 20) :=
  c4_undeclared_reference.1 XgScene.empty 0 (strB "xgDagMesh") (strB "inputMaterial")
    [65] .inputMaterial ⟨[1, 65], 20, 6⟩ ⟨[], 22, 20⟩ (by decide) (by decide) (by decide)

/-! ## Error taxonomy (claim C5) -/

/-- Whether an error value carries a byte offset (only `XgReadError`
does: `XgReadError.__init__(message, offset)`). -/
def errHasOffset : XgErr → Bool
  | .readError _ _ => true
  | _ => false

/-- **C5** (counterexample): the claim says every truncated read raises
a parse error annotated with the byte offset of the offending token,
but on the file `"XGBv1.00"` followed by a Pascal string declaring 5
payload bytes with only 2 present, `_read_pstr` raises a bare
`EOFError`, which carries no offset. -/
theorem c5_offset_counterexample :
    read_xgscene (strB "XGBv1.00" ++ [5, 65, 66]) = .error .eofError ∧
    errHasOffset .eofError = false := by
  refine ⟨by decide, by decide⟩

/-- **C5** (amended): an unexpected separator token, an unknown
property/input-attribute token, and an undeclared node reference raise
`XgReadError` annotated with the byte offset of the offending token;
but a truncated read raises `EOFError` (Pascal strings) or
`struct.error` (fixed-width fields) with no offset, and a recognized
token that is not a legal property for the current node's type raises
`AttributeError` with no offset. -/
theorem c5_errors_amended :
    (∀ (fuel : Nat) (sc : XgScene) (ntypeTok : List Nat) (s : PState)
        (nm s1v : List Nat) (s1 s2 : PState),
      readPstr s = .ok (nm, s1) →
      readPstr s1 = .ok (s1v, s2) →
      s1v ≠ strB ";" →
      s1v ≠ strB "\x7b" →
      parse_xgnode fuel sc ntypeTok s
        = .error (.readError (.unexpectedSep s1v) s2.tokPos)) ∧
    (∀ (sc : XgScene) (nid : Nat) (ntypeTok tok : List Nat) (s1 : PState),
      propNameOfToken tok = none →
      attribNameOfToken tok = none →
      parseBodyStep sc nid ntypeTok tok s1
        = .error (.readError (.unknownBodyToken tok) s1.tokPos)) ∧
    (∀ (sc : XgScene) (nid : Nat) (ntypeTok tok nm : List Nat) (a : AttribName)
        (s1 s2 : PState),
      attribNameOfToken tok = some a →
      readPstr s1 = .ok (nm, s2) →
      sc.get_node nm = none →
      parseBodyStep sc nid ntypeTok tok s1
        = .error (.readError (.nonexistentInput nm) s2.tokPos)) ∧
    (∀ (pos tp : Nat), readPstr ⟨[], pos, tp⟩ = .error .eofError) ∧
    (∀ (len : Nat) (rest : List Nat) (pos tp : Nat), rest.length < len →
      readPstr ⟨len :: rest, pos, tp⟩ = .error .eofError) ∧
    (∀ s : PState, s.data.length < 4 → readWord s = .error .structError) ∧
    (∀ (sc : XgScene) (nid : Nat) (nd : XgNode) (ntypeTok : List Nat)
        (s1 : PState) (w : Nat) (s2 : PState),
      sc.arena.get? nid = some nd →
      readWord s1 = .ok (w, s2) →
      PropName.timeVal ∉ validProps nd.ntype →
      parseBodyStep sc nid ntypeTok (strB "time") s1 = .error .attrError) ∧
    ((∀ (d : ErrDetail) (off : Nat), errHasOffset (.readError d off) = true) ∧
      errHasOffset .eofError = false ∧ errHasOffset .structError = false ∧
      errHasOffset .attrError = false) := by
  refine ⟨?_, ?_, ?_, ?_, ?_, ?_, ?_, fun d off => rfl, rfl, rfl, rfl⟩
  · intro fuel sc ntypeTok s nm s1v s1 s2 h1 h2 hsemi hbrace
    simp only [parse_xgnode, h1, h2, if_neg hsemi, if_neg hbrace]
  · intro sc nid ntypeTok tok s1 hp ha
    simp only [parseBodyStep, hp, ha]
  · intro sc nid ntypeTok tok nm a s1 s2 ha hread hget
    have htok : attribToken a = tok := attribNameOfToken_token ha
    have hprop : propNameOfToken tok = none := by
      rw [← htok]; cases a <;> decide
    simp only [parseBodyStep, hprop, ha, hread, hget]
  · intro pos tp; rfl
  · intro len rest pos tp hlen
    simp only [readPstr, if_pos hlen]
  · intro s hlen
    rcases s with ⟨data, pos, tp⟩
    rcases data with _ | ⟨b0, _ | ⟨b1, _ | ⟨b2, _ | ⟨b3, rest⟩⟩⟩⟩
    · rfl
    · rfl
    · rfl
    · rfl
    · simp only [List.length_cons] at hlen
      omega
  · intro sc nid nd ntypeTok s1 w s2 hnd hread hnotval
    have h1 : propNameOfToken (strB "time") = some PropName.timeVal := by decide
    simp only [parseBodyStep, h1, hread, setProp, hnd, XgNode.set_property,
      if_neg hnotval]
    rfl

/-- Witness for C5 (amended): the truncated-Pascal-string clause at the
concrete state of the counterexample file, and the unknown-token clause
on the token `bogus`. -/
theorem c5_errors_amended_witness :
    readPstr ⟨[5, 65, 66], 8, 0⟩ = .error .eofError ∧
    parseBodyStep XgScene.empty 0 (strB "xgTime") (strB "bogus") ⟨[], 30, 12⟩
      = .error (.readError (.unknownBodyToken (strB "bogus")) 12) :=
  ⟨c5_errors_amended.2.2.2.2.1 5 [65, 66] 8 0 (by decide),
   c5_errors_amended.2.1 XgScene.empty 0 (strB "xgTime") (strB "bogus")
     ⟨[], 30, 12⟩ (by decide) (by decide)⟩

/-! ## Round-trip primitives (claim C1)

Inverse lemmas in the style `parse (encode x ++ rest) = ok (x, rest)`,
one per wire primitive. -/

lemma pstrW_eq {nm : List Nat} (h : nm.length ≤ 255) :
    pstrW nm = some (nm.length :: nm) := if_pos h

lemma readPstr_encode (nm rest : List Nat) (pos tp : Nat) :
    readPstr ⟨(nm.length :: nm) ++ rest, pos, tp⟩
      = .ok (nm, ⟨rest, pos + 1 + nm.length, pos⟩) := by
  simp only [readPstr, List.cons_append]
  rw [if_neg (by simp)]
  rw [List.take_left, List.drop_left]

lemma readWord_encode (w : Nat) (hw : w < 2 ^ 32) (rest : List Nat) (pos tp : Nat) :
    readWord ⟨bytesOfWord32 w ++ rest, pos, tp⟩ = .ok (w, ⟨rest, pos + 4, tp⟩) := by
  simp only [bytesOfWord32, readWord, List.cons_append, List.nil_append]
  have harith : w % 256 + 256 * (w / 256 % 256 + 256 * (w / 2 ^ 16 % 256 + 256 * (w / 2 ^ 24 % 256))) = w := by
    omega
  rw [harith]

/-- The byte encoding `pack` produces for a word list. -/
def wordBytes (ws : List Nat) : List Nat := (ws.map bytesOfWord32).flatten

lemma wordsW_eq {ws : List Nat} (h : ∀ w ∈ ws, w < 2 ^ 32) :
    wordsW ws = some (wordBytes ws) := by
  rw [wordsW, if_pos (by simpa [List.all_eq_true] using h)]
  rfl

lemma wordBytes_length (ws : List Nat) : (wordBytes ws).length = 4 * ws.length := by
  induction ws with
  | nil => rfl
  | cons w ws ih =>
    simp only [wordBytes, List.map_cons, List.flatten_cons, List.length_append] at *
    rw [ih]
    simp [bytesOfWord32]
    omega

lemma readWordList_encode : ∀ (ws : List Nat) (rest : List Nat) (pos tp : Nat),
    (∀ w ∈ ws, w < 2 ^ 32) →
    readWordList ⟨wordBytes ws ++ rest, pos, tp⟩ ws.length
      = .ok (ws, ⟨rest, pos + 4 * ws.length, tp⟩) := by
  intro ws
  induction ws with
  | nil => intro rest pos tp _; simp [wordBytes, readWordList]
  | cons w ws ih =>
    intro rest pos tp hbound
    have hw : w < 2 ^ 32 := hbound w (List.mem_cons_self _ _)
    simp only [wordBytes, List.map_cons, List.flatten_cons, List.append_assoc,
      List.length_cons]
    rw [readWordList]
    have ihx := ih rest (pos + 4) tp (fun x hx => hbound x (List.mem_cons_of_mem w hx))
    rw [wordBytes] at ihx
    simp only [readWord_encode w hw ((ws.map bytesOfWord32).flatten ++ rest) pos tp, ihx]
    rw [(by omega : pos + 4 + 4 * ws.length = pos + 4 * (ws.length + 1))]

lemma readF2_encode (a b : Nat) (ha : a < 2 ^ 32) (hb : b < 2 ^ 32)
    (rest : List Nat) (pos tp : Nat) :
    readF2 ⟨bytesOfWord32 a ++ (bytesOfWord32 b ++ rest), pos, tp⟩
      = .ok ((a, b), ⟨rest, pos + 8, tp⟩) := by
  rw [readF2]
  simp only [readWord_encode a ha (bytesOfWord32 b ++ rest) pos tp,
    readWord_encode b hb rest (pos + 4) tp]

lemma readF3_encode (a b c : Nat) (ha : a < 2 ^ 32) (hb : b < 2 ^ 32) (hc : c < 2 ^ 32)
    (rest : List Nat) (pos tp : Nat) :
    readF3 ⟨bytesOfWord32 a ++ (bytesOfWord32 b ++ (bytesOfWord32 c ++ rest)), pos, tp⟩
      = .ok ((a, b, c), ⟨rest, pos + 12, tp⟩) := by
  rw [readF3]
  simp only [readWord_encode a ha (bytesOfWord32 b ++ (bytesOfWord32 c ++ rest)) pos tp,
    readF2_encode b c hb hc rest (pos + 4) tp]

lemma readF4_encode (a b c d : Nat) (ha : a < 2 ^ 32) (hb : b < 2 ^ 32)
    (hc : c < 2 ^ 32) (hd : d < 2 ^ 32) (rest : List Nat) (pos tp : Nat) :
    readF4 ⟨bytesOfWord32 a ++ (bytesOfWord32 b ++ (bytesOfWord32 c ++ (bytesOfWord32 d ++ rest))),
        pos, tp⟩
      = .ok ((a, b, c, d), ⟨rest, pos + 16, tp⟩) := by
  rw [readF4]
  simp only [readWord_encode a ha
      (bytesOfWord32 b ++ (bytesOfWord32 c ++ (bytesOfWord32 d ++ rest))) pos tp,
    readF3_encode b c d hb hc hd rest (pos + 4) tp]

/-- Generic inverse for `readCount` items encoded back to back.  All
item readers used with `readCount` leave `tokPos` unchanged. -/
lemma readCount_encode {α : Type} (rd : PState → Except XgErr (α × PState))
    (enc : α → List Nat) (ItemOK : α → Prop)
    (hitem : ∀ (x : α) (rest : List Nat) (pos tp : Nat), ItemOK x →
      rd ⟨enc x ++ rest, pos, tp⟩ = .ok (x, ⟨rest, pos + (enc x).length, tp⟩)) :
    ∀ (xs : List α) (rest : List Nat) (pos tp : Nat), (∀ x ∈ xs, ItemOK x) →
      readCount rd ⟨(xs.map enc).flatten ++ rest, pos, tp⟩ xs.length
        = .ok (xs, ⟨rest, pos + ((xs.map enc).flatten).length, tp⟩) := by
  intro xs
  induction xs with
  | nil => intro rest pos tp _; simp [readCount]
  | cons x xs ih =>
    intro rest pos tp hok
    simp only [List.map_cons, List.flatten_cons, List.append_assoc, List.length_cons]
    rw [readCount]
    simp only [hitem x ((xs.map enc).flatten ++ rest) pos tp (hok x (List.mem_cons_self _ _)),
      ih rest (pos + (enc x).length) tp (fun y hy => hok y (List.mem_cons_of_mem x hy))]
    simp [List.length_append, Nat.add_assoc]

/-- The wire word `_write_int32` emits for an int32 value. -/
def wordOfI32 (z : Int) : Nat := if 0 ≤ z then z.toNat else (z + 2 ^ 32).toNat

lemma i32OfWord_wordOfI32 {z : Int} (h1 : -(2 ^ 31) ≤ z) (h2 : z < 2 ^ 31) :
    i32OfWord (wordOfI32 z) = z := by
  unfold i32OfWord wordOfI32
  split <;> split <;> omega

lemma wordOfI32_lt {z : Int} (h1 : -(2 ^ 31) ≤ z) (h2 : z < 2 ^ 31) :
    wordOfI32 z < 2 ^ 32 := by
  unfold wordOfI32
  split <;> omega

lemma optApp_some {a b : Option (List Nat)} {c : List Nat} (h : optApp a b = some c) :
    ∃ x y, a = some x ∧ b = some y ∧ c = x ++ y := by
  cases a with
  | none => simp [optApp] at h
  | some x =>
    cases b with
    | none => simp [optApp] at h
    | some y =>
      refine ⟨x, y, rfl, rfl, ?_⟩
      simpa [optApp, eq_comm] using h

lemma optConcat_cons (x : Option (List Nat)) (xs : List (Option (List Nat))) :
    optConcat (x :: xs) = optApp x (optConcat xs) := rfl

lemma u32W_some {w : Nat} {bs : List Nat} (h : u32W w = some bs) :
    w < 2 ^ 32 ∧ bs = bytesOfWord32 w := by
  unfold u32W at h
  split at h
  · cases h; exact ⟨by assumption, rfl⟩
  · cases h

lemma pstrW_some {s bs : List Nat} (h : pstrW s = some bs) :
    s.length ≤ 255 ∧ bs = s.length :: s := by
  unfold pstrW at h
  split at h
  · cases h; exact ⟨by assumption, rfl⟩
  · cases h

lemma wordsW_some {ws bs : List Nat} (h : wordsW ws = some bs) :
    (∀ w ∈ ws, w < 2 ^ 32) ∧ bs = wordBytes ws := by
  unfold wordsW at h
  split at h
  · cases h
    refine ⟨?_, rfl⟩
    intro w hw
    have := List.all_eq_true.mp (by assumption) w hw
    simpa using this
  · cases h

lemma i32sW_some {zs : List Int} {bs : List Nat} (h : i32sW zs = some bs) :
    (∀ z ∈ zs, -(2 ^ 31) ≤ z ∧ z < 2 ^ 31) ∧ bs = wordBytes (zs.map wordOfI32) := by
  unfold i32sW at h
  split at h
  · cases h
    constructor
    · intro z hz
      have := List.all_eq_true.mp (by assumption) z hz
      simpa using this
    · rw [wordBytes, List.map_map]
      rfl
  · cases h

lemma vertexTargetSplit_run (g : List Int) (hg : ∀ x ∈ g, 0 ≤ x) :
    ∀ (run rest : List Int),
      vertexTargetSplit run (g ++ (-1 :: rest)) = (run ++ g) :: vertexTargetSplit [] rest := by
  induction g with
  | nil => intro run rest; simp [vertexTargetSplit]
  | cons x g ih =>
    intro run rest
    rw [List.cons_append, vertexTargetSplit, if_pos (hg x (List.mem_cons_self _ _))]
    rw [ih (fun y hy => hg y (List.mem_cons_of_mem x hy)) (run ++ [x]) rest]
    simp

lemma vertexTargetsOfData_encode : ∀ (gs : List (List Int)),
    (∀ g ∈ gs, ∀ x ∈ g, 0 ≤ x) →
    vertexTargetsOfData ((gs.map (· ++ [-1])).flatten) = gs := by
  intro gs
  induction gs with
  | nil => intro _; rfl
  | cons g gs ih =>
    intro h
    unfold vertexTargetsOfData
    simp only [List.map_cons, List.flatten_cons, List.append_assoc,
      List.singleton_append]
    rw [vertexTargetSplit_run g (h g (List.mem_cons_self _ _)) [] _]
    rw [List.nil_append]
    have := ih (fun g2 hg2 => h g2 (List.mem_cons_of_mem g hg2))
    unfold vertexTargetsOfData at this
    rw [this]

lemma interleaveVerts_length : ∀ (n : Nat) (cs ns : List (Nat × Nat × Nat))
    (cols : List (Nat × Nat × Nat × Nat)) (ts : List (Nat × Nat)),
    (interleaveVerts n cs ns cols ts).length
      = 4 * min n cs.length + 3 * min n ns.length + 4 * min n cols.length
        + 2 * min n ts.length := by
  intro n
  induction n with
  | zero => intro cs ns cols ts; simp [interleaveVerts]
  | succ n ih =>
    intro cs ns cols ts
    rcases cs with _ | ⟨c, cs⟩ <;> rcases ns with _ | ⟨nn, ns⟩ <;>
      rcases cols with _ | ⟨col, cols⟩ <;> rcases ts with _ | ⟨t, ts⟩ <;>
      simp [interleaveVerts, ih, List.length_append] <;> omega

lemma deinterleave_interleave : ∀ (n : Nat) (cs ns : List (Nat × Nat × Nat))
    (cols : List (Nat × Nat × Nat × Nat)) (ts : List (Nat × Nat))
    (hasC hasN hasCol hasT : Bool),
    (if hasC = true then cs.length = n else cs = []) →
    (if hasN = true then ns.length = n else ns = []) →
    (if hasCol = true then cols.length = n else cols = []) →
    (if hasT = true then ts.length = n else ts = []) →
    deinterleave hasC hasN hasCol hasT n (interleaveVerts n cs ns cols ts)
      = ⟨cs, ns, cols, ts⟩ := by
  intro n
  induction n with
  | zero =>
    intro cs ns cols ts hasC hasN hasCol hasT hC hN hCol hT
    have h1 : cs = [] := by cases hasC <;> simp_all [List.length_eq_zero]
    have h2 : ns = [] := by cases hasN <;> simp_all [List.length_eq_zero]
    have h3 : cols = [] := by cases hasCol <;> simp_all [List.length_eq_zero]
    have h4 : ts = [] := by cases hasT <;> simp_all [List.length_eq_zero]
    subst h1 h2 h3 h4
    rfl
  | succ n ih =>
    intro cs ns cols ts hasC hasN hasCol hasT hC hN hCol hT
    have HC : (hasC = false ∧ cs = []) ∨
        ∃ c cs2, hasC = true ∧ cs = c :: cs2 ∧ cs2.length = n := by
      cases hasC with
      | false => exact Or.inl ⟨rfl, by simpa using hC⟩
      | true =>
        rcases cs with _ | ⟨c, cs2⟩
        · simp at hC
        · exact Or.inr ⟨c, cs2, rfl, rfl, by simpa using hC⟩
    have HN : (hasN = false ∧ ns = []) ∨
        ∃ c cs2, hasN = true ∧ ns = c :: cs2 ∧ cs2.length = n := by
      cases hasN with
      | false => exact Or.inl ⟨rfl, by simpa using hN⟩
      | true =>
        rcases ns with _ | ⟨c, cs2⟩
        · simp at hN
        · exact Or.inr ⟨c, cs2, rfl, rfl, by simpa using hN⟩
    have HCol : (hasCol = false ∧ cols = []) ∨
        ∃ c cs2, hasCol = true ∧ cols = c :: cs2 ∧ cs2.length = n := by
      cases hasCol with
      | false => exact Or.inl ⟨rfl, by simpa using hCol⟩
      | true =>
        rcases cols with _ | ⟨c, cs2⟩
        · simp at hCol
        · exact Or.inr ⟨c, cs2, rfl, rfl, by simpa using hCol⟩
    have HT : (hasT = false ∧ ts = []) ∨
        ∃ c cs2, hasT = true ∧ ts = c :: cs2 ∧ cs2.length = n := by
      cases hasT with
      | false => exact Or.inl ⟨rfl, by simpa using hT⟩
      | true =>
        rcases ts with _ | ⟨c, cs2⟩
        · simp at hT
        · exact Or.inr ⟨c, cs2, rfl, rfl, by simpa using hT⟩
    clear hC hN hCol hT
    rcases HC with ⟨rfl, rfl⟩ | ⟨c, cs2, rfl, rfl, hlc⟩ <;>
      rcases HN with ⟨rfl, rfl⟩ | ⟨nn, ns2, rfl, rfl, hln⟩ <;>
      rcases HCol with ⟨rfl, rfl⟩ | ⟨col, cols2, rfl, rfl, hlcol⟩ <;>
      rcases HT with ⟨rfl, rfl⟩ | ⟨t, ts2, rfl, rfl, hlt⟩ <;>
      simp [interleaveVerts, deinterleave, ih, *]

lemma vertFlagIffs (bC bN bCol bT : Bool) :
    ((((if bC then (1 : Nat) else 0) + (if bN then 2 else 0) + (if bCol then 4 else 0)
        + (if bT then 8 else 0)) % 2 = 1) ↔ bC = true) ∧
    ((((if bC then (1 : Nat) else 0) + (if bN then 2 else 0) + (if bCol then 4 else 0)
        + (if bT then 8 else 0)) / 2 % 2 = 1) ↔ bN = true) ∧
    ((((if bC then (1 : Nat) else 0) + (if bN then 2 else 0) + (if bCol then 4 else 0)
        + (if bT then 8 else 0)) / 4 % 2 = 1) ↔ bCol = true) ∧
    ((((if bC then (1 : Nat) else 0) + (if bN then 2 else 0) + (if bCol then 4 else 0)
        + (if bT then 8 else 0)) / 8 % 2 = 1) ↔ bT = true) := by
  cases bC <;> cases bN <;> cases bCol <;> cases bT <;> simp

lemma readVertices_encode (vd : VertData) {enc : List Nat} (h : vertsW vd = some enc)
    (rest : List Nat) (pos tp : Nat) :
    readVertices ⟨enc ++ rest, pos, tp⟩ = .ok (vd, ⟨rest, pos + enc.length, tp⟩) := by
  obtain ⟨cs, ns, cols, ts⟩ := vd
  unfold vertsW at h
  dsimp only at h
  split at h
  case isFalse => cases h
  case isTrue hcond =>
  obtain ⟨hcondC, hcondN, hcondCol, hcondT⟩ := hcond
  obtain ⟨x1, y1, hx1, hy1, henc⟩ := optApp_some h
  obtain ⟨x2, y2, hx2, hy2, hy1e⟩ := optApp_some hy1
  obtain ⟨hfl32, hx1e⟩ := u32W_some hx1
  obtain ⟨hnv32, hx2e⟩ := u32W_some hx2
  obtain ⟨hwords, hy2e⟩ := wordsW_some hy2
  subst henc hy1e hx1e hx2e hy2e
  obtain ⟨hb1, hb2, hb3, hb4⟩ :=
    vertFlagIffs (decide (cs ≠ [])) (decide (ns ≠ [])) (decide (cols ≠ []))
      (decide (ts ≠ []))
  simp only [List.append_assoc]
  rw [readVertices]
  simp only [readWord_encode _ hfl32 _ pos tp]
  rw [readWord_encode _ hnv32 _ (pos + 4) tp]
  simp only [hb1, hb2, hb3, hb4]
  simp only [decide_eq_true_eq]
  set numV := max (max cs.length ns.length) (max cols.length ts.length) with hnv
  set inter := interleaveVerts numV cs ns cols ts with hinter
  have hstride : numV * ((if cs ≠ [] then 4 else 0) + (if ns ≠ [] then 3 else 0)
      + (if cols ≠ [] then 4 else 0) + (if ts ≠ [] then 2 else 0)) = inter.length := by
    rw [hinter, interleaveVerts_length]
    have e1 : min numV cs.length = if cs ≠ [] then numV else 0 := by
      by_cases hemp : cs = []
      · simp [hemp]
      · rcases hcondC with hc | hc
        · exact absurd hc hemp
        · simp [hemp, hc]
    have e2 : min numV ns.length = if ns ≠ [] then numV else 0 := by
      by_cases hemp : ns = []
      · simp [hemp]
      · rcases hcondN with hc | hc
        · exact absurd hc hemp
        · simp [hemp, hc]
    have e3 : min numV cols.length = if cols ≠ [] then numV else 0 := by
      by_cases hemp : cols = []
      · simp [hemp]
      · rcases hcondCol with hc | hc
        · exact absurd hc hemp
        · simp [hemp, hc]
    have e4 : min numV ts.length = if ts ≠ [] then numV else 0 := by
      by_cases hemp : ts = []
      · simp [hemp]
      · rcases hcondT with hc | hc
        · exact absurd hc hemp
        · simp [hemp, hc]
    rw [e1, e2, e3, e4]
    by_cases c1 : cs = [] <;> by_cases c2 : ns = [] <;> by_cases c3 : cols = [] <;>
      by_cases c4 : ts = [] <;> simp [c1, c2, c3, c4] <;> ring
  rw [hstride]
  simp only [readWordList_encode inter rest (pos + 4 + 4) tp hwords]
  have hdi : deinterleave (cs ≠ []) (ns ≠ []) (cols ≠ []) (ts ≠ []) numV inter
      = ⟨cs, ns, cols, ts⟩ := by
    rw [hinter]
    apply deinterleave_interleave
    · rcases hcondC with hc | hc <;> simp [hc]
    · rcases hcondN with hc | hc <;> simp [hc]
    · rcases hcondCol with hc | hc <;> simp [hc]
    · rcases hcondT with hc | hc <;> simp [hc]
  rw [hdi]
  have hlen : (bytesOfWord32 ((if cs ≠ [] then (1 : Nat) else 0) + (if ns ≠ [] then 2 else 0)
      + (if cols ≠ [] then 4 else 0) + (if ts ≠ [] then 8 else 0))
        ++ (bytesOfWord32 numV ++ wordBytes inter)).length = 8 + 4 * inter.length := by
    simp [bytesOfWord32, wordBytes_length]
    omega
  rw [hlen]
  rw [(by omega : pos + 4 + 4 + 4 * inter.length = pos + (8 + 4 * inter.length))]

lemma wordBytes_append (xs ys : List Nat) :
    wordBytes (xs ++ ys) = wordBytes xs ++ wordBytes ys := by
  simp [wordBytes]

lemma wordBytes_flatten {α : Type} (f : α → List Nat) : ∀ ks : List α,
    wordBytes ((ks.map f).flatten) = (ks.map (fun x => wordBytes (f x))).flatten := by
  intro ks
  induction ks with
  | nil => rfl
  | cons x xs ih => simp [wordBytes_append, ih]

lemma flat2_bytes (ks : List (Nat × Nat)) :
    wordBytes (flat2 ks) = (ks.map (fun x => wordBytes [x.1, x.2])).flatten := by
  rw [flat2, wordBytes_flatten]

lemma flat3_bytes (ks : List (Nat × Nat × Nat)) :
    wordBytes (flat3 ks) = (ks.map (fun x => wordBytes [x.1, x.2.1, x.2.2])).flatten := by
  rw [flat3, wordBytes_flatten]

lemma flat4_bytes (ks : List (Nat × Nat × Nat × Nat)) :
    wordBytes (flat4 ks)
      = (ks.map (fun x => wordBytes [x.1, x.2.1, x.2.2.1, x.2.2.2])).flatten := by
  rw [flat4, wordBytes_flatten]

lemma optConcat_map_some {α : Type} {f : α → Option (List Nat)} :
    ∀ {xs : List α} {bs : List Nat}, optConcat (xs.map f) = some bs →
    (∀ x ∈ xs, f x = some ((f x).getD [])) ∧
      bs = (xs.map (fun x => (f x).getD [])).flatten := by
  intro xs
  induction xs with
  | nil =>
    intro bs h
    cases h
    exact ⟨by simp, rfl⟩
  | cons x xs ih =>
    intro bs h
    rw [List.map_cons, optConcat_cons] at h
    obtain ⟨e, y, he, hy, hbs⟩ := optApp_some h
    obtain ⟨h1, h2⟩ := ih hy
    subst hbs
    refine ⟨?_, ?_⟩
    · intro z hz
      rcases List.mem_cons.mp hz with hz | hz
      · subst hz; rw [he]; rfl
      · exact h1 z hz
    · simp [he, h2]

lemma readF2_item (x : Nat × Nat) (rest : List Nat) (pos tp : Nat)
    (hok : x.1 < 2 ^ 32 ∧ x.2 < 2 ^ 32) :
    readF2 ⟨wordBytes [x.1, x.2] ++ rest, pos, tp⟩
      = .ok (x, ⟨rest, pos + (wordBytes [x.1, x.2]).length, tp⟩) := by
  obtain ⟨h1, h2⟩ := hok
  have hmain := readF2_encode x.1 x.2 h1 h2 rest pos tp
  simp only [wordBytes, List.map_cons, List.map_nil, List.flatten_cons, List.flatten_nil,
    List.append_nil, List.append_assoc] at hmain ⊢
  rw [hmain]
  simp [bytesOfWord32]

lemma readF3_item (x : Nat × Nat × Nat) (rest : List Nat) (pos tp : Nat)
    (hok : x.1 < 2 ^ 32 ∧ x.2.1 < 2 ^ 32 ∧ x.2.2 < 2 ^ 32) :
    readF3 ⟨wordBytes [x.1, x.2.1, x.2.2] ++ rest, pos, tp⟩
      = .ok (x, ⟨rest, pos + (wordBytes [x.1, x.2.1, x.2.2]).length, tp⟩) := by
  obtain ⟨h1, h2, h3⟩ := hok
  have hmain := readF3_encode x.1 x.2.1 x.2.2 h1 h2 h3 rest pos tp
  simp only [wordBytes, List.map_cons, List.map_nil, List.flatten_cons, List.flatten_nil,
    List.append_nil, List.append_assoc] at hmain ⊢
  rw [hmain]
  simp [bytesOfWord32]

lemma readF4_item (x : Nat × Nat × Nat × Nat) (rest : List Nat) (pos tp : Nat)
    (hok : x.1 < 2 ^ 32 ∧ x.2.1 < 2 ^ 32 ∧ x.2.2.1 < 2 ^ 32 ∧ x.2.2.2 < 2 ^ 32) :
    readF4 ⟨wordBytes [x.1, x.2.1, x.2.2.1, x.2.2.2] ++ rest, pos, tp⟩
      = .ok (x, ⟨rest, pos + (wordBytes [x.1, x.2.1, x.2.2.1, x.2.2.2]).length, tp⟩) := by
  obtain ⟨h1, h2, h3, h4⟩ := hok
  have hmain := readF4_encode x.1 x.2.1 x.2.2.1 x.2.2.2 h1 h2 h3 h4 rest pos tp
  simp only [wordBytes, List.map_cons, List.map_nil, List.flatten_cons, List.flatten_nil,
    List.append_nil, List.append_assoc] at hmain ⊢
  rw [hmain]
  simp [bytesOfWord32]

lemma readVertexTargets_encode (gs : List (List Int)) {enc : List Nat}
    (h : vtsW gs = some enc) (hnn : ∀ g ∈ gs, ∀ x ∈ g, 0 ≤ x)
    (rest : List Nat) (pos tp : Nat) :
    readVertexTargets ⟨enc ++ rest, pos, tp⟩ = .ok (gs, ⟨rest, pos + enc.length, tp⟩) := by
  unfold vtsW at h
  dsimp only at h
  obtain ⟨x, y, hx, hy, henc⟩ := optApp_some h
  obtain ⟨hl32, hxe⟩ := u32W_some hx
  obtain ⟨hbnd, hye⟩ := i32sW_some hy
  subst henc hxe hye
  set raw : List Int := (gs.map (· ++ [-1])).flatten with hraw
  rw [readVertexTargets]
  simp only [List.append_assoc]
  simp only [readWord_encode _ hl32 _ pos tp]
  have hw32 : ∀ w ∈ raw.map wordOfI32, w < 2 ^ 32 := by
    intro w hw
    obtain ⟨z, hz, hwz⟩ := List.mem_map.mp hw
    exact hwz ▸ wordOfI32_lt (hbnd z hz).1 (hbnd z hz).2
  rw [(List.length_map raw wordOfI32).symm]
  simp only [readWordList_encode (raw.map wordOfI32) rest (pos + 4) tp hw32]
  have hmapback : (raw.map wordOfI32).map i32OfWord = raw := by
    rw [List.map_map]
    have hpt : ∀ z ∈ raw, (i32OfWord ∘ wordOfI32) z = z := fun z hz =>
      i32OfWord_wordOfI32 (hbnd z hz).1 (hbnd z hz).2
    calc raw.map (i32OfWord ∘ wordOfI32) = raw.map id := List.map_congr_left hpt
    _ = raw := List.map_id raw
  rw [hmapback]
  rw [hraw, vertexTargetsOfData_encode gs hnn]
  simp [bytesOfWord32, wordBytes_length]
  omega

lemma readSizedF2_item (key : List (Nat × Nat)) (rest : List Nat) (pos tp : Nat)
    (hok : optApp (u32W key.length) (wordsW (flat2 key))
      = some ((optApp (u32W key.length) (wordsW (flat2 key))).getD [])) :
    readSizedF2 ⟨(optApp (u32W key.length) (wordsW (flat2 key))).getD [] ++ rest, pos, tp⟩
      = .ok (key, ⟨rest,
          pos + ((optApp (u32W key.length) (wordsW (flat2 key))).getD []).length, tp⟩) := by
  obtain ⟨x, y, hx, hy, he⟩ := optApp_some hok
  obtain ⟨hl32, hxe⟩ := u32W_some hx
  obtain ⟨hws, hye⟩ := wordsW_some hy
  rw [he, hxe, hye]
  rw [readSizedF2]
  simp only [List.append_assoc]
  simp only [readWord_encode _ hl32 _ pos tp]
  rw [flat2_bytes]
  have hbounds : ∀ z ∈ key, z.1 < 2 ^ 32 ∧ z.2 < 2 ^ 32 := by
    intro z hzk
    constructor
    · apply hws
      refine List.mem_flatten.mpr ⟨[z.1, z.2], ?_, by simp⟩
      exact List.mem_map_of_mem _ hzk
    · apply hws
      refine List.mem_flatten.mpr ⟨[z.1, z.2], ?_, by simp⟩
      exact List.mem_map_of_mem _ hzk
  simp only [readCount_encode readF2 (fun z => wordBytes [z.1, z.2])
    (fun z => z.1 < 2 ^ 32 ∧ z.2 < 2 ^ 32) readF2_item key rest (pos + 4) tp hbounds]
  simp [bytesOfWord32]
  omega

lemma readSizedF3_item (key : List (Nat × Nat × Nat)) (rest : List Nat) (pos tp : Nat)
    (hok : optApp (u32W key.length) (wordsW (flat3 key))
      = some ((optApp (u32W key.length) (wordsW (flat3 key))).getD [])) :
    readSizedF3 ⟨(optApp (u32W key.length) (wordsW (flat3 key))).getD [] ++ rest, pos, tp⟩
      = .ok (key, ⟨rest,
          pos + ((optApp (u32W key.length) (wordsW (flat3 key))).getD []).length, tp⟩) := by
  obtain ⟨x, y, hx, hy, he⟩ := optApp_some hok
  obtain ⟨hl32, hxe⟩ := u32W_some hx
  obtain ⟨hws, hye⟩ := wordsW_some hy
  rw [he, hxe, hye]
  rw [readSizedF3]
  simp only [List.append_assoc]
  simp only [readWord_encode _ hl32 _ pos tp]
  rw [flat3_bytes]
  have hbounds : ∀ z ∈ key, z.1 < 2 ^ 32 ∧ z.2.1 < 2 ^ 32 ∧ z.2.2 < 2 ^ 32 := by
    intro z hzk
    refine ⟨?_, ?_, ?_⟩ <;>
    · apply hws
      refine List.mem_flatten.mpr ⟨[z.1, z.2.1, z.2.2], ?_, by simp⟩
      exact List.mem_map_of_mem _ hzk
  simp only [readCount_encode readF3 (fun z => wordBytes [z.1, z.2.1, z.2.2])
    (fun z => z.1 < 2 ^ 32 ∧ z.2.1 < 2 ^ 32 ∧ z.2.2 < 2 ^ 32) readF3_item key rest
    (pos + 4) tp hbounds]
  simp [bytesOfWord32]
  omega

lemma readVertices_item (vd : VertData) (rest : List Nat) (pos tp : Nat)
    (hok : vertsW vd = some ((vertsW vd).getD [])) :
    readVertices ⟨(vertsW vd).getD [] ++ rest, pos, tp⟩
      = .ok (vd, ⟨rest, pos + ((vertsW vd).getD []).length, tp⟩) :=
  readVertices_encode vd hok rest pos tp

/-- Writer/reader inverse for the `keys` value: reading back under the
type token of the node's own type recovers the value. -/
lemma readKeysVal_encode (nt : NodeType) (v : PropVal) {enc : List Nat}
    (h : keysW nt v = some enc) (rest : List Nat) (pos tp : Nat) :
    readKeysVal (nodeTypeToken nt) ⟨enc ++ rest, pos, tp⟩
      = .ok (v, ⟨rest, pos + enc.length, tp⟩) := by
  unfold keysW at h
  split at h
  next ks =>
    obtain ⟨x, y, hx, hy, henc⟩ := optApp_some h
    obtain ⟨hl32, hxe⟩ := u32W_some hx
    obtain ⟨hws, hye⟩ := wordsW_some hy
    subst henc hxe hye
    rw [readKeysVal]
    simp only [nodeTypeToken, List.append_assoc]
    simp only [readWord_encode _ hl32 _ pos tp]
    rw [if_pos (by decide)]
    rw [flat3_bytes]
    have hbounds : ∀ z ∈ ks, z.1 < 2 ^ 32 ∧ z.2.1 < 2 ^ 32 ∧ z.2.2 < 2 ^ 32 := by
      intro z hzk
      refine ⟨?_, ?_, ?_⟩ <;>
      · apply hws
        refine List.mem_flatten.mpr ⟨[z.1, z.2.1, z.2.2], ?_, by simp⟩
        exact List.mem_map_of_mem _ hzk
    simp only [readCount_encode readF3 (fun z => wordBytes [z.1, z.2.1, z.2.2])
      (fun z => z.1 < 2 ^ 32 ∧ z.2.1 < 2 ^ 32 ∧ z.2.2 < 2 ^ 32) readF3_item ks rest
      (pos + 4) tp hbounds]
    simp [bytesOfWord32]
    omega
  next ks =>
    obtain ⟨x, y, hx, hy, henc⟩ := optApp_some h
    obtain ⟨hl32, hxe⟩ := u32W_some hx
    obtain ⟨hws, hye⟩ := wordsW_some hy
    subst henc hxe hye
    rw [readKeysVal]
    simp only [nodeTypeToken, List.append_assoc]
    simp only [readWord_encode _ hl32 _ pos tp]
    rw [if_neg (by decide), if_pos (by decide)]
    rw [flat4_bytes]
    have hbounds : ∀ z ∈ ks,
        z.1 < 2 ^ 32 ∧ z.2.1 < 2 ^ 32 ∧ z.2.2.1 < 2 ^ 32 ∧ z.2.2.2 < 2 ^ 32 := by
      intro z hzk
      refine ⟨?_, ?_, ?_, ?_⟩ <;>
      · apply hws
        refine List.mem_flatten.mpr ⟨[z.1, z.2.1, z.2.2.1, z.2.2.2], ?_, by simp⟩
        exact List.mem_map_of_mem _ hzk
    simp only [readCount_encode readF4 (fun z => wordBytes [z.1, z.2.1, z.2.2.1, z.2.2.2])
      (fun z => z.1 < 2 ^ 32 ∧ z.2.1 < 2 ^ 32 ∧ z.2.2.1 < 2 ^ 32 ∧ z.2.2.2 < 2 ^ 32)
      readF4_item ks rest (pos + 4) tp hbounds]
    simp [bytesOfWord32]
    omega
  next ks =>
    obtain ⟨x, y, hx, hy, henc⟩ := optApp_some h
    obtain ⟨hl32, hxe⟩ := u32W_some hx
    obtain ⟨hitems, hflat⟩ := optConcat_map_some hy
    subst henc hxe hflat
    rw [readKeysVal]
    simp only [nodeTypeToken, List.append_assoc]
    simp only [readWord_encode _ hl32 _ pos tp]
    rw [if_neg (by decide), if_neg (by decide), if_pos (by decide)]
    simp only [readCount_encode readSizedF2
      (fun key => (optApp (u32W key.length) (wordsW (flat2 key))).getD [])
      (fun key => optApp (u32W key.length) (wordsW (flat2 key))
        = some ((optApp (u32W key.length) (wordsW (flat2 key))).getD []))
      readSizedF2_item ks rest (pos + 4) tp hitems]
    simp [bytesOfWord32]
    omega
  next ks =>
    obtain ⟨x, y, hx, hy, henc⟩ := optApp_some h
    obtain ⟨hl32, hxe⟩ := u32W_some hx
    obtain ⟨hitems, hflat⟩ := optConcat_map_some hy
    subst henc hxe hflat
    rw [readKeysVal]
    simp only [nodeTypeToken, List.append_assoc]
    simp only [readWord_encode _ hl32 _ pos tp]
    rw [if_neg (by decide), if_neg (by decide), if_neg (by decide),
      if_pos (by decide)]
    simp only [readCount_encode readSizedF3
      (fun key => (optApp (u32W key.length) (wordsW (flat3 key))).getD [])
      (fun key => optApp (u32W key.length) (wordsW (flat3 key))
        = some ((optApp (u32W key.length) (wordsW (flat3 key))).getD []))
      readSizedF3_item ks rest (pos + 4) tp hitems]
    simp [bytesOfWord32]
    omega
  next ks =>
    obtain ⟨x, y, hx, hy, henc⟩ := optApp_some h
    obtain ⟨hl32, hxe⟩ := u32W_some hx
    obtain ⟨hitems, hflat⟩ := optConcat_map_some hy
    subst henc hxe hflat
    rw [readKeysVal]
    simp only [nodeTypeToken, List.append_assoc]
    simp only [readWord_encode _ hl32 _ pos tp]
    rw [if_neg (by decide), if_neg (by decide), if_neg (by decide),
      if_pos (by decide)]
    simp only [readCount_encode readSizedF3
      (fun key => (optApp (u32W key.length) (wordsW (flat3 key))).getD [])
      (fun key => optApp (u32W key.length) (wordsW (flat3 key))
        = some ((optApp (u32W key.length) (wordsW (flat3 key))).getD []))
      readSizedF3_item ks rest (pos + 4) tp hitems]
    simp [bytesOfWord32]
    omega
  next ks =>
    obtain ⟨x, y, hx, hy, henc⟩ := optApp_some h
    obtain ⟨hl32, hxe⟩ := u32W_some hx
    obtain ⟨hitems, hflat⟩ := optConcat_map_some hy
    subst henc hxe hflat
    rw [readKeysVal]
    simp only [nodeTypeToken, List.append_assoc]
    simp only [readWord_encode _ hl32 _ pos tp]
    rw [if_neg (by decide), if_neg (by decide), if_neg (by decide),
      if_neg (by decide), if_pos (by decide)]
    simp only [readCount_encode readVertices (fun vd => (vertsW vd).getD [])
      (fun vd => vertsW vd = some ((vertsW vd).getD []))
      readVertices_item ks rest (pos + 4) tp hitems]
    simp [bytesOfWord32]
    omega
  all_goals cases h

/-- Shape conditions under which a written property value reads back:
a matrix holds 16 wire words and vertex-target groups hold only
non-negative indices (both hold for every value the reader itself
produces). -/
def propArgOK : PropVal → Prop
  | .mat ws => ws.length = 16
  | .vts gs => ∀ g ∈ gs, ∀ z ∈ g, 0 ≤ z
  | _ => True

lemma propNameOfToken_token (p : PropName) :
    propNameOfToken (propNameToken p) = some p := by
  cases p <;> rfl

lemma exOk (sc2 : XgScene) (rest : List Nat) (p1 p2 t : Nat) (h : p1 = p2) :
    ∃ tp2, (Except.ok (sc2, (⟨rest, p1, t⟩ : PState)) : Except XgErr (XgScene × PState))
      = .ok (sc2, ⟨rest, p2, tp2⟩) := ⟨t, by rw [h]⟩

/-- Writer/reader inverse for one property token of a node body. -/
lemma parseBodyStep_encode (sc : XgScene) (nid : Nat) (nt : NodeType) (p : PropName)
    (v : PropVal) {enc : List Nat} (hw : writeProp nt p v = some enc)
    {sc2 : XgScene} (hset : setProp sc nid p v = .ok sc2)
    (hvok : propArgOK v) (rest : List Nat) (pos tp : Nat) :
    ∃ tp2, parseBodyStep sc nid (nodeTypeToken nt) (propNameToken p) ⟨enc ++ rest, pos, tp⟩
      = .ok (sc2, ⟨rest, pos + enc.length, tp2⟩) := by
  rw [parseBodyStep]
  simp only [propNameOfToken_token]
  unfold writeProp at hw
  split at hw
  next w heq =>
    obtain ⟨hw32, hencE⟩ := u32W_some hw
    subst hencE
    simp only [heq]
    simp only [readWord_encode _ hw32 _ pos tp]
    simp only [hset]
    exact exOk _ _ _ _ _ (by simp [bytesOfWord32] <;> omega)
  next w heq =>
    obtain ⟨hw32, hencE⟩ := u32W_some hw
    subst hencE
    simp only [heq]
    simp only [readWord_encode _ hw32 _ pos tp]
    simp only [hset]
    exact exOk _ _ _ _ _ (by simp [bytesOfWord32] <;> omega)
  next a b c heq =>
    obtain ⟨hall, hencE⟩ := wordsW_some hw
    subst hencE
    simp only [heq]
    have h1 : a < 2 ^ 32 := hall a (by simp)
    have h2 : b < 2 ^ 32 := hall b (by simp)
    have h3 : c < 2 ^ 32 := hall c (by simp)
    simp only [wordBytes, List.map_cons, List.map_nil, List.flatten_cons, List.flatten_nil,
      List.append_nil, List.append_assoc]
    simp only [readF3_encode a b c h1 h2 h3 rest pos tp]
    simp only [hset]
    exact exOk _ _ _ _ _ (by simp [bytesOfWord32] <;> omega)
  next a b c d heq =>
    obtain ⟨hall, hencE⟩ := wordsW_some hw
    subst hencE
    simp only [heq]
    have h1 : a < 2 ^ 32 := hall a (by simp)
    have h2 : b < 2 ^ 32 := hall b (by simp)
    have h3 : c < 2 ^ 32 := hall c (by simp)
    have h4 : d < 2 ^ 32 := hall d (by simp)
    simp only [wordBytes, List.map_cons, List.map_nil, List.flatten_cons, List.flatten_nil,
      List.append_nil, List.append_assoc]
    simp only [readF4_encode a b c d h1 h2 h3 h4 rest pos tp]
    simp only [hset]
    exact exOk _ _ _ _ _ (by simp [bytesOfWord32] <;> omega)
  next vs heq =>
    obtain ⟨x, y, hx, hy, hencE⟩ := optApp_some hw
    obtain ⟨hl32, hxe⟩ := u32W_some hx
    obtain ⟨hall, hye⟩ := wordsW_some hy
    subst hencE hxe hye
    simp only [heq, List.append_assoc]
    simp only [readWord_encode _ hl32 _ pos tp]
    simp only [readWordList_encode vs rest (pos + 4) tp hall]
    simp only [hset]
    exact exOk _ _ _ _ _ (by simp [bytesOfWord32, wordBytes_length] <;> omega)
  next ws heq =>
    obtain ⟨x, y, hx, hy, hencE⟩ := optApp_some hw
    obtain ⟨hl32, hxe⟩ := u32W_some hx
    obtain ⟨hall, hye⟩ := wordsW_some hy
    subst hencE hxe hye
    simp only [heq, List.append_assoc]
    simp only [readWord_encode _ hl32 _ pos tp]
    simp only [readWordList_encode ws rest (pos + 4) tp hall]
    simp only [hset]
    exact exOk _ _ _ _ _ (by simp [bytesOfWord32, wordBytes_length] <;> omega)
  next ws heq =>
    obtain ⟨hall, hencE⟩ := wordsW_some hw
    subst hencE
    simp only [heq]
    have h16 : ws.length = 16 := hvok
    rw [← h16]
    simp only [readWordList_encode ws rest pos tp hall]
    simp only [hset]
    exact exOk _ _ _ _ _ (by simp [wordBytes_length] <;> omega)
  next st heq =>
    obtain ⟨hlen, hencE⟩ := pstrW_some hw
    subst hencE
    simp only [heq]
    simp only [readPstr_encode st rest pos tp]
    simp only [hset]
    exact exOk _ _ _ _ _ (by simp <;> omega)
  next gs heq =>
    simp only [heq]
    simp only [readVertexTargets_encode gs hw hvok rest pos tp]
    simp only [hset]
    exact exOk _ _ _ _ _ rfl
  next vd heq =>
    simp only [heq]
    simp only [readVertices_encode vd hw rest pos tp]
    simp only [hset]
    exact exOk _ _ _ _ _ rfl
  next ws heq =>
    obtain ⟨x, y, hx, hy, hencE⟩ := optApp_some hw
    obtain ⟨hl32, hxe⟩ := u32W_some hx
    obtain ⟨hall, hye⟩ := wordsW_some hy
    subst hencE hxe hye
    simp only [heq, List.append_assoc]
    simp only [readWord_encode _ hl32 _ pos tp]
    rw [flat4_bytes]
    have hbounds : ∀ z ∈ ws,
        z.1 < 2 ^ 32 ∧ z.2.1 < 2 ^ 32 ∧ z.2.2.1 < 2 ^ 32 ∧ z.2.2.2 < 2 ^ 32 := by
      intro z hzk
      refine ⟨?_, ?_, ?_, ?_⟩ <;>
      · apply hall
        refine List.mem_flatten.mpr ⟨[z.1, z.2.1, z.2.2.1, z.2.2.2], ?_, by simp⟩
        exact List.mem_map_of_mem _ hzk
    simp only [readCount_encode readF4 (fun z => wordBytes [z.1, z.2.1, z.2.2.1, z.2.2.2])
      (fun z => z.1 < 2 ^ 32 ∧ z.2.1 < 2 ^ 32 ∧ z.2.2.1 < 2 ^ 32 ∧ z.2.2.2 < 2 ^ 32)
      readF4_item ws rest (pos + 4) tp hbounds]
    simp only [hset]
    exact exOk _ _ _ _ _ (by simp [bytesOfWord32] <;> omega)
  next v2 heq =>
    simp only [heq]
    simp only [readKeysVal_encode nt _ hw rest pos tp]
    simp only [hset]
    exact exOk _ _ _ _ _ rfl
  all_goals cases hw

/-- Setting a node's properties one by one, as the body loop does. -/
def foldSetProps (sc : XgScene) (nid : Nat) : List (PropName × PropVal) → Except XgErr XgScene
  | [] => .ok sc
  | pv :: ps =>
      match setProp sc nid pv.1 pv.2 with
      | .error e => .error e
      | .ok sc2 => foldSetProps sc2 nid ps

/-- The (attribute, target) pairs of a node's input-attribute map, in
the order the writer emits them. -/
def edgePairs (eds : List (AttribName × List Nat)) : List (AttribName × Nat) :=
  (eds.map (fun ed => ed.2.map (fun i => (ed.1, i)))).flatten

/-- Appending input attributes one by one, as the body loop does. -/
def foldAppendInatts (sc : XgScene) (nid : Nat) : List (AttribName × Nat) → Except XgErr XgScene
  | [] => .ok sc
  | pr :: prs =>
      match appendInatt sc nid pr.1 pr.2 with
      | .error e => .error e
      | .ok sc2 => foldAppendInatts sc2 nid prs

/-- The byte run the writer emits for one input-attribute pair. -/
def pairEnc (arena : List XgNode) (pr : AttribName × Nat) : Option (List Nat) :=
  match arena.get? pr.2 with
  | some target =>
      match target.name with
      | some nm =>
          optConcat [pstrW (attribToken pr.1), pstrW nm, pstrW (outputAttribToken pr.1)]
      | none => none
  | none => none

lemma readPstr_tokPos (d : List Nat) (p t1 t2 : Nat) :
    readPstr ⟨d, p, t1⟩ = readPstr ⟨d, p, t2⟩ := by
  simp [readPstr]

lemma parseBody_tokPos (f : Nat) (sc : XgScene) (nid : Nat) (ntok : List Nat)
    (d : List Nat) (p t1 t2 : Nat) :
    parseBody f sc nid ntok ⟨d, p, t1⟩ = parseBody f sc nid ntok ⟨d, p, t2⟩ := by
  cases f with
  | zero => rfl
  | succ f =>
    rw [parseBody, parseBody]
    rw [readPstr_tokPos d p t1 t2]

lemma propNameToken_ne_rbrace (p : PropName) : ¬ propNameToken p = strB "\x7d" := by
  cases p <;> decide

lemma attribToken_ne_rbrace (a : AttribName) : ¬ attribToken a = strB "\x7d" := by
  cases a <;> decide

lemma propNameOfToken_attribToken (a : AttribName) :
    propNameOfToken (attribToken a) = none := by
  cases a <;> rfl

lemma attribNameOfToken_attribToken (a : AttribName) :
    attribNameOfToken (attribToken a) = some a := by
  cases a <;> rfl

lemma appendInatt_pool {sc sc2 : XgScene} {nid : Nat} {a : AttribName} {t : Nat}
    (h : appendInatt sc nid a t = .ok sc2) : sc2.pool = sc.pool := by
  unfold appendInatt at h
  split at h
  · cases h
  · split at h
    · cases h
    · cases h; rfl

lemma setProp_pool {sc sc2 : XgScene} {nid : Nat} {p : PropName} {v : PropVal}
    (h : setProp sc nid p v = .ok sc2) : sc2.pool = sc.pool := by
  unfold setProp at h
  split at h
  · cases h
  · split at h
    · cases h
    · cases h; rfl

lemma optConcat_append (xs ys : List (Option (List Nat))) :
    optConcat (xs ++ ys) = optApp (optConcat xs) (optConcat ys) := by
  induction xs with
  | nil =>
    simp only [List.nil_append, optConcat]
    cases optConcat ys with
    | none => rfl
    | some l => rfl
  | cons x xs ih =>
    simp only [List.cons_append, optConcat_cons, ih]
    cases x with
    | none => rfl
    | some l =>
      cases optConcat xs with
      | none => rfl
      | some l2 =>
        cases optConcat ys with
        | none => rfl
        | some l3 => simp [optApp]

lemma optConcat_nested (xss : List (List (Option (List Nat)))) :
    optConcat (xss.map optConcat) = optConcat xss.flatten := by
  induction xss with
  | nil => rfl
  | cons xs xss ih =>
    simp only [List.map_cons, List.flatten_cons, optConcat_cons, optConcat_append, ih]

/-- `_write_xgnode`'s edge output is the per-pair output of the flattened
pair list. -/
lemma writeEdges_pairs (arena : List XgNode) : ∀ eds : List (AttribName × List Nat),
    writeEdges arena eds = optConcat ((edgePairs eds).map (pairEnc arena)) := by
  intro eds
  induction eds with
  | nil => rfl
  | cons ed eds ih =>
    unfold writeEdges edgePairs at *
    simp only [List.map_cons, List.flatten_cons, List.map_append, optConcat_cons,
      optConcat_append, List.map_map] at ih ⊢
    rw [ih]
    congr 1

/-- Writer/reader inverse for one input-attribute token of a node
body. -/
lemma parseBodyStep_edge_encode (sc : XgScene) (nid : Nat) (ntok : List Nat)
    (a : AttribName) (nm : List Nat) (tgt : Nat)
    (hget : sc.get_node nm = some tgt)
    {sc2 : XgScene} (happ : appendInatt sc nid a tgt = .ok sc2)
    (rest : List Nat) (pos tp : Nat) :
    ∃ tp2, parseBodyStep sc nid ntok (attribToken a)
        ⟨(nm.length :: nm) ++ (((outputAttribToken a).length :: outputAttribToken a) ++ rest),
          pos, tp⟩
      = .ok (sc2, ⟨rest,
          pos + (1 + nm.length + (1 + (outputAttribToken a).length)), tp2⟩) := by
  rw [parseBodyStep]
  simp only [propNameOfToken_attribToken, attribNameOfToken_attribToken]
  simp only [readPstr_encode nm _ pos tp]
  simp only [hget]
  simp only [readPstr_encode (outputAttribToken a) rest (pos + 1 + nm.length) pos]
  simp only [happ]
  refine ⟨pos + 1 + nm.length, ?_⟩
  have harith : pos + 1 + nm.length + 1 + (outputAttribToken a).length
      = pos + (1 + nm.length + (1 + (outputAttribToken a).length)) := by omega
  rw [harith]

/-- The property pass of the body loop: parsing the written properties
performs exactly the sequence of `set_property` calls. -/
lemma parseBody_props_encode (nt : NodeType) (nid : Nat) :
    ∀ (ps : List (PropName × PropVal)) (sc : XgScene) {enc : List Nat},
      optConcat (ps.map (fun pv => optApp (pstrW (propNameToken pv.1))
          (writeProp nt pv.1 pv.2))) = some enc →
      ∀ {scN : XgScene}, foldSetProps sc nid ps = .ok scN →
      (∀ pv ∈ ps, propArgOK pv.2) →
      ∀ (f : Nat) (rest : List Nat) (pos tp : Nat),
      parseBody (ps.length + f) sc nid (nodeTypeToken nt) ⟨enc ++ rest, pos, tp⟩
        = parseBody f scN nid (nodeTypeToken nt) ⟨rest, pos + enc.length, 0⟩ := by
  intro ps
  induction ps with
  | nil =>
    intro sc enc hw scN hfold hok f rest pos tp
    cases hw
    cases hfold
    simp only [List.length_nil, Nat.zero_add, List.nil_append, Nat.add_zero]
    exact parseBody_tokPos f sc nid _ rest pos tp 0
  | cons pv ps ih =>
    intro sc enc hw scN hfold hok f rest pos tp
    rw [List.map_cons, optConcat_cons] at hw
    obtain ⟨e1, y, he1, hy, hencE⟩ := optApp_some hw
    obtain ⟨etok, epay, het, hep, he1E⟩ := optApp_some he1
    obtain ⟨htlen, hetokE⟩ := pstrW_some het
    subst hencE he1E hetokE
    rw [foldSetProps] at hfold
    cases hsp : setProp sc nid pv.1 pv.2 with
    | error e =>
      rw [hsp] at hfold
      cases hfold
    | ok sc2 =>
      rw [hsp] at hfold
      simp only [List.length_cons]
      rw [(by omega : ps.length + 1 + f = (ps.length + f) + 1)]
      rw [parseBody]
      simp only [List.append_assoc]
      simp only [readPstr_encode (propNameToken pv.1) _ pos tp]
      rw [if_neg (propNameToken_ne_rbrace pv.1)]
      obtain ⟨tp2, hstep⟩ := parseBodyStep_encode sc nid nt pv.1 pv.2 hep hsp
        (hok pv (List.mem_cons_self _ _)) (y ++ rest)
        (pos + 1 + (propNameToken pv.1).length) pos
      simp only [hstep]
      rw [ih sc2 hy hfold (fun q hq => hok q (List.mem_cons_of_mem pv hq)) f rest _ tp2]
      congr 2
      simp [List.length_append]
      omega

/-- The edge pass of the body loop: parsing the written input-attribute
triples performs exactly the sequence of `append_inputattrib` calls. -/
lemma parseBody_edges_encode (nid : Nat) (ntok : List Nat) (arena : List XgNode) :
    ∀ (prs : List (AttribName × Nat)) (sc : XgScene) {enc : List Nat},
      optConcat (prs.map (pairEnc arena)) = some enc →
      (∀ pr ∈ prs, ∃ nd nm, arena.get? pr.2 = some nd ∧ nd.name = some nm ∧
        assocGet sc.pool nm = some pr.2) →
      ∀ {scN : XgScene}, foldAppendInatts sc nid prs = .ok scN →
      ∀ (f : Nat) (rest : List Nat) (pos tp : Nat),
      parseBody (prs.length + f) sc nid ntok ⟨enc ++ rest, pos, tp⟩
        = parseBody f scN nid ntok ⟨rest, pos + enc.length, 0⟩ := by
  intro prs
  induction prs with
  | nil =>
    intro sc enc hw hres scN hfold f rest pos tp
    cases hw
    cases hfold
    simp only [List.length_nil, Nat.zero_add, List.nil_append, Nat.add_zero]
    exact parseBody_tokPos f sc nid _ rest pos tp 0
  | cons pr prs ih =>
    intro sc enc hw hres scN hfold f rest pos tp
    obtain ⟨nd, nm, hget, hname, hpool⟩ := hres pr (List.mem_cons_self _ _)
    rw [List.map_cons, optConcat_cons] at hw
    rw [show pairEnc arena pr = optConcat [pstrW (attribToken pr.1), pstrW nm,
        pstrW (outputAttribToken pr.1)] by simp only [pairEnc, hget, hname]] at hw
    obtain ⟨e1, y, he1, hy, hencE⟩ := optApp_some hw
    rw [optConcat_cons] at he1
    obtain ⟨etok, e2, het, he2, he1E⟩ := optApp_some he1
    rw [optConcat_cons] at he2
    obtain ⟨enm, e3, hen, he3, he2E⟩ := optApp_some he2
    rw [optConcat_cons] at he3
    obtain ⟨eot, e4, heo, he4, he3E⟩ := optApp_some he3
    cases he4
    obtain ⟨htlen, hetokE⟩ := pstrW_some het
    obtain ⟨hnlen, henmE⟩ := pstrW_some hen
    obtain ⟨holen, heotE⟩ := pstrW_some heo
    subst hencE he1E he2E he3E hetokE henmE heotE
    rw [foldAppendInatts] at hfold
    cases hap : appendInatt sc nid pr.1 pr.2 with
    | error e =>
      rw [hap] at hfold
      cases hfold
    | ok sc2 =>
      rw [hap] at hfold
      simp only [List.length_cons]
      rw [(by omega : prs.length + 1 + f = (prs.length + f) + 1)]
      rw [parseBody]
      simp only [List.append_assoc, List.append_nil]
      simp only [readPstr_encode (attribToken pr.1) _ pos tp]
      rw [if_neg (attribToken_ne_rbrace pr.1)]
      obtain ⟨tp2, hstep⟩ := parseBodyStep_edge_encode sc nid ntok pr.1 nm pr.2
        (by rw [XgScene.get_node, hpool]) hap (y ++ rest)
        (pos + 1 + (attribToken pr.1).length) pos
      simp only [hstep]
      have hres2 : ∀ q ∈ prs, ∃ nd nm, arena.get? q.2 = some nd ∧ nd.name = some nm ∧
          assocGet sc2.pool nm = some q.2 := by
        intro q hq
        obtain ⟨nd2, nm2, h1, h2, h3⟩ := hres q (List.mem_cons_of_mem pr hq)
        exact ⟨nd2, nm2, h1, h2, by rw [appendInatt_pool hap]; exact h3⟩
      rw [ih sc2 hy hres2 hfold f rest _ tp2]
      congr 2
      simp [List.length_append]
      omega

/-- The empty shell a declaration creates for a node: same name and
type, no properties or edges yet. -/
def skel (nd : XgNode) : XgNode := ⟨nd.name, nd.ntype, [], []⟩

lemma nodeTypeOfToken_token (nt : NodeType) :
    nodeTypeOfToken (nodeTypeToken nt) = some nt := by
  cases nt <;> rfl

lemma nodeTypeToken_le255 (nt : NodeType) : (nodeTypeToken nt).length ≤ 255 := by
  cases nt <;> decide

lemma nodeTypeToken_ne_empty (nt : NodeType) : ¬ nodeTypeToken nt = [] := by
  cases nt <;> decide

lemma nodeTypeToken_ne_dag (nt : NodeType) : ¬ nodeTypeToken nt = strB "dag" := by
  cases nt <;> decide

lemma assocSet_fresh {κ ν : Type} [DecidableEq κ] (k : κ) (v : ν) :
    ∀ (m : List (κ × ν)), (∀ p ∈ m, ¬ p.1 = k) →
    assocSet k v m = m ++ [(k, v)] := by
  intro m
  induction m with
  | nil => intro _; rfl
  | cons p m ih =>
    intro hfr
    rw [assocSet]
    rw [if_neg (hfr p (List.mem_cons_self _ _))]
    rw [ih (fun q hq => hfr q (List.mem_cons_of_mem p hq))]
    rfl

lemma parseTop_tokPos (f : Nat) (sc : XgScene) (d : List Nat) (p t1 t2 : Nat) :
    parseTop f sc ⟨d, p, t1⟩ = parseTop f sc ⟨d, p, t2⟩ := by
  cases f with
  | zero => rfl
  | succ f =>
    rw [parseTop, parseTop]
    rw [readPstr_tokPos d p t1 t2]

/-- Writer/reader inverse for one declaration triple. -/
lemma parse_decl_encode (f : Nat) (sc : XgScene) (nt : NodeType) (nm : List Nat)
    (rest : List Nat) (pos tp : Nat) :
    parse_xgnode f sc (nodeTypeToken nt)
        ⟨(nm.length :: nm) ++ ((strB ";").length :: strB ";" ++ rest), pos, tp⟩
      = .ok (⟨sc.arena ++ [⟨some nm, nt, [], []⟩],
             assocSet nm sc.arena.length sc.pool, sc.dag⟩,
          ⟨rest, pos + 1 + nm.length + (1 + (strB ";").length), pos + 1 + nm.length⟩) := by
  rw [parse_xgnode]
  simp only [readPstr_encode nm _ pos tp]
  simp only [readPstr_encode (strB ";") rest (pos + 1 + nm.length) pos]
  rw [if_pos trivial]
  simp only [nodeTypeOfToken_token]
  simp only [XgScene.createNode, XgScene.preadd_node]
  simp only [List.get?_append_right (Nat.le_refl _)]
  simp only [Nat.sub_self]
  norm_num
  omega

/-- The declaration pass: parsing the written declarations from any
scene extends the arena with the shells of the written nodes, in order,
and records their names in the pool. -/
lemma parseTop_decls_encode :
    ∀ (nds : List XgNode) (sc : XgScene) {enc : List Nat},
      optConcat (nds.map writeDecl) = some enc →
      List.Pairwise (fun a b : XgNode => a.name ≠ b.name) nds →
      (∀ nd ∈ nds, ∀ p ∈ sc.pool, some p.1 ≠ nd.name) →
      ∀ (f : Nat) (rest : List Nat) (pos tp : Nat),
      parseTop (nds.length + f) sc ⟨enc ++ rest, pos, tp⟩
        = parseTop f ⟨sc.arena ++ nds.map skel,
            sc.pool ++ (nds.enumFrom sc.arena.length).map
              (fun p => (p.2.name.getD [], p.1)), sc.dag⟩
            ⟨rest, pos + enc.length, 0⟩ := by
  intro nds
  induction nds with
  | nil =>
    intro sc enc hw _ _ f rest pos tp
    cases hw
    simp only [List.length_nil, Nat.zero_add, List.nil_append, Nat.add_zero,
      List.map_nil, List.enumFrom, List.append_nil]
    exact parseTop_tokPos f sc rest pos tp 0
  | cons nd nds ih =>
    intro sc enc hw hpw hfresh f rest pos tp
    rw [List.map_cons, optConcat_cons] at hw
    obtain ⟨e1, y, he1, hy, hencE⟩ := optApp_some hw
    rw [writeDecl] at he1
    cases hname : nd.name with
    | none => simp only [hname] at he1; cases he1
    | some nm =>
    simp only [hname] at he1
    rw [optConcat_cons] at he1
    obtain ⟨etok, e2, het, he2, he1E⟩ := optApp_some he1
    rw [optConcat_cons] at he2
    obtain ⟨enm, e3, hen, he3, he2E⟩ := optApp_some he2
    rw [optConcat_cons] at he3
    obtain ⟨esep, e4, hes, he4, he3E⟩ := optApp_some he3
    cases he4
    obtain ⟨htlen, hetokE⟩ := pstrW_some het
    obtain ⟨hnlen, henmE⟩ := pstrW_some hen
    obtain ⟨hslen, hesepE⟩ := pstrW_some hes
    subst hencE he1E he2E he3E hetokE henmE hesepE
    simp only [List.length_cons]
    rw [(by omega : nds.length + 1 + f = (nds.length + f) + 1)]
    rw [parseTop]
    simp only [List.append_assoc, List.append_nil]
    simp only [readPstr_encode (nodeTypeToken nd.ntype) _ pos tp]
    rw [if_neg (nodeTypeToken_ne_empty nd.ntype)]
    rw [if_neg (nodeTypeToken_ne_dag nd.ntype)]
    have hdecl := parse_decl_encode (nds.length + f) sc nd.ntype nm (y ++ rest)
      (pos + 1 + (nodeTypeToken nd.ntype).length) pos
    simp only [hdecl]
    have hfresh1 : ∀ p ∈ sc.pool, ¬ p.1 = nm := by
      intro p hp hc
      exact hfresh nd (List.mem_cons_self _ _) p hp (by rw [hname, hc])
    have hsetE : assocSet nm sc.arena.length sc.pool
        = sc.pool ++ [(nm, sc.arena.length)] := assocSet_fresh nm _ sc.pool hfresh1
    have hfresh2 : ∀ q ∈ nds, ∀ p ∈ (⟨sc.arena ++ [⟨some nm, nd.ntype, [], []⟩],
        assocSet nm sc.arena.length sc.pool, sc.dag⟩ : XgScene).pool, some p.1 ≠ q.name := by
      intro q hq p hp
      simp only [hsetE, List.mem_append, List.mem_singleton] at hp
      rcases hp with hp | hp
      · exact hfresh q (List.mem_cons_of_mem nd hq) p hp
      · subst hp
        have := (List.pairwise_cons.mp hpw).1 q hq
        rw [hname] at this
        exact fun hc => this hc
    rw [ih _ hy (List.pairwise_cons.mp hpw).2 hfresh2 f rest _ _]
    simp only [hsetE]
    congr 1
    · simp [skel, hname, List.enumFrom, List.append_assoc]
    · simp [List.length_append]
      omega

lemma foldSetProps_pool {nid : Nat} : ∀ {ps : List (PropName × PropVal)} {sc scN : XgScene},
    foldSetProps sc nid ps = .ok scN → scN.pool = sc.pool := by
  intro ps
  induction ps with
  | nil =>
    intro sc scN h
    cases h
    rfl
  | cons pv ps ih =>
    intro sc scN h
    rw [foldSetProps] at h
    cases hsp : setProp sc nid pv.1 pv.2 with
    | error e => rw [hsp] at h; cases h
    | ok sc2 =>
      rw [hsp] at h
      rw [ih h, setProp_pool hsp]

/-- Writer/reader inverse for one node body block (after its type
token): resolve the name, then replay every property assignment and
every edge append, up to the closing brace. -/
lemma parse_body_encode (sc : XgScene) (nid : Nat) (nd : XgNode) (arena : List XgNode)
    (nm : List Nat) (hname : nd.name = some nm)
    {pE eE : List Nat}
    (hprops : optConcat (nd.props.map (fun pv => optApp (pstrW (propNameToken pv.1))
        (writeProp nd.ntype pv.1 pv.2))) = some pE)
    (hedges : optConcat ((edgePairs nd.inattribs).map (pairEnc arena)) = some eE)
    (hget : sc.get_node nm = some nid)
    {sc1 : XgScene} (hfoldp : foldSetProps sc nid nd.props = .ok sc1)
    (hres : ∀ pr ∈ edgePairs nd.inattribs, ∃ tnd tnm, arena.get? pr.2 = some tnd ∧
      tnd.name = some tnm ∧ assocGet sc.pool tnm = some pr.2)
    {sc2 : XgScene} (hfolde : foldAppendInatts sc1 nid (edgePairs nd.inattribs) = .ok sc2)
    (hok : ∀ pv ∈ nd.props, propArgOK pv.2)
    (g : Nat) (rest : List Nat) (pos tp : Nat) :
    ∃ tp2, parse_xgnode (nd.props.length + ((edgePairs nd.inattribs).length + (g + 1))) sc
        (nodeTypeToken nd.ntype)
        ⟨(nm.length :: nm) ++ (((strB "\x7b").length :: strB "\x7b") ++ (pE ++ (eE ++
            (((strB "\x7d").length :: strB "\x7d") ++ rest)))), pos, tp⟩
      = .ok (sc2, ⟨rest, pos + (5 + nm.length + pE.length + eE.length), tp2⟩) := by
  rw [parse_xgnode]
  simp only [readPstr_encode nm _ pos tp]
  simp only [readPstr_encode (strB "\x7b") _ (pos + 1 + nm.length) pos]
  rw [if_neg (by decide : ¬ strB "\x7b" = strB ";")]
  rw [if_pos trivial]
  simp only [hget]
  rw [parseBody_props_encode nd.ntype nid nd.props sc hprops hfoldp hok
    ((edgePairs nd.inattribs).length + (g + 1)) _ _ _]
  have hres1 : ∀ pr ∈ edgePairs nd.inattribs, ∃ tnd tnm, arena.get? pr.2 = some tnd ∧
      tnd.name = some tnm ∧ assocGet sc1.pool tnm = some pr.2 := by
    intro pr hpr
    obtain ⟨tnd, tnm, h1, h2, h3⟩ := hres pr hpr
    exact ⟨tnd, tnm, h1, h2, by rw [foldSetProps_pool hfoldp]; exact h3⟩
  rw [parseBody_edges_encode nid (nodeTypeToken nd.ntype) arena (edgePairs nd.inattribs)
    sc1 hedges hres1 hfolde (g + 1) _ _ _]
  rw [parseBody]
  simp only [readPstr_encode (strB "\x7d") rest _ 0]
  rw [if_pos trivial]
  refine ⟨pos + 1 + nm.length + 1 + (strB "\x7b").length + pE.length + eE.length, ?_⟩
  have hlen : (strB "\x7b").length = 1 := rfl
  have hlen2 : (strB "\x7d").length = 1 := rfl
  rw [hlen, hlen2]
  have harith : pos + 1 + nm.length + 1 + 1 + pE.length + eE.length + 1 + 1
      = pos + (5 + nm.length + pE.length + eE.length) := by omega
  rw [harith]

lemma get?_set_self {α : Type} : ∀ (l : List α) (i : Nat) (a b : α),
    l.get? i = some b → (l.set i a).get? i = some a := by
  intro l
  induction l with
  | nil => intro i a b h; cases i <;> cases h
  | cons x l ih =>
    intro i a b h
    cases i with
    | zero => rfl
    | succ i => exact ih i a b h

lemma set_self {α : Type} : ∀ (l : List α) (i : Nat) (b : α),
    l.get? i = some b → l.set i b = l := by
  intro l
  induction l with
  | nil => intro i b h; cases i <;> cases h
  | cons x l ih =>
    intro i b h
    cases i with
    | zero => cases h; rfl
    | succ i => simp only [List.set_cons_succ, ih i b h]

lemma updNode_self (sc : XgScene) (nid : Nat) (nd : XgNode)
    (h : sc.arena.get? nid = some nd) : sc.updNode nid nd = sc := by
  unfold XgScene.updNode
  rw [set_self sc.arena nid nd h]

lemma updNode_updNode (sc : XgScene) (nid : Nat) (n1 n2 : XgNode) :
    (sc.updNode nid n1).updNode nid n2 = sc.updNode nid n2 := by
  unfold XgScene.updNode
  simp [List.set_set]

lemma updNode_get? (sc : XgScene) (nid : Nat) (nd nd0 : XgNode)
    (h : sc.arena.get? nid = some nd0) :
    (sc.updNode nid nd).arena.get? nid = some nd := get?_set_self sc.arena nid nd nd0 h

/-- `foldSetProps` onto a node whose stored properties are `acc` appends
the new (distinct, valid) properties in order. -/
lemma foldSetProps_build (nid : Nat) (nt : NodeType) (nmO : Option (List Nat)) :
    ∀ (ps acc : List (PropName × PropVal)) (sc : XgScene),
      sc.arena.get? nid = some ⟨nmO, nt, acc, []⟩ →
      (acc ++ ps).Pairwise (fun a b => a.1 ≠ b.1) →
      (∀ pv ∈ ps, pv.1 ∈ validProps nt) →
      foldSetProps sc nid ps = .ok (sc.updNode nid ⟨nmO, nt, acc ++ ps, []⟩) := by
  intro ps
  induction ps with
  | nil =>
    intro acc sc hget _ _
    rw [foldSetProps]
    rw [List.append_nil]
    rw [updNode_self sc nid _ hget]
  | cons pv ps ih =>
    intro acc sc hget hpw hval
    rw [foldSetProps]
    obtain ⟨pacc, pcons, cross⟩ := List.pairwise_append.mp hpw
    have hfr : ∀ q ∈ acc, ¬ q.1 = pv.1 := fun q hq => cross q hq pv (List.mem_cons_self _ _)
    have hsp : setProp sc nid pv.1 pv.2
        = .ok (sc.updNode nid ⟨nmO, nt, acc ++ [pv], []⟩) := by
      unfold setProp XgNode.set_property
      simp only [hget]
      rw [if_pos (hval pv (List.mem_cons_self _ _))]
      rw [assocSet_fresh pv.1 pv.2 acc hfr]
    simp only [hsp]
    have hpw2 : ((acc ++ [pv]) ++ ps).Pairwise
        (fun a b : PropName × PropVal => a.1 ≠ b.1) := by
      rw [← List.append_cons]
      exact hpw
    rw [ih (acc ++ [pv]) _ (updNode_get? sc nid _ _ hget) hpw2
      (fun q hq => hval q (List.mem_cons_of_mem pv hq))]
    rw [updNode_updNode]
    rw [← List.append_cons]

lemma foldAppendInatts_append (nid : Nat) :
    ∀ (l1 l2 : List (AttribName × Nat)) (sc sc3 : XgScene),
    foldAppendInatts sc nid l1 = .ok sc3 →
    foldAppendInatts sc nid (l1 ++ l2) = foldAppendInatts sc3 nid l2 := by
  intro l1
  induction l1 with
  | nil =>
    intro l2 sc sc3 h
    cases h
    rfl
  | cons pr l1 ih =>
    intro l2 sc sc3 h
    rw [foldAppendInatts] at h
    rw [List.cons_append, foldAppendInatts]
    cases hap : appendInatt sc nid pr.1 pr.2 with
    | error e => rw [hap] at h; cases h
    | ok sc2 =>
      rw [hap] at h
      exact ih l2 sc2 sc3 h

lemma assocAppend_fresh (a : AttribName) (i : Nat) :
    ∀ (m : List (AttribName × List Nat)), (∀ q ∈ m, ¬ q.1 = a) →
    assocAppend a i m = m ++ [(a, [i])] := by
  intro m
  induction m with
  | nil => intro _; rfl
  | cons q m ih =>
    intro hfr
    rw [assocAppend]
    rw [if_neg (hfr q (List.mem_cons_self _ _))]
    rw [ih (fun r hr => hfr r (List.mem_cons_of_mem q hr))]
    rfl

lemma assocAppend_last (a : AttribName) (i : Nat) (cur : List Nat) :
    ∀ (m : List (AttribName × List Nat)), (∀ q ∈ m, ¬ q.1 = a) →
    assocAppend a i (m ++ [(a, cur)]) = m ++ [(a, cur ++ [i])] := by
  intro m
  induction m with
  | nil =>
    intro _
    simp only [List.nil_append]
    rw [assocAppend]
    rw [if_pos rfl]
  | cons q m ih =>
    intro hfr
    simp only [List.cons_append]
    rw [assocAppend]
    rw [if_neg (hfr q (List.mem_cons_self _ _))]
    rw [ih (fun r hr => hfr r (List.mem_cons_of_mem q hr))]

/-- The inner loop of the edge replay: appending the rest of one
attribute's target list onto its existing (last-positioned) group. -/
lemma foldAppendInatts_group (nid : Nat) (nt : NodeType) (nmO : Option (List Nat))
    (P : List (PropName × PropVal)) (a : AttribName) (hvalid : a ∈ validAttribs nt) :
    ∀ (ts cur : List Nat) (acc : List (AttribName × List Nat)) (sc : XgScene),
      sc.arena.get? nid = some ⟨nmO, nt, P, acc ++ [(a, cur)]⟩ →
      (∀ q ∈ acc, ¬ q.1 = a) →
      foldAppendInatts sc nid (ts.map (fun t => (a, t)))
        = .ok (sc.updNode nid ⟨nmO, nt, P, acc ++ [(a, cur ++ ts)]⟩) := by
  intro ts
  induction ts with
  | nil =>
    intro cur acc sc hget _
    rw [List.map_nil, foldAppendInatts, List.append_nil]
    rw [updNode_self sc nid _ hget]
  | cons t ts ih =>
    intro cur acc sc hget hfr
    rw [List.map_cons, foldAppendInatts]
    have hap : appendInatt sc nid a t
        = .ok (sc.updNode nid ⟨nmO, nt, P, acc ++ [(a, cur ++ [t])]⟩) := by
      unfold appendInatt XgNode.append_inputattrib
      simp only [hget]
      rw [if_pos hvalid]
      rw [assocAppend_last a t cur acc hfr]
    simp only [hap]
    rw [ih (cur ++ [t]) acc _ (updNode_get? sc nid _ _ hget) hfr]
    rw [updNode_updNode]
    rw [List.append_assoc, List.singleton_append]

/-- The edge replay: `foldAppendInatts` over the flattened pairs of an
insertion-ordered input-attribute map with distinct keys and non-empty
groups rebuilds exactly that map. -/
lemma foldAppendInatts_build (nid : Nat) (nt : NodeType) (nmO : Option (List Nat))
    (P : List (PropName × PropVal)) :
    ∀ (eds acc : List (AttribName × List Nat)) (sc : XgScene),
      sc.arena.get? nid = some ⟨nmO, nt, P, acc⟩ →
      (acc ++ eds).Pairwise (fun a b => a.1 ≠ b.1) →
      (∀ ed ∈ eds, ed.1 ∈ validAttribs nt ∧ ¬ ed.2 = []) →
      foldAppendInatts sc nid (edgePairs eds) = .ok (sc.updNode nid ⟨nmO, nt, P, acc ++ eds⟩) := by
  intro eds
  induction eds with
  | nil =>
    intro acc sc hget _ _
    rw [edgePairs, List.map_nil, List.flatten_nil, foldAppendInatts, List.append_nil]
    rw [updNode_self sc nid _ hget]
  | cons ed eds ih =>
    intro acc sc hget hpw hval
    obtain ⟨pacc, pcons, cross⟩ := List.pairwise_append.mp hpw
    have hfr : ∀ q ∈ acc, ¬ q.1 = ed.1 := fun q hq => cross q hq ed (List.mem_cons_self _ _)
    obtain ⟨hv, hne⟩ := hval ed (List.mem_cons_self _ _)
    obtain ⟨t, ts, hts⟩ := List.exists_cons_of_ne_nil hne
    have hsplit : edgePairs (ed :: eds)
        = (ed.2.map (fun t => (ed.1, t))) ++ edgePairs eds := by
      rw [edgePairs, List.map_cons, List.flatten_cons]
      rfl
    rw [hsplit, hts]
    rw [List.map_cons]
    rw [List.cons_append]
    rw [foldAppendInatts]
    have hap : appendInatt sc nid ed.1 t
        = .ok (sc.updNode nid ⟨nmO, nt, P, acc ++ [(ed.1, [t])]⟩) := by
      unfold appendInatt XgNode.append_inputattrib
      simp only [hget]
      rw [if_pos hv]
      rw [assocAppend_fresh ed.1 t acc hfr]
    simp only [hap]
    have hgrp := foldAppendInatts_group nid nt nmO P ed.1 hv ts [t] acc
      (sc.updNode nid ⟨nmO, nt, P, acc ++ [(ed.1, [t])]⟩)
      (updNode_get? sc nid _ _ hget) hfr
    rw [updNode_updNode] at hgrp
    rw [List.singleton_append, ← hts] at hgrp
    rw [foldAppendInatts_append nid _ _ _ _ hgrp]
    have hpw2 : ((acc ++ [ed]) ++ eds).Pairwise
        (fun a b : AttribName × List Nat => a.1 ≠ b.1) := by
      rw [← List.append_cons]
      exact hpw
    have hget2 : (sc.updNode nid ⟨nmO, nt, P, acc ++ [(ed.1, ed.2)]⟩).arena.get? nid
        = some ⟨nmO, nt, P, acc ++ [ed]⟩ := updNode_get? sc nid _ _ hget
    rw [ih (acc ++ [ed]) _ hget2 hpw2
      (fun q hq => hval q (List.mem_cons_of_mem ed hq))]
    rw [updNode_updNode]
    rw [← List.append_cons]

/-- Looking a name up in the canonical pool finds exactly the owning
node's arena index. -/
lemma assocGet_enumFrom : ∀ (nds : List XgNode) (b j : Nat) (nd : XgNode) (nm : List Nat),
    nds.get? j = some nd → nd.name = some nm →
    (∀ q ∈ nds, q.name.isSome) →
    ((nds.map XgNode.name).Pairwise (· ≠ ·)) →
    assocGet ((nds.enumFrom b).map (fun p => (p.2.name.getD [], p.1))) nm = some (b + j) := by
  intro nds
  induction nds with
  | nil => intro b j nd nm h; cases j <;> cases h
  | cons x nds ih =>
    intro b j nd nm hj hnm hsome hpw
    have hpc : (x.name :: nds.map XgNode.name).Pairwise (· ≠ ·) := by simpa using hpw
    cases j with
    | zero =>
      cases hj
      rw [List.enumFrom, List.map_cons, assocGet, List.find?]
      have hkey : (x.name.getD [] = nm) := by rw [hnm]; rfl
      rw [decide_eq_true hkey]
      rfl
    | succ j =>
      have hmem : nd ∈ nds := List.get?_mem hj
      have hne : x.name ≠ nd.name :=
        (List.pairwise_cons.mp hpc).1 nd.name (List.mem_map_of_mem _ hmem)
      obtain ⟨xnm, hx⟩ := Option.isSome_iff_exists.mp
        (hsome x (List.mem_cons_self _ _))
      rw [List.enumFrom, List.map_cons, assocGet, List.find?]
      have hkey : ¬ (x.name.getD [] = nm) := by
        rw [hx]
        simp only [Option.getD_some]
        intro hc
        exact hne (by rw [hx, hnm, hc])
      rw [decide_eq_false hkey]
      have hrec := ih (b + 1) j nd nm hj hnm
        (fun q hq => hsome q (List.mem_cons_of_mem x hq))
        (List.pairwise_cons.mp hpc).2
      rw [assocGet] at hrec
      rw [hrec]
      congr 1
      omega

/-- Under the canonical pool, the writer's pool walk recovers the arena
itself. -/
lemma mapM_canonical (arena : List XgNode) : ∀ (l : List XgNode) (b : Nat),
    arena.drop b = l →
    ((l.enumFrom b).map (fun p => (p.2.name.getD [], p.1))).mapM
        (fun p => arena.get? p.2) = some l := by
  intro l
  induction l with
  | nil => intro b _; rfl
  | cons x l ih =>
    intro b hdrop
    have hget : arena.get? b = some x := by
      have := List.get?_drop arena b 0
      rw [hdrop] at this
      simpa using this.symm
    have hdrop2 : arena.drop (b + 1) = l := by
      have := List.drop_drop 1 b arena
      rw [hdrop] at this
      simpa using this.symm
    rw [List.enumFrom, List.map_cons, List.mapM_cons]
    simp only [hget, ih (b + 1) hdrop2]
    rfl

/-- Tokens the body of one node costs the top-level loop. -/
def bodyFuel (nd : XgNode) : Nat := nd.props.length + (edgePairs nd.inattribs).length + 2

def bodiesFuel : List XgNode → Nat
  | [] => 0
  | nd :: nds => bodyFuel nd + bodiesFuel nds

lemma set_append_len {α : Type} : ∀ (l1 : List α) (x : α) (l2 : List α) (v : α),
    (l1 ++ x :: l2).set l1.length v = l1 ++ v :: l2 := by
  intro l1
  induction l1 with
  | nil => intro x l2 v; rfl
  | cons y l1 ih =>
    intro x l2 v
    simp only [List.cons_append, List.length_cons, List.set_cons_succ, ih]

/-- The canonical pool of an arena. -/
def canonPool (A : List XgNode) : List (List Nat × Nat) :=
  (A.enumFrom 0).map (fun p => (p.2.name.getD [], p.1))

/-- The body pass of the top-level loop: parsing the written bodies
fills each shell with its properties and edges, in order. -/
lemma parseTop_bodies_encode (A : List XgNode)
    (hsome : ∀ q ∈ A, q.name.isSome)
    (hpwn : (A.map XgNode.name).Pairwise (· ≠ ·))
    (hpropwf : ∀ nd ∈ A, nd.props.Pairwise (fun a b => a.1 ≠ b.1)
        ∧ (∀ pv ∈ nd.props, pv.1 ∈ validProps nd.ntype ∧ propArgOK pv.2))
    (hedgewf : ∀ nd ∈ A, nd.inattribs.Pairwise (fun a b => a.1 ≠ b.1)
        ∧ (∀ ed ∈ nd.inattribs, ed.1 ∈ validAttribs nd.ntype ∧ ¬ ed.2 = [])) :
    ∀ (rem : List XgNode) (k : Nat), A.drop k = rem →
    ∀ {enc : List Nat}, optConcat (rem.map (writeBody A)) = some enc →
    ∀ (f : Nat), (∀ q ∈ rem, bodyFuel q ≤ f) →
    ∀ (rest : List Nat) (pos tp : Nat),
    parseTop (rem.length + f)
        ⟨A.take k ++ rem.map skel, canonPool A, []⟩ ⟨enc ++ rest, pos, tp⟩
      = parseTop f ⟨A, canonPool A, []⟩ ⟨rest, pos + enc.length, 0⟩ := by
  intro rem
  induction rem with
  | nil =>
    intro k hdrop enc hw f hbig rest pos tp
    cases hw
    have htake : A.take k = A :=
      List.take_of_length_le (List.drop_eq_nil_iff_le.mp hdrop)
    rw [htake]
    simp only [Nat.zero_add, List.map_nil, List.append_nil,
      List.nil_append, List.length_nil, Nat.add_zero]
    exact parseTop_tokPos f _ rest pos tp 0
  | cons nd rem ih =>
    intro k hdrop enc hw f hbig rest pos tp
    have hk : A.get? k = some nd := by
      have := List.get?_drop A k 0
      rw [hdrop] at this
      simpa using this.symm
    have hmemA : nd ∈ A := List.get?_mem hk
    obtain ⟨nm, hname⟩ := Option.isSome_iff_exists.mp (hsome nd hmemA)
    rw [List.map_cons, optConcat_cons] at hw
    obtain ⟨e1, y, he1, hy, hencE⟩ := optApp_some hw
    rw [writeBody] at he1
    simp only [hname] at he1
    rw [optConcat_cons] at he1
    obtain ⟨etok, e2, het, he2, he1E⟩ := optApp_some he1
    rw [optConcat_cons] at he2
    obtain ⟨enm, e3, hen, he3, he2E⟩ := optApp_some he2
    rw [optConcat_cons] at he3
    obtain ⟨eob, e4, heo, he4, he3E⟩ := optApp_some he3
    rw [optConcat_cons] at he4
    obtain ⟨pE, e5, hpE, he5, he4E⟩ := optApp_some he4
    rw [optConcat_cons] at he5
    obtain ⟨eE, e6, heE, he6, he5E⟩ := optApp_some he5
    rw [optConcat_cons] at he6
    obtain ⟨ecb, e7, hcb, he7, he6E⟩ := optApp_some he6
    cases he7
    obtain ⟨htlen, hetokE⟩ := pstrW_some het
    obtain ⟨hnlen, henmE⟩ := pstrW_some hen
    obtain ⟨holen, heobE⟩ := pstrW_some heo
    obtain ⟨hclen, hecbE⟩ := pstrW_some hcb
    rw [writeEdges_pairs] at heE
    subst hencE he1E he2E he3E he4E he5E he6E hetokE henmE heobE hecbE
    have hneed : nd.props.length + (edgePairs nd.inattribs).length + 2 ≤ f := by
      have := hbig nd (List.mem_cons_self _ _)
      rwa [bodyFuel] at this
    have hfuel : (nd :: rem).length + f
        = (nd.props.length + ((edgePairs nd.inattribs).length
            + ((rem.length + f - (nd.props.length + (edgePairs nd.inattribs).length + 1))
                + 1))) + 1 := by
      simp only [List.length_cons]
      omega
    rw [hfuel]
    rw [parseTop]
    simp only [List.append_assoc, List.append_nil]
    simp only [readPstr_encode (nodeTypeToken nd.ntype) _ pos tp]
    rw [if_neg (nodeTypeToken_ne_empty nd.ntype)]
    rw [if_neg (nodeTypeToken_ne_dag nd.ntype)]
    set sc0 : XgScene := ⟨A.take k ++ (nd :: rem).map skel, canonPool A, []⟩ with hsc0
    have hgetk : sc0.arena.get? k = some ⟨nd.name, nd.ntype, [], []⟩ := by
      rw [hsc0]
      have hklen : k ≤ A.length := by
        by_contra hgt
        rw [List.drop_eq_nil_of_le (by omega)] at hdrop
        cases hdrop
      have htklen : (A.take k).length = k := by
        rw [List.length_take]
        omega
      rw [List.map_cons]
      rw [show (A.take k ++ skel nd :: List.map skel rem).get? k
          = (skel nd :: List.map skel rem).get? (k - (A.take k).length) from
        List.get?_append_right (by omega)]
      rw [htklen, Nat.sub_self]
      rfl
    have hgetnode : sc0.get_node nm = some k := by
      rw [hsc0]
      show assocGet (canonPool A) nm = some k
      rw [canonPool]
      have := assocGet_enumFrom A 0 k nd nm hk hname hsome hpwn
      rw [this]
      norm_num
    have hfoldp : foldSetProps sc0 k nd.props
        = .ok (sc0.updNode k ⟨nd.name, nd.ntype, nd.props, []⟩) := by
      have := foldSetProps_build k nd.ntype nd.name nd.props [] sc0 hgetk
        (by simpa using (hpropwf nd hmemA).1)
        (fun pv hpv => ((hpropwf nd hmemA).2 pv hpv).1)
      simpa using this
    have hres : ∀ pr ∈ edgePairs nd.inattribs, ∃ tnd tnm, A.get? pr.2 = some tnd ∧
        tnd.name = some tnm ∧ assocGet sc0.pool tnm = some pr.2 := by
      intro pr hpr
      have hprt : ∃ ed ∈ nd.inattribs, pr.2 ∈ ed.2 ∧ pr.1 = ed.1 := by
        rw [edgePairs] at hpr
        obtain ⟨l, hl, hprl⟩ := List.mem_flatten.mp hpr
        obtain ⟨ed, hed, hedl⟩ := List.mem_map.mp hl
        subst hedl
        obtain ⟨t, ht, hteq⟩ := List.mem_map.mp hprl
        exact ⟨ed, hed, by rw [← hteq]; exact ht, by rw [← hteq]⟩
      obtain ⟨ed, hed, hprin, _⟩ := hprt
      -- the writer resolved this pair, so the target exists and is named
      have hpe : pairEnc A pr = some ((pairEnc A pr).getD []) := by
        have := (optConcat_map_some heE).1 pr hpr
        exact this
      rw [pairEnc] at hpe
      cases hga : A.get? pr.2 with
      | none => simp only [hga] at hpe; cases hpe
      | some tnd =>
        simp only [hga] at hpe
        cases hgn : tnd.name with
        | none => simp only [hgn] at hpe; cases hpe
        | some tnm =>
          refine ⟨tnd, tnm, rfl, hgn, ?_⟩
          rw [hsc0]
          show assocGet (canonPool A) tnm = some pr.2
          rw [canonPool]
          have := assocGet_enumFrom A 0 pr.2 tnd tnm hga hgn hsome hpwn
          rw [this]
          norm_num
    have hfolde : foldAppendInatts (sc0.updNode k ⟨nd.name, nd.ntype, nd.props, []⟩) k
        (edgePairs nd.inattribs) = .ok (sc0.updNode k nd) := by
      have := foldAppendInatts_build k nd.ntype nd.name nd.props nd.inattribs []
        (sc0.updNode k ⟨nd.name, nd.ntype, nd.props, []⟩)
        (updNode_get? sc0 k _ _ hgetk)
        (by simpa using (hedgewf nd hmemA).1)
        (fun ed hed => (hedgewf nd hmemA).2 ed hed)
      rw [updNode_updNode] at this
      simpa using this
    obtain ⟨tp2, hbody⟩ := parse_body_encode sc0 k nd A nm hname hpE heE hgetnode
      hfoldp hres hfolde
      (fun pv hpv => ((hpropwf nd hmemA).2 pv hpv).2)
      (rem.length + f - (nd.props.length + (edgePairs nd.inattribs).length + 1)) (y ++ rest)
      (pos + 1 + (nodeTypeToken nd.ntype).length) pos
    simp only [hbody]
    have hscene2 : sc0.updNode k nd
        = (⟨A.take (k + 1) ++ rem.map skel, canonPool A, []⟩ : XgScene) := by
      rw [hsc0]
      unfold XgScene.updNode
      have htklen : (A.take k).length = k := by
        rw [List.length_take]
        have : k ≤ A.length := by
          by_contra hgt
          rw [List.drop_eq_nil_of_le (by omega)] at hdrop
          cases hdrop
        omega
      simp only [List.map_cons]
      rw [show (A.take k ++ skel nd :: List.map skel rem).set k nd
          = (A.take k ++ skel nd :: List.map skel rem).set (A.take k).length nd from by
        rw [htklen]]
      rw [set_append_len]
      have : A.take (k + 1) = A.take k ++ [nd] := by
        rw [List.take_succ]
        rw [show A[k]? = some nd from by rw [← List.get?_eq_getElem?]; exact hk]
        rfl
      rw [this, List.append_assoc, List.singleton_append]
    rw [hscene2]
    have hdrop2 : A.drop (k + 1) = rem := by
      have := List.drop_drop 1 k A
      rw [hdrop] at this
      simpa using this.symm
    rw [show nd.props.length + ((edgePairs nd.inattribs).length
        + ((rem.length + f - (nd.props.length + (edgePairs nd.inattribs).length + 1)) + 1))
        = rem.length + f from by omega]
    rw [ih (k + 1) hdrop2 hy f (fun q hq => hbig q (List.mem_cons_of_mem nd hq)) rest _ tp2]
    have hc1 : (strB "\x7b").length = 1 := rfl
    have hc2 : (strB "\x7d").length = 1 := rfl
    congr 2
    simp [List.length_append, hc1, hc2]
    omega

/-- The writer's name lookup for a DAG index. -/
def nameEnc (A : List XgNode) (i : Nat) : Option (List Nat) :=
  match A.get? i with
  | some nd => match nd.name with | some nm => pstrW nm | none => none
  | none => none

/-- The writer's output for one DAG entry. -/
def entryEnc (A : List XgNode) (e : Nat × List Nat) : Option (List Nat) :=
  optConcat [nameEnc A e.1, pstrW (strB "["),
    optConcat (e.2.map (nameEnc A)), pstrW (strB "]")]

lemma writeDag_entries (A : List XgNode) (dag : List (Nat × List Nat)) :
    writeDag A dag = optConcat [pstrW (strB "dag"), pstrW (strB "\x7b"),
      optConcat (dag.map (entryEnc A)), pstrW (strB "\x7d")] := rfl

lemma assocGet_none {κ ν : Type} [DecidableEq κ] (k : κ) :
    ∀ (m : List (κ × ν)), (∀ q ∈ m, ¬ q.1 = k) → assocGet m k = none := by
  intro m
  induction m with
  | nil => intro _; rfl
  | cons q m ih =>
    intro hfr
    rw [assocGet, List.find?]
    rw [decide_eq_false (hfr q (List.mem_cons_self _ _))]
    exact ih (fun r hr => hfr r (List.mem_cons_of_mem q hr))

lemma canonPool_contains (A : List XgNode) (i : Nat) (hi : i < A.length) :
    ((canonPool A).map (·.2)).contains i = true := by
  rw [canonPool, List.map_map]
  show ((A.enumFrom 0).map Prod.fst).contains i = true
  rw [List.enumFrom_map_fst]
  have hmem : i ∈ List.range' 0 A.length := by
    rw [List.mem_range'_1]
    omega
  exact List.elem_eq_true_of_mem hmem

/-- The children loop of the DAG parser resolves the written child
names back to their indices, in order, up to the closing bracket. -/
lemma parseDagChildren_encode (A : List XgNode)
    (hsome : ∀ q ∈ A, q.name.isSome)
    (hpwn : (A.map XgNode.name).Pairwise (· ≠ ·)) :
    ∀ (cs : List Nat) {enc : List Nat},
      optConcat (cs.map (nameEnc A)) = some enc →
      (∀ c ∈ cs, ∀ cnd, A.get? c = some cnd → ¬ cnd.name.getD [] = strB "]") →
      ∀ (acc : List Nat) (sc : XgScene), sc.pool = canonPool A →
      ∀ (f : Nat) (rest : List Nat) (pos tp : Nat),
      parseDagChildren (cs.length + (f + 1)) sc acc
          ⟨enc ++ (((strB "]").length :: strB "]") ++ rest), pos, tp⟩
        = .ok (acc ++ cs, ⟨rest, pos + enc.length + 2, pos + enc.length⟩) := by
  intro cs
  induction cs with
  | nil =>
    intro enc hw _ acc sc _ f rest pos tp
    cases hw
    simp only [List.length_nil, Nat.zero_add, List.nil_append]
    rw [parseDagChildren]
    simp only [readPstr_encode (strB "]") rest pos tp]
    rw [if_pos trivial]
    simp [strB]
  | cons c cs ih =>
    intro enc hw hbr acc sc hpool f rest pos tp
    rw [List.map_cons, optConcat_cons] at hw
    obtain ⟨e1, y, he1, hy, hencE⟩ := optApp_some hw
    rw [nameEnc] at he1
    cases hgc : A.get? c with
    | none => simp only [hgc] at he1; cases he1
    | some cnd =>
    simp only [hgc] at he1
    cases hgn : cnd.name with
    | none => simp only [hgn] at he1; cases he1
    | some cnm =>
    simp only [hgn] at he1
    obtain ⟨hclen, he1E⟩ := pstrW_some he1
    subst hencE he1E
    rw [List.length_cons]
    rw [(by omega : cs.length + 1 + (f + 1) = (cs.length + (f + 1)) + 1)]
    rw [parseDagChildren]
    simp only [List.append_assoc]
    simp only [readPstr_encode cnm _ pos tp]
    rw [if_neg (by
      have := hbr c (List.mem_cons_self _ _) cnd hgc
      rwa [hgn] at this)]
    have hget : sc.get_node cnm = some c := by
      rw [XgScene.get_node, hpool, canonPool]
      have := assocGet_enumFrom A 0 c cnd cnm hgc hgn hsome hpwn
      rw [this]
      norm_num
    simp only [hget]
    rw [ih hy (fun d hd => hbr d (List.mem_cons_of_mem c hd)) (acc ++ [c]) sc hpool
      f rest _ _]
    rw [List.append_assoc, List.singleton_append]
    congr 2 <;> simp <;> omega

/-- The entries loop of the DAG parser replays `add_dagnode` for every
written entry, in order, up to the closing brace. -/
lemma parseDagEntries_encode (A : List XgNode)
    (hsome : ∀ q ∈ A, q.name.isSome)
    (hpwn : (A.map XgNode.name).Pairwise (· ≠ ·)) :
    ∀ (entries : List (Nat × List Nat)) {enc : List Nat},
      optConcat (entries.map (entryEnc A)) = some enc →
      (∀ e ∈ entries,
        ((e.1 :: e.2).all (fun i => (A.get? i).elim false (fun nd => isDagType nd.ntype)) = true)
        ∧ (∀ knd, A.get? e.1 = some knd → ¬ knd.name.getD [] = strB "\x7d")
        ∧ (∀ c ∈ e.2, ∀ cnd, A.get? c = some cnd → ¬ cnd.name.getD [] = strB "]")) →
      ∀ (acc : List (Nat × List Nat)),
      (acc ++ entries).Pairwise (fun a b => a.1 ≠ b.1) →
      ∀ (f : Nat), (∀ e ∈ entries, e.2.length + 2 ≤ f) →
      ∀ (rest : List Nat) (pos tp : Nat),
      parseDagEntries (entries.length + (f + 1)) ⟨A, canonPool A, acc⟩
          ⟨enc ++ (((strB "\x7d").length :: strB "\x7d") ++ rest), pos, tp⟩
        = .ok (⟨A, canonPool A, acc ++ entries⟩,
            ⟨rest, pos + enc.length + 2, pos + enc.length⟩) := by
  intro entries
  induction entries with
  | nil =>
    intro enc hw _ acc _ f _ rest pos tp
    cases hw
    simp only [List.length_nil, Nat.zero_add, List.nil_append]
    rw [parseDagEntries]
    simp only [readPstr_encode (strB "\x7d") rest pos tp]
    rw [if_pos trivial]
    simp [strB]
  | cons e entries ih =>
    intro enc hw hewf acc hpw f hf rest pos tp
    rw [List.map_cons, optConcat_cons] at hw
    obtain ⟨e1, y, he1, hy, hencE⟩ := optApp_some hw
    rw [entryEnc, optConcat_cons] at he1
    obtain ⟨eknm, e2, hek, he2, he1E⟩ := optApp_some he1
    rw [optConcat_cons] at he2
    obtain ⟨eob, e3, heo, he3, he2E⟩ := optApp_some he2
    rw [optConcat_cons] at he3
    obtain ⟨cE, e4, hcE, he4, he3E⟩ := optApp_some he3
    rw [optConcat_cons] at he4
    obtain ⟨ecb, e5, hcb, he5, he4E⟩ := optApp_some he4
    cases he5
    rw [nameEnc] at hek
    cases hgk : A.get? e.1 with
    | none => simp only [hgk] at hek; cases hek
    | some knd =>
    simp only [hgk] at hek
    cases hgkn : knd.name with
    | none => simp only [hgkn] at hek; cases hek
    | some knm =>
    simp only [hgkn] at hek
    obtain ⟨hknlen, hekE⟩ := pstrW_some hek
    obtain ⟨holen, heoE⟩ := pstrW_some heo
    obtain ⟨hclen, hecbE⟩ := pstrW_some hcb
    subst hencE he1E he2E he3E he4E hekE heoE hecbE
    obtain ⟨hty, hkbr, hcbr⟩ := hewf e (List.mem_cons_self _ _)
    have hfe : e.2.length + 2 ≤ f := hf e (List.mem_cons_self _ _)
    simp only [List.length_cons]
    rw [(by omega : entries.length + 1 + (f + 1) = (entries.length + (f + 1)) + 1)]
    rw [parseDagEntries]
    simp only [List.append_assoc, List.append_nil]
    simp only [readPstr_encode knm _ pos tp]
    rw [if_neg (by
      have := hkbr knd hgk
      rwa [hgkn] at this)]
    have hget : XgScene.get_node ⟨A, canonPool A, acc⟩ knm = some e.1 := by
      rw [XgScene.get_node]
      show assocGet (canonPool A) knm = some e.1
      rw [canonPool]
      have := assocGet_enumFrom A 0 e.1 knd knm hgk hgkn hsome hpwn
      rw [this]
      norm_num
    simp only [hget]
    simp only [readPstr_encode (strB "[") _ _ _]
    rw [if_pos trivial]
    have hchfuel : entries.length + (f + 1)
        = e.2.length + ((entries.length + f - e.2.length) + 1) := by omega
    nth_rewrite 1 [hchfuel]
    rw [parseDagChildren_encode A hsome hpwn e.2 hcE hcbr [] ⟨A, canonPool A, acc⟩ rfl
      (entries.length + f - e.2.length) (y ++ ((strB "\x7d").length :: strB "\x7d" ++ rest)) _ _]
    simp only [List.nil_append]
    have hcontains : ((e.1 :: e.2).all
        (fun i => (((canonPool A).map (·.2)).contains i)) = true) := by
      rw [List.all_eq_true]
      intro i hi
      have hty2 := List.all_eq_true.mp hty i hi
      cases hg : A.get? i with
      | none => rw [hg] at hty2; cases hty2
      | some ndi =>
        obtain ⟨hlt, _⟩ := List.get?_eq_some.mp hg
        exact canonPool_contains A i hlt
    have hfresh : assocGet acc e.1 = none := by
      apply assocGet_none
      intro q hq
      obtain ⟨pacc, pcons, cross⟩ := List.pairwise_append.mp hpw
      exact cross q hq e (List.mem_cons_self _ _)
    have hadd : XgScene.add_dagnode ⟨A, canonPool A, acc⟩ e.1 e.2
        = .ok ⟨A, canonPool A, acc ++ [e]⟩ := by
      rw [XgScene.add_dagnode]
      rw [if_pos hty]
      rw [if_pos hcontains]
      simp only [hfresh]
    simp only [hadd]
    have hpw2 : ((acc ++ [e]) ++ entries).Pairwise
        (fun a b : Nat × List Nat => a.1 ≠ b.1) := by
      rw [← List.append_cons]
      exact hpw
    rw [ih hy (fun q hq => hewf q (List.mem_cons_of_mem e hq)) (acc ++ [e]) hpw2 f
      (fun q hq => hf q (List.mem_cons_of_mem e hq)) rest _ _]
    rw [← List.append_cons]
    have hb1 : (strB "[").length = 1 := rfl
    have hb2 : (strB "]").length = 1 := rfl
    congr 2 <;> simp [List.length_append, hb1, hb2] <;> omega

/-- The DAG block (after its `dag` token). -/
lemma parse_dag_encode (A : List XgNode)
    (hsome : ∀ q ∈ A, q.name.isSome)
    (hpwn : (A.map XgNode.name).Pairwise (· ≠ ·))
    (dag : List (Nat × List Nat)) {enc : List Nat}
    (hw : optConcat (dag.map (entryEnc A)) = some enc)
    (hewf : ∀ e ∈ dag,
        ((e.1 :: e.2).all (fun i => (A.get? i).elim false (fun nd => isDagType nd.ntype)) = true)
        ∧ (∀ knd, A.get? e.1 = some knd → ¬ knd.name.getD [] = strB "\x7d")
        ∧ (∀ c ∈ e.2, ∀ cnd, A.get? c = some cnd → ¬ cnd.name.getD [] = strB "]"))
    (hpw : dag.Pairwise (fun a b => a.1 ≠ b.1))
    (f : Nat) (hf : ∀ e ∈ dag, e.2.length + 2 ≤ f)
    (rest : List Nat) (pos tp : Nat) :
    ∃ s2, parse_dag (dag.length + (f + 1)) ⟨A, canonPool A, []⟩
        ⟨((strB "\x7b").length :: strB "\x7b") ++ (enc ++ (((strB "\x7d").length :: strB "\x7d") ++ rest)),
          pos, tp⟩
      = .ok (⟨A, canonPool A, dag⟩, s2) := by
  rw [parse_dag]
  simp only [readPstr_encode (strB "\x7b") _ pos tp]
  rw [if_pos trivial]
  have := parseDagEntries_encode A hsome hpwn dag hw hewf [] (by simpa using hpw) f hf
    rest (pos + 1 + (strB "\x7b").length) pos
  rw [this]
  exact ⟨_, by rw [List.nil_append]⟩

lemma optConcat_map_length_ge {α : Type} (k : Nat) (f : α → Option (List Nat)) :
    ∀ (l : List α) {bs : List Nat}, optConcat (l.map f) = some bs →
    (∀ x ∈ l, ∀ e, f x = some e → k ≤ e.length) →
    k * l.length ≤ bs.length := by
  intro l
  induction l with
  | nil => intro bs h _; cases h; simp
  | cons x l ih =>
    intro bs h hk
    rw [List.map_cons, optConcat_cons] at h
    obtain ⟨e1, y, he1, hy, hbs⟩ := optApp_some h
    subst hbs
    have h1 := hk x (List.mem_cons_self _ _) e1 he1
    have h2 := ih hy (fun q hq e he => hk q (List.mem_cons_of_mem x hq) e he)
    rw [List.length_append, List.length_cons]
    calc k * (l.length + 1) = k * l.length + k := by ring
    _ ≤ y.length + e1.length := by omega
    _ = e1.length + y.length := by omega

lemma optConcat_entry_slack {α : Type} (k : Nat) (f : α → Option (List Nat)) :
    ∀ (l : List α) {bs : List Nat}, optConcat (l.map f) = some bs →
    (∀ x ∈ l, ∀ d, f x = some d → k ≤ d.length) →
    ∀ x ∈ l, ∀ d, f x = some d → d.length + k * (l.length - 1) ≤ bs.length := by
  intro l
  induction l with
  | nil => intro bs _ _ x hx; cases hx
  | cons z l ih =>
    intro bs h hk x hx d hd
    rw [List.map_cons, optConcat_cons] at h
    obtain ⟨e1, y, he1, hy, hbs⟩ := optApp_some h
    subst hbs
    rw [List.length_append, List.length_cons]
    rcases List.mem_cons.mp hx with hx | hx
    · subst hx
      rw [hd] at he1
      cases he1
      have := optConcat_map_length_ge k f l hy
        (fun q hq e he => hk q (List.mem_cons_of_mem _ hq) e he)
      simp only [Nat.add_sub_cancel]
      omega
    · have h1 := hk z (List.mem_cons_self _ _) e1 he1
      have h2 := ih hy (fun q hq e he => hk q (List.mem_cons_of_mem z hq) e he) x hx d hd
      simp only [Nat.add_sub_cancel]
      cases l with
      | nil => cases hx
      | cons w l2 =>
        simp only [List.length_cons, Nat.add_sub_cancel] at h2
        rw [List.length_cons]
        have hkm : k * (l2.length + 1) = k * l2.length + k := by ring
        omega

lemma optConcat_map_mem_le {α : Type} (f : α → Option (List Nat)) :
    ∀ (l : List α) {bs : List Nat}, optConcat (l.map f) = some bs →
    ∀ x ∈ l, ∀ e, f x = some e → e.length ≤ bs.length := by
  intro l
  induction l with
  | nil => intro bs _ x hx; cases hx
  | cons z l ih =>
    intro bs h x hx e he
    rw [List.map_cons, optConcat_cons] at h
    obtain ⟨e1, y, he1, hy, hbs⟩ := optApp_some h
    subst hbs
    rcases List.mem_cons.mp hx with hx | hx
    · subst hx
      rw [he] at he1
      cases he1
      simp [List.length_append]
    · have := ih hy x hx e he
      rw [List.length_append]
      omega

lemma pstrW_length_ge {s e : List Nat} (h : pstrW s = some e) : 1 ≤ e.length := by
  obtain ⟨_, he⟩ := pstrW_some h
  subst he
  simp

lemma writeDecl_length_ge {nd : XgNode} {e : List Nat} (h : writeDecl nd = some e) :
    3 ≤ e.length := by
  rw [writeDecl] at h
  cases hn : nd.name with
  | none => rw [hn] at h; cases h
  | some nm =>
    simp only [hn] at h
    rw [optConcat_cons] at h
    obtain ⟨e1, y1, he1, hy1, hE⟩ := optApp_some h
    rw [optConcat_cons] at hy1
    obtain ⟨e2, y2, he2, hy2, hE2⟩ := optApp_some hy1
    rw [optConcat_cons] at hy2
    obtain ⟨e3, y3, he3, hy3, hE3⟩ := optApp_some hy2
    subst hE hE2 hE3
    have := pstrW_length_ge he1
    have := pstrW_length_ge he2
    have := pstrW_length_ge he3
    simp [List.length_append]
    omega

lemma propEnc_length_ge {nt : NodeType} {pv : PropName × PropVal} {e : List Nat}
    (h : optApp (pstrW (propNameToken pv.1)) (writeProp nt pv.1 pv.2) = some e) :
    1 ≤ e.length := by
  obtain ⟨e1, y, he1, hy, hE⟩ := optApp_some h
  subst hE
  have := pstrW_length_ge he1
  simp [List.length_append]
  omega

lemma pairEnc_length_ge {A : List XgNode} {pr : AttribName × Nat} {e : List Nat}
    (h : pairEnc A pr = some e) : 1 ≤ e.length := by
  rw [pairEnc] at h
  cases hg : A.get? pr.2 with
  | none => rw [hg] at h; cases h
  | some tnd =>
    simp only [hg] at h
    cases hn : tnd.name with
    | none => simp only [hn] at h; cases h
    | some nm =>
      simp only [hn] at h
      rw [optConcat_cons] at h
      obtain ⟨e1, y, he1, hy, hE⟩ := optApp_some h
      subst hE
      have := pstrW_length_ge he1
      simp [List.length_append]
      omega

/-- A written body is at least as long as the loop steps it costs. -/
lemma writeBody_length_ge {A : List XgNode} {nd : XgNode} {e : List Nat}
    (h : writeBody A nd = some e) :
    nd.props.length + (edgePairs nd.inattribs).length + 6 ≤ e.length := by
  rw [writeBody] at h
  cases hn : nd.name with
  | none => rw [hn] at h; cases h
  | some nm =>
    simp only [hn] at h
    rw [optConcat_cons] at h
    obtain ⟨e1, y1, he1, hy1, hE1⟩ := optApp_some h
    rw [optConcat_cons] at hy1
    obtain ⟨e2, y2, he2, hy2, hE2⟩ := optApp_some hy1
    rw [optConcat_cons] at hy2
    obtain ⟨e3, y3, he3, hy3, hE3⟩ := optApp_some hy2
    rw [optConcat_cons] at hy3
    obtain ⟨pE, y4, hpE, hy4, hE4⟩ := optApp_some hy3
    rw [optConcat_cons] at hy4
    obtain ⟨eE, y5, heE, hy5, hE5⟩ := optApp_some hy4
    rw [optConcat_cons] at hy5
    obtain ⟨e6, y6, he6, hy6, hE6⟩ := optApp_some hy5
    cases hy6
    subst hE1 hE2 hE3 hE4 hE5 hE6
    have h1 := pstrW_length_ge he1
    have h2 := pstrW_length_ge he2
    obtain ⟨_, he3E⟩ := pstrW_some he3
    obtain ⟨_, he6E⟩ := pstrW_some he6
    subst he3E he6E
    have hb1 : (strB "\x7b").length = 1 := rfl
    have hb2 : (strB "\x7d").length = 1 := rfl
    have hp : nd.props.length ≤ pE.length := by
      have := optConcat_map_length_ge 1
        (fun pv => optApp (pstrW (propNameToken pv.1)) (writeProp nd.ntype pv.1 pv.2))
        nd.props hpE (fun pv _ e he => propEnc_length_ge he)
      omega
    rw [writeEdges_pairs] at heE
    have hq : (edgePairs nd.inattribs).length ≤ eE.length := by
      have := optConcat_map_length_ge 1 (pairEnc A) (edgePairs nd.inattribs) heE
        (fun pr _ e he => pairEnc_length_ge he)
      omega
    simp [List.length_append, hb1, hb2]
    omega

lemma nameEnc_length_ge {A : List XgNode} {i : Nat} {e : List Nat}
    (h : nameEnc A i = some e) : 1 ≤ e.length := by
  rw [nameEnc] at h
  cases hg : A.get? i with
  | none => rw [hg] at h; cases h
  | some nd =>
    simp only [hg] at h
    cases hn : nd.name with
    | none => simp only [hn] at h; cases h
    | some nm => exact pstrW_length_ge (by simpa [hn] using h)

/-- A written DAG entry is at least as long as the loop steps it
costs. -/
lemma entryEnc_length_ge {A : List XgNode} {e : Nat × List Nat} {d : List Nat}
    (h : entryEnc A e = some d) : e.2.length + 5 ≤ d.length := by
  rw [entryEnc, optConcat_cons] at h
  obtain ⟨e1, y1, he1, hy1, hE1⟩ := optApp_some h
  rw [optConcat_cons] at hy1
  obtain ⟨e2, y2, he2, hy2, hE2⟩ := optApp_some hy1
  rw [optConcat_cons] at hy2
  obtain ⟨e3, y3, he3, hy3, hE3⟩ := optApp_some hy2
  rw [optConcat_cons] at hy3
  obtain ⟨e4, y4, he4, hy4, hE4⟩ := optApp_some hy3
  cases hy4
  subst hE1 hE2 hE3 hE4
  have h1 := nameEnc_length_ge he1
  obtain ⟨_, he2E⟩ := pstrW_some he2
  obtain ⟨_, he4E⟩ := pstrW_some he4
  subst he2E he4E
  have h3 : e.2.length ≤ e3.length := by
    have := optConcat_map_length_ge 1 (nameEnc A) e.2 he3
      (fun c _ d hd => nameEnc_length_ge hd)
    omega
  have hb1 : (strB "[").length = 1 := rfl
  have hb2 : (strB "]").length = 1 := rfl
  simp [List.length_append, hb1, hb2]
  omega

/-- Decidable version of `propArgOK`. -/
def propArgOKB : PropVal → Bool
  | .mat ws => decide (ws.length = 16)
  | .vts gs => gs.all (fun g => g.all (fun z => decide (0 ≤ z)))
  | _ => true

lemma propArgOKB_ok : ∀ {v : PropVal}, propArgOKB v = true → propArgOK v := by
  intro v h
  cases v <;> try trivial
  case mat ws =>
    show ws.length = 16
    exact of_decide_eq_true h
  case vts gs =>
    show ∀ g ∈ gs, ∀ z ∈ g, 0 ≤ z
    intro g hg z hz
    exact of_decide_eq_true (List.all_eq_true.mp (List.all_eq_true.mp h g hg) z hz)

/-- Canonical form of one node: named, with distinct valid replayable
properties and distinct valid non-empty input-attribute groups. -/
def nodeCanonB (nd : XgNode) : Bool :=
  nd.name.isSome &&
  decide (nd.props.Pairwise (fun a b => a.1 ≠ b.1)) &&
  nd.props.all (fun pv => decide (pv.1 ∈ validProps nd.ntype) && propArgOKB pv.2) &&
  decide (nd.inattribs.Pairwise (fun a b => a.1 ≠ b.1)) &&
  nd.inattribs.all (fun ed => decide (ed.1 ∈ validAttribs nd.ntype) && decide (¬ ed.2 = []))

/-- Canonical form of one DAG entry: key and children are DAG-typed
nodes, and their names do not collide with the block delimiters. -/
def dagEntryCanonB (A : List XgNode) (e : Nat × List Nat) : Bool :=
  (e.1 :: e.2).all (fun i => (A.get? i).elim false (fun nd => isDagType nd.ntype)) &&
  ((A.get? e.1).elim false (fun nd => decide (¬ nd.name.getD [] = strB "\x7d"))) &&
  e.2.all (fun c => (A.get? c).elim false (fun nd => decide (¬ nd.name.getD [] = strB "]")))

/-- Canonical form of a whole scene: the name pool lists exactly the
arena nodes (each node named once, in arena order), every node and DAG
entry is in canonical form, and the writer accepts the scene. -/
def sceneCanonB (G : XgScene) : Bool :=
  decide (G.pool = canonPool G.arena) &&
  decide ((G.arena.map XgNode.name).Pairwise (· ≠ ·)) &&
  G.arena.all nodeCanonB &&
  decide (G.dag.Pairwise (fun a b => a.1 ≠ b.1)) &&
  G.dag.all (dagEntryCanonB G.arena) &&
  (write_xgscene G).isSome

/-- The round-trip core: writing a canonical scene and reading the
bytes back reproduces the scene exactly. -/
lemma roundtrip_core (G : XgScene) (hc : sceneCanonB G = true) :
    ∃ bs, write_xgscene G = some bs ∧ read_xgscene bs = .ok G := by
  rw [sceneCanonB] at hc
  simp only [Bool.and_eq_true] at hc
  obtain ⟨⟨⟨⟨⟨hpoolD, hpwnD⟩, hnodesD⟩, hdagpwD⟩, hdagD⟩, hwD⟩ := hc
  have hpoolE : G.pool = canonPool G.arena := of_decide_eq_true hpoolD
  have hpwn : (G.arena.map XgNode.name).Pairwise (· ≠ ·) := of_decide_eq_true hpwnD
  have hnodes := List.all_eq_true.mp hnodesD
  have hsome : ∀ q ∈ G.arena, q.name.isSome := by
    intro q hq
    have := hnodes q hq
    rw [nodeCanonB] at this
    simp only [Bool.and_eq_true] at this
    exact this.1.1.1.1
  have hpropwf : ∀ nd ∈ G.arena, nd.props.Pairwise (fun a b => a.1 ≠ b.1)
      ∧ (∀ pv ∈ nd.props, pv.1 ∈ validProps nd.ntype ∧ propArgOK pv.2) := by
    intro nd hnd
    have := hnodes nd hnd
    rw [nodeCanonB] at this
    simp only [Bool.and_eq_true] at this
    refine ⟨of_decide_eq_true this.1.1.1.2, ?_⟩
    intro pv hpv
    have h2 := List.all_eq_true.mp this.1.1.2 pv hpv
    simp only [Bool.and_eq_true] at h2
    exact ⟨of_decide_eq_true h2.1, propArgOKB_ok h2.2⟩
  have hedgewf : ∀ nd ∈ G.arena, nd.inattribs.Pairwise (fun a b => a.1 ≠ b.1)
      ∧ (∀ ed ∈ nd.inattribs, ed.1 ∈ validAttribs nd.ntype ∧ ¬ ed.2 = []) := by
    intro nd hnd
    have := hnodes nd hnd
    rw [nodeCanonB] at this
    simp only [Bool.and_eq_true] at this
    refine ⟨of_decide_eq_true this.1.2, ?_⟩
    intro ed hed
    have h2 := List.all_eq_true.mp this.2 ed hed
    simp only [Bool.and_eq_true] at h2
    exact ⟨of_decide_eq_true h2.1, of_decide_eq_true h2.2⟩
  have hdagpw : G.dag.Pairwise (fun a b => a.1 ≠ b.1) := of_decide_eq_true hdagpwD
  have hewf : ∀ e ∈ G.dag,
      ((e.1 :: e.2).all (fun i => (G.arena.get? i).elim false
          (fun nd => isDagType nd.ntype)) = true)
      ∧ (∀ knd, G.arena.get? e.1 = some knd → ¬ knd.name.getD [] = strB "\x7d")
      ∧ (∀ c ∈ e.2, ∀ cnd, G.arena.get? c = some cnd → ¬ cnd.name.getD [] = strB "]") := by
    intro e he
    have := List.all_eq_true.mp hdagD e he
    rw [dagEntryCanonB] at this
    simp only [Bool.and_eq_true] at this
    refine ⟨this.1.1, ?_, ?_⟩
    · intro knd hknd
      have h2 := this.1.2
      rw [hknd] at h2
      exact of_decide_eq_true h2
    · intro c hcm cnd hcnd
      have h2 := List.all_eq_true.mp this.2 c hcm
      rw [hcnd] at h2
      exact of_decide_eq_true h2
  obtain ⟨bs, hbs⟩ := Option.isSome_iff_exists.mp hwD
  refine ⟨bs, hbs, ?_⟩
  rw [write_xgscene] at hbs
  have hmapm : G.pool.mapM (fun p => G.arena.get? p.2) = some G.arena := by
    rw [hpoolE, canonPool]
    exact mapM_canonical G.arena G.arena 0 rfl
  simp only [hmapm] at hbs
  rw [optConcat_cons] at hbs
  obtain ⟨hd, y1, hhd, hy1, hbsE⟩ := optApp_some hbs
  cases hhd
  rw [optConcat_cons] at hy1
  obtain ⟨dE, y2, hdE, hy2, hy1E⟩ := optApp_some hy1
  rw [optConcat_cons] at hy2
  obtain ⟨bE, y3, hbE, hy3, hy2E⟩ := optApp_some hy2
  rw [optConcat_cons] at hy3
  obtain ⟨gE, y4, hgE, hy4, hy3E⟩ := optApp_some hy3
  cases hy4
  subst hbsE hy1E hy2E hy3E
  rw [writeDag_entries, optConcat_cons] at hgE
  obtain ⟨gd, z1, hgd, hz1, hgEE⟩ := optApp_some hgE
  rw [optConcat_cons] at hz1
  obtain ⟨gob, z2, hgob, hz2, hz1E⟩ := optApp_some hz1
  rw [optConcat_cons] at hz2
  obtain ⟨entE, z3, hentE, hz3, hz2E⟩ := optApp_some hz2
  rw [optConcat_cons] at hz3
  obtain ⟨gcb, z4, hgcb, hz4, hz3E⟩ := optApp_some hz3
  cases hz4
  obtain ⟨_, hgdE⟩ := pstrW_some hgd
  obtain ⟨_, hgobE⟩ := pstrW_some hgob
  obtain ⟨_, hgcbE⟩ := pstrW_some hgcb
  subst hgEE hz1E hz2E hz3E hgdE hgobE hgcbE
  have htake4 : ∀ X : List Nat, (strB "XGBv1.00" ++ X).take 4 = strB "XGBv" := fun X => rfl
  have hdt4 : ∀ X : List Nat, ((strB "XGBv1.00" ++ X).drop 4).take 4 = strB "1.00" :=
    fun X => rfl
  have hdrop8 : ∀ X : List Nat, (strB "XGBv1.00" ++ X).drop 8 = X := fun X => rfl
  have hlen8 : ∀ X : List Nat, (strB "XGBv1.00" ++ X).length = 8 + X.length := by
    intro X
    rw [List.length_append]
    rw [show (strB "XGBv1.00").length = 8 from rfl]
  rw [read_xgscene]
  rw [htake4, if_pos rfl]
  rw [hdt4, if_pos rfl]
  rw [hdrop8, hlen8]
  have hdlen : 3 * G.arena.length ≤ dE.length :=
    optConcat_map_length_ge 3 writeDecl G.arena hdE (fun nd _ e he => writeDecl_length_ge he)
  have hbodyB : ∀ nd ∈ G.arena,
      nd.props.length + (edgePairs nd.inattribs).length + 6 ≤ bE.length := by
    intro nd hnd
    have hw1 := (optConcat_map_some hbE).1 nd hnd
    calc nd.props.length + (edgePairs nd.inattribs).length + 6
        ≤ ((writeBody G.arena nd).getD []).length := writeBody_length_ge hw1
      _ ≤ bE.length := optConcat_map_mem_le (writeBody G.arena) G.arena hbE nd hnd _ hw1
  have hent5 : 5 * G.dag.length ≤ entE.length :=
    optConcat_map_length_ge 5 (entryEnc G.arena) G.dag hentE
      (fun e _ d hd => by have := entryEnc_length_ge hd; omega)
  have hentB : ∀ e ∈ G.dag, e.2.length + 5 + 5 * (G.dag.length - 1) ≤ entE.length := by
    intro e he
    have hw1 := (optConcat_map_some hentE).1 e he
    have h2 := optConcat_entry_slack 5 (entryEnc G.arena) G.dag hentE
      (fun x _ d hd => by have := entryEnc_length_ge hd; omega) e he _ hw1
    have h1 := entryEnc_length_ge hw1
    omega
  have hLtot : (dE ++ (bE ++ ((((strB "dag").length :: strB "dag") ++
      (((strB "\x7b").length :: strB "\x7b") ++ (entE ++ (((strB "\x7d").length :: strB "\x7d") ++ []))))
        ++ []))).length
      = dE.length + bE.length + entE.length + 8 := by
    have hl1 : (strB "dag").length = 3 := rfl
    have hl2 : (strB "\x7b").length = 1 := rfl
    have hl3 : (strB "\x7d").length = 1 := rfl
    simp [List.length_append, hl1, hl2, hl3]
    omega
  rw [hLtot]
  have hfuel1 : 8 + (dE.length + bE.length + entE.length + 8) + 1
      = G.arena.length + (17 + dE.length + bE.length + entE.length - G.arena.length) := by
    omega
  rw [hfuel1]
  rw [parseTop_decls_encode G.arena XgScene.empty hdE (List.pairwise_map.mp hpwn)
    (fun nd _ p hp => absurd hp (List.not_mem_nil p))
    (17 + dE.length + bE.length + entE.length - G.arena.length) _ 8 0]
  rw [show (⟨XgScene.empty.arena ++ G.arena.map skel,
      XgScene.empty.pool ++ (G.arena.enumFrom XgScene.empty.arena.length).map
        (fun p => (p.2.name.getD [], p.1)), XgScene.empty.dag⟩ : XgScene)
      = ⟨G.arena.take 0 ++ G.arena.map skel, canonPool G.arena, []⟩ from rfl]
  have hfuel2 : 17 + dE.length + bE.length + entE.length - G.arena.length
      = G.arena.length + (17 + dE.length + bE.length + entE.length
          - G.arena.length - G.arena.length) := by
    omega
  rw [hfuel2]
  have hbig : ∀ q ∈ G.arena, bodyFuel q
      ≤ 17 + dE.length + bE.length + entE.length - G.arena.length - G.arena.length := by
    intro q hq
    rw [bodyFuel]
    have := hbodyB q hq
    omega
  rw [parseTop_bodies_encode G.arena hsome hpwn hpropwf hedgewf G.arena 0
    (List.drop_zero G.arena) hbE
    (17 + dE.length + bE.length + entE.length - G.arena.length - G.arena.length) hbig
    _ _ 0]
  have hfuel3 : 17 + dE.length + bE.length + entE.length - G.arena.length - G.arena.length
      = (G.dag.length + ((15 + dE.length + bE.length + entE.length - G.arena.length
          - G.arena.length - G.dag.length) + 1)) + 1 := by
    omega
  rw [hfuel3]
  rw [parseTop]
  simp only [List.append_assoc, List.nil_append]
  simp only [readPstr_encode (strB "dag") _ _ _]
  rw [if_neg (by decide : ¬ strB "dag" = ([] : List Nat))]
  rw [if_pos trivial]
  have hf4 : ∀ e ∈ G.dag, e.2.length + 2
      ≤ 15 + dE.length + bE.length + entE.length - G.arena.length
          - G.arena.length - G.dag.length := by
    intro e he
    have := hentB e he
    omega
  obtain ⟨s2, hpd⟩ := parse_dag_encode G.arena hsome hpwn G.dag hentE hewf hdagpw
    (15 + dE.length + bE.length + entE.length - G.arena.length - G.arena.length
      - G.dag.length) hf4 [] _ _
  rw [hpd]
  rw [← hpoolE]

/-- Witness for C9: a scene holding one `xgTime` node; adding it to the
DAG fails with `TypeError` and leaves the scene unchanged. -/
theorem c9_dag_invariant_witness :
    ((XgScene.empty.createNode ⟨some (strB "A"), .xgTime, [], []⟩).1.add_dagnode 0 []
        = .error .typeError) ∧
    runOps (XgScene.empty.createNode ⟨some (strB "A"), .xgTime, [], []⟩).1
        [.addDag 0 []] = (XgScene.empty.createNode ⟨some (strB "A"), .xgTime, [], []⟩).1 := by
  constructor
  · exact c9_dag_invariant.2.1 _ 0 [] (by decide)
  · exact c9_dag_invariant.2.2 _ (.addDag 0 []) .typeError
      (c9_dag_invariant.2.1 _ 0 [] (by decide))

/-! ### C1: the write/read round trip -/

abbrev NodeDescr := Option (List Nat) × NodeType × List (PropName × PropVal)

instance : DecidableEq (Option NodeDescr) := inferInstance

instance : DecidableEq (AttribName × List (Option NodeDescr)) := inferInstance

instance : DecidableEq (Option (List Nat) × NodeType × List (PropName × PropVal) × List (AttribName × List (Option NodeDescr))) := inferInstance

/-- Identity-free description of the node at arena index `i`: its name, type
and properties.  Replacing arena indices by descriptors makes scenes from two
different reads comparable. -/
def nodeDescr (g : XgScene) (i : Nat) : Option NodeDescr :=
  (g.arena.get? i).map (fun nd => (nd.name, nd.ntype, nd.props))

/-- An input-attribute edge with its target indices replaced by descriptors. -/
def edgeView (g : XgScene) (ed : AttribName × List Nat) :
    AttribName × List (Option NodeDescr) :=
  (ed.1, ed.2.map (nodeDescr g))

/-- Full structural view of the node at arena index `i`: name, type,
properties and input-attribute edges (targets as descriptors). -/
def nodeView (g : XgScene) (i : Nat) :
    Option (Option (List Nat) × NodeType × List (PropName × PropVal) × List (AttribName × List (Option NodeDescr))) :=
  (g.arena.get? i).map (fun nd => (nd.name, nd.ntype, nd.props, nd.inattribs.map (edgeView g)))

/-- Structural equality of two scenes in the claim's sense: same node names
and types in pool order, same property values, same input-attribute edges in
the same order, and the same DAG keys and children (compared by descriptor,
not by arena index). -/
def sceneStructEqB (g1 g2 : XgScene) : Bool :=
  decide ((g1.pool.map (fun q => nodeView g1 q.2)) = (g2.pool.map (fun q => nodeView g2 q.2)))
  && decide ((g1.dag.map (fun e => (nodeDescr g1 e.1, e.2.map (nodeDescr g1))))
      = (g2.dag.map (fun e => (nodeDescr g2 e.1, e.2.map (nodeDescr g2)))))

/-- `true` iff writing `G` and reading the bytes back fails to reproduce a
structurally equal scene (either the re-read fails or the result differs). -/
def rtFail (G : XgScene) : Bool :=
  match write_xgscene G with
  | none => false
  | some bs => match read_xgscene bs with
      | .error _ => true
      | .ok G2 => if sceneStructEqB G G2 then false else true

/-- Length-prefixed encoding of a string, as `_read_pstr` expects it. -/
def pstrOf (s : String) : List Nat := (strB s).length :: strB s

/-- A well-formed XG file that declares the name `A` twice (the format allows
re-declaration; `_parse_xgnode` then creates a fresh node shadowing the old
one in the name pool).  Mesh `B` takes its `inputMaterial` edge to the first
`A`; the body of the second `A` is empty while the first carried `time`. -/
def shadowFile : List Nat :=
  strB "XGBv1.00"
  ++ pstrOf "xgTime" ++ pstrOf "A" ++ pstrOf ";"
  ++ pstrOf "xgTime" ++ pstrOf "A" ++ pstrOf "\x7b" ++ pstrOf "time" ++ [0,0,0,0] ++ pstrOf "\x7d"
  ++ pstrOf "xgDagMesh" ++ pstrOf "B" ++ pstrOf ";"
  ++ pstrOf "xgDagMesh" ++ pstrOf "B" ++ pstrOf "\x7b" ++ pstrOf "inputMaterial" ++ pstrOf "A" ++ pstrOf "" ++ pstrOf "\x7d"
  ++ pstrOf "xgTime" ++ pstrOf "A" ++ pstrOf ";"
  ++ pstrOf "dag" ++ pstrOf "\x7b" ++ pstrOf "\x7d"

/-- A minimal valid XG file: one `xgDagMesh` declaration and an empty dag. -/
def plainFile : List Nat :=
  strB "XGBv1.00" ++ pstrOf "xgDagMesh" ++ pstrOf "B" ++ pstrOf ";"
  ++ pstrOf "dag" ++ pstrOf "\x7b" ++ pstrOf "\x7d"

/-- The scene `plainFile` parses to. -/
def plainScene : XgScene := ⟨[⟨some (strB "B"), .xgDagMesh, [], []⟩], [(strB "B", 0)], []⟩

/-- Counterexample to C1 as stated: `shadowFile` is accepted by
`read_xgscene`, but writing the resulting scene and reading it back does not
reproduce a structurally equal scene.  The writer emits one declaration and
one body per *pool* entry, so the shadowed first `A` loses its body and the
mesh's `inputMaterial` edge silently retargets the re-declared `A`. -/
theorem c1_roundtrip_counterexample :
    ∃ G, read_xgscene shadowFile = Except.ok G ∧ rtFail G = true := by
  have h : (match read_xgscene shadowFile with
            | Except.ok g => rtFail g
            | Except.error _ => false) = true := by decide
  revert h
  cases read_xgscene shadowFile with
  | error e => intro h; cases h
  | ok g => intro h; exact ⟨g, rfl, h⟩

/-- C1 (amended): for every scene `G` produced by `read_xgscene` from a valid
file that is canonical — no node name declared twice, every node's properties
and input-attribute edges well-formed and writable — `write_xgscene G`
succeeds and reading the written bytes back yields exactly `G` (hence a scene
structurally equal to `G`: same names, types, bit-for-bit property values,
edges and DAG). -/
theorem c1_roundtrip_amended (F : List Nat) (G : XgScene)
    (hread : read_xgscene F = Except.ok G) (hcanon : sceneCanonB G = true) :
    ∃ bs, write_xgscene G = some bs ∧ read_xgscene bs = Except.ok G :=
  roundtrip_core G hcanon

/-- Witness for C1: the minimal file round-trips. -/
theorem c1_roundtrip_amended_witness :
    read_xgscene plainFile = Except.ok plainScene ∧ sceneCanonB plainScene = true ∧
    ∃ bs, write_xgscene plainScene = some bs ∧ read_xgscene bs = Except.ok plainScene :=
  ⟨by decide, by decide, c1_roundtrip_amended plainFile plainScene (by decide) (by decide)⟩

/-! ### C2: the triangle-strip winding heuristic of `_tri_indices_from_dagmesh`

Vertex coordinates and normals are real 3-vectors (`mathutils.Vector` holds
floats; we embed the geometry over `ℝ`).  `mathutils.geometry.normal` on a
triangle returns the normalized cross product `normalize((a-b) × (b-c))`,
the zero vector for a degenerate triangle; `Vector.angle(other, fallback)`
returns `arccos` of the normalized dot product, or the fallback (here `None`)
when either vector has zero length. -/

abbrev Vec3 := ℝ × ℝ × ℝ

def vadd (v w : Vec3) : Vec3 := (v.1 + w.1, v.2.1 + w.2.1, v.2.2 + w.2.2)

def vsub (v w : Vec3) : Vec3 := (v.1 - w.1, v.2.1 - w.2.1, v.2.2 - w.2.2)

def vsmul (c : ℝ) (v : Vec3) : Vec3 := (c * v.1, c * v.2.1, c * v.2.2)

def dot3 (v w : Vec3) : ℝ := v.1 * w.1 + v.2.1 * w.2.1 + v.2.2 * w.2.2

def cross3 (v w : Vec3) : Vec3 :=
  (v.2.1 * w.2.2 - v.2.2 * w.2.1,
   v.2.2 * w.1 - v.1 * w.2.2,
   v.1 * w.2.1 - v.2.1 * w.1)

noncomputable def norm3 (v : Vec3) : ℝ := Real.sqrt (dot3 v v)

open scoped Classical in
/-- `Vector.normalized()` / Blender's `normalize_v3`: scale to unit length,
or return the zero vector when the length is zero. -/
noncomputable def normalize3 (v : Vec3) : Vec3 :=
  if norm3 v = 0 then ((0 : ℝ), 0, 0) else vsmul (norm3 v)⁻¹ v

/-- `mathutils.geometry.normal((a, b, c))` (Blender's `normal_tri_v3`). -/
noncomputable def blNormal (a b c : Vec3) : Vec3 :=
  normalize3 (cross3 (vsub a b) (vsub b c))

open scoped Classical in
/-- `a.angle(b, None)`: `arccos` of the normalized dot product, `none` when
either vector has zero length.  (`Real.arccos` is already clamped to
`[-1, 1]`, as Blender's `saacos` is.) -/
noncomputable def angleOpt (a b : Vec3) : Option ℝ :=
  if norm3 a = 0 ∨ norm3 b = 0 then none
  else some (Real.arccos (dot3 a b / (norm3 a * norm3 b)))

abbrev Tri := Nat × Nat × Nat

/-- The reversal `(tri[1], tri[0], tri[2])` applied in the heuristic. -/
def reverseTri (t : Tri) : Tri := (t.2.1, t.1, t.2.2)

/-- The strip-decoding loop `for i in range(len(tristrip) - 2)`: window
`tristrip[i:i+3]`, with odd-numbered windows flipped `(tri[1], tri[0], tri[2])`. -/
def stripTrisFrom : Nat → List Nat → List Tri
  | i, a :: b :: c :: rest =>
      (if i % 2 = 1 then (b, a, c) else (a, b, c)) :: stripTrisFrom (i + 1) (b :: c :: rest)
  | _, _ => []

def stripTris (strip : List Nat) : List Tri := stripTrisFrom 0 strip

/-- `sum(tri_dagnormals, Vector()) / 3.0`: the average vertex normal. -/
noncomputable def avgNormal (normals : Nat → Vec3) (t : Tri) : Vec3 :=
  vsmul (3 : ℝ)⁻¹ (vadd (vadd (normals t.1) (normals t.2.1)) (normals t.2.2))

/-- `tri_average_dagnormal.angle(bl_facenormal, None)` for one decoded triangle. -/
noncomputable def triAngle (coords normals : Nat → Vec3) (t : Tri) : Option ℝ :=
  angleOpt (avgNormal normals t)
    (blNormal (coords t.1) (coords t.2.1) (coords t.2.2))

open scoped Classical in
/-- The per-strip body of the strips loop of `_tri_indices_from_dagmesh`:
decode the strip's triangles (alternating parity), and when
`fix_tristrip_winding_order` holds, collect the defined normal differences,
and reverse every triangle when their average exceeds `radians(90)`. -/
noncomputable def tristripFixed (fixstrip : Bool) (coords normals : Nat → Vec3)
    (strip : List Nat) : List Tri :=
  let tris := stripTris strip
  if fixstrip then
    let diffs := tris.filterMap (triAngle coords normals)
    if diffs ≠ [] ∧ Real.pi / 2 < diffs.sum / (diffs.length : ℝ)
    then tris.map reverseTri
    else tris
  else tris

/-- `Constants.CullFunc.TWOSIDED` -/
def TWOSIDED : Nat := 0

/-- The triangle-strips section of `_tri_indices_from_dagmesh`:
`fix_tristrip_winding_order = fix_winding_order and dagnormals and
(cullFunc == TWOSIDED)` (with `hasNormals` the truthiness of `dagnormals`),
then every strip of `tridata_to_prims(triStripData, primType)` contributes
its decoded — possibly reversed — triangles in order. -/
noncomputable def triIndicesStrips (fixWindingOrder hasNormals : Bool) (cullFunc : Nat)
    (coords normals : Nat → Vec3) (triStripData : List Nat) (primType : Nat) :
    Option (List Tri) :=
  (tridata_to_prims triStripData primType).map (fun prims =>
    prims.flatMap
      (tristripFixed (fixWindingOrder && hasNormals && (cullFunc == TWOSIDED)) coords normals))

/-- A triangle is non-degenerate when its vertices are not collinear, i.e.
the cross product defining its face normal is nonzero. -/
def nonDegenerate (coords : Nat → Vec3) (t : Tri) : Prop :=
  cross3 (vsub (coords t.1) (coords t.2.1)) (vsub (coords t.2.1) (coords t.2.2))
    ≠ ((0 : ℝ), 0, 0)

/-- The claim's angle for one triangle: the angle between the average of the
three vertex normals and the face normal implied by the decoded winding. -/
noncomputable def specAngle (coords normals : Nat → Vec3) (t : Tri) : ℝ :=
  Real.arccos (dot3 (avgNormal normals t)
      (blNormal (coords t.1) (coords t.2.1) (coords t.2.2))
    / (norm3 (avgNormal normals t)
        * norm3 (blNormal (coords t.1) (coords t.2.1) (coords t.2.2))))

lemma dot3_self_nonneg (v : Vec3) : 0 ≤ dot3 v v := by
  obtain ⟨x, y, z⟩ := v
  simp only [dot3]
  nlinarith [mul_self_nonneg x, mul_self_nonneg y, mul_self_nonneg z]

lemma norm3_eq_zero_iff (v : Vec3) : norm3 v = 0 ↔ v = ((0 : ℝ), 0, 0) := by
  obtain ⟨x, y, z⟩ := v
  rw [norm3, Real.sqrt_eq_zero (dot3_self_nonneg _)]
  simp only [dot3, Prod.mk.injEq]
  constructor
  · intro h
    have hx : x * x = 0 := by
      nlinarith [mul_self_nonneg x, mul_self_nonneg y, mul_self_nonneg z]
    have hy : y * y = 0 := by
      nlinarith [mul_self_nonneg x, mul_self_nonneg y, mul_self_nonneg z]
    have hz : z * z = 0 := by
      nlinarith [mul_self_nonneg x, mul_self_nonneg y, mul_self_nonneg z]
    exact ⟨mul_self_eq_zero.mp hx, mul_self_eq_zero.mp hy, mul_self_eq_zero.mp hz⟩
  · rintro ⟨rfl, rfl, rfl⟩; ring

lemma norm3_nonneg (v : Vec3) : 0 ≤ norm3 v := Real.sqrt_nonneg _

lemma norm3_vsmul (c : ℝ) (v : Vec3) : norm3 (vsmul c v) = |c| * norm3 v := by
  obtain ⟨x, y, z⟩ := v
  rw [norm3, norm3]
  have h : dot3 (vsmul c (x, y, z)) (vsmul c (x, y, z)) = c ^ 2 * dot3 (x, y, z) (x, y, z) := by
    simp only [vsmul, dot3]; ring
  rw [h, Real.sqrt_mul (sq_nonneg c), Real.sqrt_sq_eq_abs]

lemma norm3_normalize3_eq_zero_iff (v : Vec3) :
    (norm3 (normalize3 v) = 0) ↔ v = ((0 : ℝ), 0, 0) := by
  rw [normalize3]
  by_cases h : norm3 v = 0
  · rw [if_pos h]
    simp only [norm3_eq_zero_iff] at h ⊢
    simp [h]
  · rw [if_neg h, norm3_vsmul,
      abs_of_nonneg (inv_nonneg.mpr (norm3_nonneg v)), inv_mul_cancel₀ h]
    simp only [norm3_eq_zero_iff] at h
    constructor
    · intro h1; exact absurd h1 one_ne_zero
    · intro hv; exact absurd hv h

open scoped Classical in
/-- Pointwise: when the average vertex normal of `t` is nonzero, the recorded
normal difference of `t` is defined exactly when `t` is non-degenerate, and
is then the claim's angle. -/
lemma triAngle_eq (coords normals : Nat → Vec3) (t : Tri)
    (havg : avgNormal normals t ≠ ((0 : ℝ), 0, 0)) :
    triAngle coords normals t
      = if nonDegenerate coords t then some (specAngle coords normals t) else none := by
  rw [triAngle, angleOpt, specAngle]
  have h1 : ¬ norm3 (avgNormal normals t) = 0 := fun h => havg ((norm3_eq_zero_iff _).mp h)
  by_cases h2 : nonDegenerate coords t
  · rw [if_pos h2, if_neg]
    rintro (h | h)
    · exact h1 h
    · exact h2 ((norm3_normalize3_eq_zero_iff _).mp h)
  · rw [if_neg h2, if_pos]
    right
    rw [nonDegenerate, not_not] at h2
    rw [blNormal, norm3_normalize3_eq_zero_iff]
    exact h2

lemma filterMap_eq_filter_map {α β : Type} (l : List α) (f : α → Option β)
    (p : α → Prop) [DecidablePred p] (g : α → β)
    (h : ∀ a ∈ l, f a = if p a then some (g a) else none) :
    l.filterMap f = (l.filter (fun a => decide (p a))).map g := by
  induction l with
  | nil => rfl
  | cons a l ih =>
    have ha := h a (List.mem_cons_self a l)
    have ih' := ih (fun x hx => h x (List.mem_cons_of_mem _ hx))
    rw [List.filterMap_cons, List.filter_cons]
    by_cases hp : p a
    · rw [if_pos hp] at ha
      rw [ha, decide_eq_true hp, if_pos rfl, List.map_cons, ih']
    · rw [if_neg hp] at ha
      rw [ha, decide_eq_false hp, if_neg Bool.false_ne_true, ih']

open scoped Classical in
/-- C2: for every triangle strip of an `xgDagMesh` whose geometry has
per-vertex normals and whose `cullFunc` is `TWOSIDED` (and whose triangles'
average vertex normals are nonzero), the extraction computes, for each
non-degenerate triangle of the strip, the angle between the average of its
three vertex normals and the face normal implied by the decoded winding,
averages these angles over the strip, and reverses every triangle of the
strip exactly when that average exceeds 90°; when normals are absent or the
mesh is not two-sided the heuristic is not applied at all. -/
theorem c2_strip_winding (fixw hasN : Bool) (cf : Nat)
    (coords normals : Nat → Vec3) (tsd : List Nat) (pt : Nat)
    (havg : ∀ t : Tri, avgNormal normals t ≠ ((0 : ℝ), 0, 0)) :
    (hasN = false ∨ cf ≠ TWOSIDED →
      triIndicesStrips fixw hasN cf coords normals tsd pt
        = (tridata_to_prims tsd pt).map (fun prims => prims.flatMap stripTris)) ∧
    (∀ prims, tridata_to_prims tsd pt = some prims →
      triIndicesStrips true true TWOSIDED coords normals tsd pt
        = some (prims.flatMap (fun strip =>
            let tris := stripTris strip
            let angles := (tris.filter (fun t => decide (nonDegenerate coords t))).map
                (specAngle coords normals)
            if angles ≠ [] ∧ Real.pi / 2 < angles.sum / (angles.length : ℝ)
            then tris.map reverseTri
            else tris))) := by
  constructor
  · intro hoff
    have hguard : (fixw && hasN && (cf == TWOSIDED)) = false := by
      rcases hoff with h | h
      · simp [h]
      · simp [beq_eq_false_iff_ne.mpr h]
    rw [triIndicesStrips, hguard]
    cases tridata_to_prims tsd pt with
    | none => rfl
    | some prims =>
      simp only [Option.map_some']
      congr 1
  · intro prims hp
    rw [triIndicesStrips, hp]
    have hguard : (true && true && ((TWOSIDED : Nat) == TWOSIDED)) = true := by decide
    rw [hguard, Option.map_some']
    congr 1
    apply List.flatMap_congr
    intro strip _
    rw [tristripFixed]
    have hfm : (stripTris strip).filterMap (triAngle coords normals)
        = ((stripTris strip).filter (fun t => decide (nonDegenerate coords t))).map
            (specAngle coords normals) :=
      filterMap_eq_filter_map _ _ _ _ (fun t _ => triAngle_eq coords normals t (havg t))
    simp only [hfm, if_true]

/-! Concrete geometry for the C2 witness: the strip `[0,1,2,3]` over a unit
square in the XY plane, with constant vertex normals `+Z` (agreeing with the
decoded winding) or `-Z` (inverted). -/

def coordsW : Nat → Vec3
  | 0 => ((0 : ℝ), 0, 0)
  | 1 => ((1 : ℝ), 0, 0)
  | 2 => ((0 : ℝ), 1, 0)
  | _ => ((1 : ℝ), 1, 0)

def normalsUpW : Nat → Vec3 := fun _ => ((0 : ℝ), 0, 1)

def normalsDownW : Nat → Vec3 := fun _ => ((0 : ℝ), 0, -1)

lemma norm3_unitZ : norm3 ((0 : ℝ), 0, 1) = 1 := by
  rw [norm3]
  have h : dot3 ((0 : ℝ), 0, 1) ((0 : ℝ), 0, 1) = 1 := by rw [dot3]; norm_num
  rw [h, Real.sqrt_one]

lemma norm3_negZ : norm3 ((0 : ℝ), 0, -1) = 1 := by
  rw [norm3]
  have h : dot3 ((0 : ℝ), 0, -1) ((0 : ℝ), 0, -1) = 1 := by rw [dot3]; norm_num
  rw [h, Real.sqrt_one]

lemma normalize3_unitZ : normalize3 ((0 : ℝ), 0, 1) = ((0 : ℝ), 0, 1) := by
  rw [normalize3, norm3_unitZ, if_neg one_ne_zero, vsmul]
  norm_num

lemma avgUp (t : Tri) : avgNormal normalsUpW t = ((0 : ℝ), 0, 1) := by
  simp only [avgNormal, normalsUpW, vadd, vsmul, Prod.mk.injEq]
  norm_num

lemma avgDown (t : Tri) : avgNormal normalsDownW t = ((0 : ℝ), 0, -1) := by
  simp only [avgNormal, normalsDownW, vadd, vsmul, Prod.mk.injEq]
  norm_num

lemma crossW1 : cross3 (vsub (coordsW 0) (coordsW 1)) (vsub (coordsW 1) (coordsW 2))
    = ((0 : ℝ), 0, 1) := by
  simp only [coordsW, vsub, cross3, Prod.mk.injEq]
  norm_num

lemma crossW2 : cross3 (vsub (coordsW 2) (coordsW 1)) (vsub (coordsW 1) (coordsW 3))
    = ((0 : ℝ), 0, 1) := by
  simp only [coordsW, vsub, cross3, Prod.mk.injEq]
  norm_num

lemma faceW1 : blNormal (coordsW 0) (coordsW 1) (coordsW 2) = ((0 : ℝ), 0, 1) := by
  rw [blNormal, crossW1, normalize3_unitZ]

lemma faceW2 : blNormal (coordsW 2) (coordsW 1) (coordsW 3) = ((0 : ℝ), 0, 1) := by
  rw [blNormal, crossW2, normalize3_unitZ]

lemma ndW1 : nonDegenerate coordsW (0, 1, 2) := by
  rw [nonDegenerate]
  show cross3 (vsub (coordsW 0) (coordsW 1)) (vsub (coordsW 1) (coordsW 2)) ≠ _
  rw [crossW1]
  simp [Prod.ext_iff]

lemma ndW2 : nonDegenerate coordsW (2, 1, 3) := by
  rw [nonDegenerate]
  show cross3 (vsub (coordsW 2) (coordsW 1)) (vsub (coordsW 1) (coordsW 3)) ≠ _
  rw [crossW2]
  simp [Prod.ext_iff]

lemma specUpW1 : specAngle coordsW normalsUpW (0, 1, 2) = 0 := by
  show Real.arccos (dot3 (avgNormal normalsUpW (0, 1, 2))
      (blNormal (coordsW 0) (coordsW 1) (coordsW 2))
    / (norm3 (avgNormal normalsUpW (0, 1, 2))
        * norm3 (blNormal (coordsW 0) (coordsW 1) (coordsW 2)))) = 0
  rw [avgUp, faceW1, norm3_unitZ]
  have h : dot3 ((0 : ℝ), 0, 1) ((0 : ℝ), 0, 1) = 1 := by rw [dot3]; norm_num
  rw [h]
  norm_num [Real.arccos_one]

lemma specUpW2 : specAngle coordsW normalsUpW (2, 1, 3) = 0 := by
  show Real.arccos (dot3 (avgNormal normalsUpW (2, 1, 3))
      (blNormal (coordsW 2) (coordsW 1) (coordsW 3))
    / (norm3 (avgNormal normalsUpW (2, 1, 3))
        * norm3 (blNormal (coordsW 2) (coordsW 1) (coordsW 3)))) = 0
  rw [avgUp, faceW2, norm3_unitZ]
  have h : dot3 ((0 : ℝ), 0, 1) ((0 : ℝ), 0, 1) = 1 := by rw [dot3]; norm_num
  rw [h]
  norm_num [Real.arccos_one]

lemma specDownW1 : specAngle coordsW normalsDownW (0, 1, 2) = Real.pi := by
  show Real.arccos (dot3 (avgNormal normalsDownW (0, 1, 2))
      (blNormal (coordsW 0) (coordsW 1) (coordsW 2))
    / (norm3 (avgNormal normalsDownW (0, 1, 2))
        * norm3 (blNormal (coordsW 0) (coordsW 1) (coordsW 2)))) = Real.pi
  rw [avgDown, faceW1, norm3_negZ, norm3_unitZ]
  have h : dot3 ((0 : ℝ), 0, -1) ((0 : ℝ), 0, 1) = -1 := by rw [dot3]; norm_num
  rw [h]
  norm_num [Real.arccos_neg_one]

lemma specDownW2 : specAngle coordsW normalsDownW (2, 1, 3) = Real.pi := by
  show Real.arccos (dot3 (avgNormal normalsDownW (2, 1, 3))
      (blNormal (coordsW 2) (coordsW 1) (coordsW 3))
    / (norm3 (avgNormal normalsDownW (2, 1, 3))
        * norm3 (blNormal (coordsW 2) (coordsW 1) (coordsW 3)))) = Real.pi
  rw [avgDown, faceW2, norm3_negZ, norm3_unitZ]
  have h : dot3 ((0 : ℝ), 0, -1) ((0 : ℝ), 0, 1) = -1 := by rw [dot3]; norm_num
  rw [h]
  norm_num [Real.arccos_neg_one]

open scoped Classical in
lemma stripEvalUp :
    (let tris := stripTris [0, 1, 2, 3]
     let angles := (tris.filter (fun t => decide (nonDegenerate coordsW t))).map
         (specAngle coordsW normalsUpW)
     if angles ≠ [] ∧ Real.pi / 2 < angles.sum / (angles.length : ℝ)
     then tris.map reverseTri
     else tris) = [(0, 1, 2), (2, 1, 3)] := by
  have htris : stripTris [0, 1, 2, 3] = [(0, 1, 2), (2, 1, 3)] := rfl
  simp only [htris, List.filter_cons, List.filter_nil,
    decide_eq_true ndW1, decide_eq_true ndW2, eq_self_iff_true, if_true,
    List.map_cons, List.map_nil, specUpW1, specUpW2]
  rw [if_neg]
  rintro ⟨-, hlt⟩
  have hsum : ([(0 : ℝ), 0].sum / (([(0 : ℝ), 0].length : Nat) : ℝ)) = 0 := by
    simp
  rw [hsum] at hlt
  exact absurd hlt (not_lt.mpr (le_of_lt (by positivity)))

open scoped Classical in
lemma stripEvalDown :
    (let tris := stripTris [0, 1, 2, 3]
     let angles := (tris.filter (fun t => decide (nonDegenerate coordsW t))).map
         (specAngle coordsW normalsDownW)
     if angles ≠ [] ∧ Real.pi / 2 < angles.sum / (angles.length : ℝ)
     then tris.map reverseTri
     else tris) = [(1, 0, 2), (1, 2, 3)] := by
  have htris : stripTris [0, 1, 2, 3] = [(0, 1, 2), (2, 1, 3)] := rfl
  simp only [htris, List.filter_cons, List.filter_nil,
    decide_eq_true ndW1, decide_eq_true ndW2, eq_self_iff_true, if_true,
    List.map_cons, List.map_nil, specDownW1, specDownW2]
  rw [if_pos]
  · rfl
  constructor
  · simp
  · have hsum : ([Real.pi, Real.pi].sum / (([Real.pi, Real.pi].length : Nat) : ℝ))
        = Real.pi := by
      simp only [List.sum_cons, List.sum_nil, List.length_cons, List.length_nil]
      push_cast
      ring
    rw [hsum]
    exact half_lt_self Real.pi_pos

lemma havgUpW : ∀ t : Tri, avgNormal normalsUpW t ≠ ((0 : ℝ), 0, 0) := by
  intro t h
  rw [avgUp t] at h
  simp [Prod.ext_iff] at h

lemma havgDownW : ∀ t : Tri, avgNormal normalsDownW t ≠ ((0 : ℝ), 0, 0) := by
  intro t h
  rw [avgDown t] at h
  simp [Prod.ext_iff] at h

/-- Witness for C2: on the strip `[0,1,2,3]` over the unit square, with
normals `+Z` agreeing with the decoded winding no triangle is reversed; with
inverted normals `-Z` every triangle of the strip is reversed; and with the
mesh not two-sided the heuristic is skipped. -/
theorem c2_strip_winding_witness :
    triIndicesStrips true true TWOSIDED coordsW normalsUpW [4, 0, 1, 2, 3] KICKSEP
      = some [(0, 1, 2), (2, 1, 3)] ∧
    triIndicesStrips true true TWOSIDED coordsW normalsDownW [4, 0, 1, 2, 3] KICKSEP
      = some [(1, 0, 2), (1, 2, 3)] ∧
    triIndicesStrips true true 2 coordsW normalsDownW [4, 0, 1, 2, 3] KICKSEP
      = some [(0, 1, 2), (2, 1, 3)] := by
  have hprims : tridata_to_prims [4, 0, 1, 2, 3] KICKSEP = some [[0, 1, 2, 3]] := rfl
  refine ⟨?_, ?_, ?_⟩
  · have h := (c2_strip_winding true true TWOSIDED coordsW normalsUpW
      [4, 0, 1, 2, 3] KICKSEP havgUpW).2 [[0, 1, 2, 3]] hprims
    rw [h]
    congr 1
    rw [List.flatMap_cons, List.flatMap_nil, List.append_nil]
    exact stripEvalUp
  · have h := (c2_strip_winding true true TWOSIDED coordsW normalsDownW
      [4, 0, 1, 2, 3] KICKSEP havgDownW).2 [[0, 1, 2, 3]] hprims
    rw [h]
    congr 1
    rw [List.flatMap_cons, List.flatMap_nil, List.append_nil]
    exact stripEvalDown
  · have h := (c2_strip_winding true true 2 coordsW normalsDownW
      [4, 0, 1, 2, 3] KICKSEP havgDownW).1 (Or.inr (by decide))
    rw [h, hprims]
    rw [Option.map_some']
    congr 1

/-! ### C3: quaternion sign-compatibility in `_load_animations`

Rotation keys are loaded bone-wide: `rotkeys_uncorrected_diff[i] =
rest_rot.rotation_difference(abs_rot.inverted())` over ALL of
`rot_interpolator.keys`, then `quat2.make_compatible(quat1)` is chained in
place over consecutive pairs of the whole keytrack, and only afterwards does
each animsep (clip) take its slice `start_keyframe <= keyframe_idx <=
end_keyframe`.  Quaternions are `(w, x, y, z)` over `ℚ`;
`make_compatible` picks of the two equivalent representations `±q` the one
nearest the previous (processed) sample, i.e. flips the sign when the dot
product with it is negative. -/

abbrev Quat := ℚ × ℚ × ℚ × ℚ

def quatMul (a b : Quat) : Quat :=
  (a.1 * b.1 - a.2.1 * b.2.1 - a.2.2.1 * b.2.2.1 - a.2.2.2 * b.2.2.2,
   a.1 * b.2.1 + a.2.1 * b.1 + a.2.2.1 * b.2.2.2 - a.2.2.2 * b.2.2.1,
   a.1 * b.2.2.1 + a.2.2.1 * b.1 + a.2.2.2 * b.2.1 - a.2.1 * b.2.2.2,
   a.1 * b.2.2.2 + a.2.2.2 * b.1 + a.2.1 * b.2.2.1 - a.2.2.1 * b.2.1)

def quatConj (a : Quat) : Quat := (a.1, -a.2.1, -a.2.2.1, -a.2.2.2)

def quatDot (a b : Quat) : ℚ :=
  a.1 * b.1 + a.2.1 * b.2.1 + a.2.2.1 * b.2.2.1 + a.2.2.2 * b.2.2.2

def quatScale (c : ℚ) (a : Quat) : Quat := (c * a.1, c * a.2.1, c * a.2.2.1, c * a.2.2.2)

def quatNeg (a : Quat) : Quat := (-a.1, -a.2.1, -a.2.2.1, -a.2.2.2)

/-- `Quaternion.inverted()`: the conjugate scaled by `1 / dot(q, q)`. -/
def quatInv (a : Quat) : Quat := quatScale (1 / quatDot a a) (quatConj a)

/-- `q1.rotation_difference(q2)` (Blender's `rotation_between_quats_to_quat`):
conjugate `q1`, scale by `1 / dot`, multiply by `q2`. -/
def rotationDifference (q1 q2 : Quat) : Quat :=
  quatMul (quatScale (1 / quatDot (quatConj q1) (quatConj q1)) (quatConj q1)) q2

/-- `Quaternion((w, x, y, z))` built from a stored key `(x, y, z, w)`. -/
def keyQuat (k : ℚ × ℚ × ℚ × ℚ) : Quat := (k.2.2.2, k.1, k.2.1, k.2.2.1)

/-- One entry of `rotkeys_uncorrected_diff` (its final value `diffquat2`):
`rest_rot.rotation_difference(abs_rot.inverted())`. -/
def diffKey (restRot : Quat) (k : ℚ × ℚ × ℚ × ℚ) : Quat :=
  rotationDifference restRot (quatInv (keyQuat k))

/-- `quat2.make_compatible(quat1)`: of the two equivalent representations
`±quat2`, keep the one nearest `quat1` — flip the sign when the dot product
is negative. -/
def makeCompatible (prev q : Quat) : Quat :=
  if quatDot q prev < 0 then quatNeg q else q

/-- The in-place `for quat1, quat2 in zip(lst, lst[1:]):
quat2.make_compatible(quat1)` loop: each element is made compatible with the
already-corrected previous element. -/
def compatChain : Quat → List Quat → List Quat
  | _, [] => []
  | prev, q :: qs =>
      let q2 := makeCompatible prev q
      q2 :: compatChain q2 qs

/-- The `if len(rotkeys_uncorrected_diff) > 1:` compatibility pass over the
whole keytrack (the guard skips lists of fewer than two samples; the loop
never touches the first sample). -/
def compatAll : List Quat → List Quat
  | [] => []
  | [q] => [q]
  | q :: qs => q :: compatChain q qs

/-- The rotation keys one clip's fcurves receive: the whole keytrack's
corrected differential quaternions, sliced by `animsep_start_keyframe <=
keyframe_idx <= animsep_end_keyframe` (the per-axis `enumerate` filter,
expressed before the `zip(*...)` transpose). -/
def rotClipKeys (keys : List (ℚ × ℚ × ℚ × ℚ)) (restRot : Quat)
    (start endk : Nat) : List Quat :=
  ((compatAll (keys.map (diffKey restRot))).enum.filter
      (fun p => start ≤ p.1 ∧ p.1 ≤ endk)).map Prod.snd

/-- The claim's reading: slice the clip's span first, then apply the
compatibility fix-up within the clip only. -/
def rotClipKeysSpec (keys : List (ℚ × ℚ × ℚ × ℚ)) (restRot : Quat)
    (start endk : Nat) : List Quat :=
  compatAll (((keys.map (diffKey restRot)).enum.filter
      (fun p => start ≤ p.1 ∧ p.1 ≤ endk)).map Prod.snd)

lemma compatChain_length (l : List Quat) : ∀ prev, (compatChain prev l).length = l.length := by
  induction l with
  | nil => intro prev; rfl
  | cons q qs ih => intro prev; rw [compatChain]; simp only [List.length_cons, ih]

lemma compatChain_sign (l : List Quat) :
    ∀ prev, ∀ p ∈ (compatChain prev l).zip l, p.1 = p.2 ∨ p.1 = quatNeg p.2 := by
  induction l with
  | nil => intro prev p hp; cases hp
  | cons q qs ih =>
    intro prev p hp
    rw [compatChain] at hp
    rcases List.mem_cons.mp hp with h | h
    · subst h
      rw [makeCompatible]
      by_cases hd : quatDot q prev < 0
      · rw [if_pos hd]; right; rfl
      · rw [if_neg hd]; left; rfl
    · exact ih _ p h

lemma quatDot_neg (a b : Quat) : quatDot (quatNeg a) b = -quatDot a b := by
  obtain ⟨w, x, y, z⟩ := a
  obtain ⟨w2, x2, y2, z2⟩ := b
  simp only [quatNeg, quatDot]
  ring

lemma compatChain_chain (l : List Quat) :
    ∀ prev, List.Chain (fun a b => 0 ≤ quatDot b a) prev (compatChain prev l) := by
  induction l with
  | nil => intro prev; exact List.Chain.nil
  | cons q qs ih =>
    intro prev
    rw [compatChain]
    refine List.Chain.cons ?_ (ih _)
    rw [makeCompatible]
    by_cases hd : quatDot q prev < 0
    · rw [if_pos hd, quatDot_neg]
      linarith
    · rw [if_neg hd]
      exact not_lt.mp hd

lemma compatAll_cons_cons (q q2 : Quat) (qs : List Quat) :
    compatAll (q :: q2 :: qs) = q :: compatChain q (q2 :: qs) := rfl

lemma compatAll_length (l : List Quat) : (compatAll l).length = l.length := by
  rcases l with _ | ⟨q, _ | ⟨q2, qs⟩⟩
  · rfl
  · rfl
  · rw [compatAll_cons_cons]
    simp only [List.length_cons, compatChain_length]

lemma compatAll_sign (l : List Quat) :
    ∀ p ∈ (compatAll l).zip l, p.1 = p.2 ∨ p.1 = quatNeg p.2 := by
  match l with
  | [] => intro p hp; cases hp
  | [q] =>
      intro p hp
      rcases List.mem_cons.mp hp with h | h
      · subst h; left; rfl
      · cases h
  | q :: q2 :: qs =>
      rw [compatAll_cons_cons]
      intro p hp
      rw [List.zip_cons_cons] at hp
      rcases List.mem_cons.mp hp with h | h
      · subst h; left; rfl
      · exact compatChain_sign _ _ p h

lemma compatAll_chain (l : List Quat) :
    List.Chain' (fun a b => 0 ≤ quatDot b a) (compatAll l) := by
  match l with
  | [] => exact List.chain'_nil
  | [q] => exact List.chain'_singleton q
  | q :: q2 :: qs =>
      rw [compatAll_cons_cons]
      exact compatChain_chain _ q

/-- Counterexample to C3's scoping: four keyframes, rest rotation the
identity, the second clip spanning keyframes 2–3.  The keys are unit
quaternions `±identity`; the whole-track chained fix-up flips keyframes 1 and
2 (the flip at keyframe 1 propagates across the clip boundary into clip 2),
so clip 2 receives `[+1, +1]`, while applying the fix-up within clip 2's span
only would leave its first sample untouched and yield `[-1, -1]`. -/
theorem c3_compat_counterexample :
    rotClipKeys [(0, 0, 0, 1), (0, 0, 0, -1), (0, 0, 0, -1), (0, 0, 0, 1)]
        ((1 : ℚ), 0, 0, 0) 2 3
      = [((1 : ℚ), 0, 0, 0), ((1 : ℚ), 0, 0, 0)] ∧
    rotClipKeysSpec [(0, 0, 0, 1), (0, 0, 0, -1), (0, 0, 0, -1), (0, 0, 0, 1)]
        ((1 : ℚ), 0, 0, 0) 2 3
      = [((-1 : ℚ), 0, 0, 0), ((-1 : ℚ), 0, 0, 0)] := by
  have hd1 : diffKey ((1 : ℚ), 0, 0, 0) (0, 0, 0, 1) = ((1 : ℚ), 0, 0, 0) := by
    norm_num [diffKey, rotationDifference, quatMul, quatScale, quatConj, quatDot,
      quatInv, keyQuat, Prod.ext_iff]
  have hd2 : diffKey ((1 : ℚ), 0, 0, 0) (0, 0, 0, -1) = ((-1 : ℚ), 0, 0, 0) := by
    norm_num [diffKey, rotationDifference, quatMul, quatScale, quatConj, quatDot,
      quatInv, keyQuat, Prod.ext_iff]
  have hmap : [((0 : ℚ), (0 : ℚ), (0 : ℚ), (1 : ℚ)), (0, 0, 0, -1), (0, 0, 0, -1),
        (0, 0, 0, 1)].map (diffKey ((1 : ℚ), 0, 0, 0))
      = [((1 : ℚ), 0, 0, 0), ((-1 : ℚ), 0, 0, 0), ((-1 : ℚ), 0, 0, 0),
         ((1 : ℚ), 0, 0, 0)] := by
    simp only [List.map_cons, List.map_nil, hd1, hd2]
  have hcomp : compatAll [((1 : ℚ), 0, 0, 0), ((-1 : ℚ), 0, 0, 0), ((-1 : ℚ), 0, 0, 0),
        ((1 : ℚ), 0, 0, 0)]
      = [((1 : ℚ), 0, 0, 0), ((1 : ℚ), 0, 0, 0), ((1 : ℚ), 0, 0, 0),
         ((1 : ℚ), 0, 0, 0)] := by
    norm_num [compatAll, compatChain, makeCompatible, quatDot, quatNeg, Prod.ext_iff]
  have hcomp2 : compatAll [((-1 : ℚ), 0, 0, 0), ((1 : ℚ), 0, 0, 0)]
      = [((-1 : ℚ), 0, 0, 0), ((-1 : ℚ), 0, 0, 0)] := by
    norm_num [compatAll, compatChain, makeCompatible, quatDot, quatNeg, Prod.ext_iff]
  constructor
  · rw [rotClipKeys, hmap, hcomp]
    rfl
  · rw [rotClipKeysSpec, hmap]
    exact (congrArg compatAll (by rfl :
      ((([((1 : ℚ), 0, 0, 0), ((-1 : ℚ), 0, 0, 0), ((-1 : ℚ), 0, 0, 0),
          ((1 : ℚ), 0, 0, 0)] : List Quat).enum.filter
            (fun p => 2 ≤ p.1 ∧ p.1 ≤ 3)).map Prod.snd)
        = [((-1 : ℚ), 0, 0, 0), ((1 : ℚ), 0, 0, 0)])).trans hcomp2

/-- C3 (amended): consecutive differential quaternion samples are made
sign-compatible sequentially (each replaced by whichever of `±q` has
nonnegative dot product with — i.e. is nearest to — the previous corrected
sample), but over the bone's WHOLE keytrack, before clip slicing: each clip
receives its span's slice of the one track-wide corrected sequence, so the
fix-up does chain across clip boundaries. -/
theorem c3_compat_amended (keys : List (ℚ × ℚ × ℚ × ℚ)) (restRot : Quat)
    (start endk : Nat) :
    (compatAll (keys.map (diffKey restRot))).length = keys.length ∧
    (∀ p ∈ (compatAll (keys.map (diffKey restRot))).zip (keys.map (diffKey restRot)),
      p.1 = p.2 ∨ p.1 = quatNeg p.2) ∧
    List.Chain' (fun a b => 0 ≤ quatDot b a) (compatAll (keys.map (diffKey restRot))) ∧
    rotClipKeys keys restRot start endk
      = ((compatAll (keys.map (diffKey restRot))).enum.filter
          (fun p => start ≤ p.1 ∧ p.1 ≤ endk)).map Prod.snd := by
  refine ⟨?_, compatAll_sign _, compatAll_chain _, rfl⟩
  rw [compatAll_length, List.length_map]
